import Mathlib

/-!
# Mozi installer (`main.go`): a shallow embedding and its verified properties

The program copies embedded command documents (`commands/**.md`) and the rule
documents they reference (`rules/**.mdc`) below a destination base directory,
asking the user what to do when a destination file exists with other content.

Modelling conventions

* A Go `string` or file content is a `Str`, a list of Unicode code points
  (documents are UTF-8 text).  Byte lengths are recovered with `byteLen`.
* The embedded file system and the operating system are the record `Env`:
  the walk order of `fs.WalkDir`, the content of each embedded file, the
  working and home directories, the external diff tool and editor, the
  iteration order of Go maps, and which writes and directory creations the
  operating system refuses.
* The mutable world is the record `World`: the regular files and the
  directories of the destination file system, the data still to arrive on
  standard input (one entry per read call; every call of the resolver reads
  through a reader of its own, so what a read returns after the first line
  feed is lost), and everything the program has printed so far (one entry per
  print call, standard output and standard error interleaved).
* A system call that can fail for reasons outside the program (a write, the
  creation of a directory or of a scratch file, the run of an external tool)
  takes its outcome from `Env`; the program's reaction to each outcome is
  what the definitions below embed.
* A Go function returning `error` returns `Option Err` next to the new world.
-/

namespace Mozi

/-! ## Strings -/

/-- A Go string, as its sequence of code points. -/
abbrev Str := List Char

/-- Number of bytes of the UTF-8 encoding of one code point (`utf8.RuneLen`). -/
def runeLen (c : Char) : Nat :=
  if c.toNat < 128 then 1 else if c.toNat < 2048 then 2 else if c.toNat < 65536 then 3 else 4

/-- Length in bytes of a string (Go `len`). -/
def byteLen (s : Str) : Nat := (s.map runeLen).sum

/-- Go `unicode.IsSpace`: the Latin-1 spaces and the code points of category Z or
property Pattern_White_Space listed by the Go library. -/
def isSpace (c : Char) : Bool :=
  let n := c.toNat
  n == 32 || (9 ≤ n && n ≤ 13) || n == 0x85 || n == 0xA0 || n == 0x1680 ||
  (0x2000 ≤ n && n ≤ 0x200a) || n == 0x2028 || n == 0x2029 || n == 0x202f ||
  n == 0x205f || n == 0x3000

/-- Go `strings.TrimSpace`. -/
def trimSpace (s : Str) : Str :=
  ((s.dropWhile isSpace).reverse.dropWhile isSpace).reverse

/-- Go `unicode.ToLower` as far as this program can observe it: the ASCII capitals,
and the two other code points whose lower case is an ASCII letter (KELVIN SIGN and
LATIN CAPITAL LETTER I WITH DOT ABOVE).  Every other code point lowers to a code
point outside ASCII, and the program only compares lowered text with ASCII words. -/
def toLowerRune (c : Char) : Char :=
  if 65 ≤ c.toNat ∧ c.toNat ≤ 90 then Char.ofNat (c.toNat + 32)
  else if c.toNat = 0x212A then 'k'
  else if c.toNat = 0x130 then 'i'
  else c

/-- Go `strings.ToLower`. -/
def toLower (s : Str) : Str := s.map toLowerRune

/-- Go `strings.HasPrefix`. -/
def hasPrefix (s pre : Str) : Bool := pre.isPrefixOf s

/-- Go `strings.HasSuffix`. -/
def hasSuffix (s suf : Str) : Bool := suf.reverse.isPrefixOf s.reverse

/-- Go `strings.Contains`. -/
def containsStr (s sub : Str) : Bool := s.tails.any (fun t => sub.isPrefixOf t)

/-- Go `strings.TrimSuffix`. -/
def trimSuffix (s suf : Str) : Str :=
  if hasSuffix s suf then s.take (s.length - suf.length) else s

/-! ## Paths (`path/filepath` on a slash-separated system) -/

/-- Go `filepath.Ext`: the suffix starting at the last dot of the last path element. -/
def filepathExt (path : Str) : Str :=
  let last := (path.reverse.takeWhile (fun c => c != '/')).reverse
  if last.contains '.' then '.' :: (last.reverse.takeWhile (fun c => c != '.')).reverse else []

/-- Go `filepath.Base`: the last path element, after removing trailing slashes. -/
def filepathBase (path : Str) : Str :=
  if path = [] then ['.']
  else
    let p := (path.reverse.dropWhile (fun c => c == '/')).reverse
    let last := (p.reverse.takeWhile (fun c => c != '/')).reverse
    if last = [] then ['/'] else last

/-- Go `filepath.Join` of a directory and a relative path that are both clean and
non-empty, where `filepath.Clean` has nothing to rewrite. -/
def filepathJoin (dir name : Str) : Str := dir ++ '/' :: name

/-- Go `filepath.Rel` for a path visited by a walk rooted at `base`: the part of the
path below the root.  A path outside the root is reported as an error. -/
def filepathRel (base path : Str) : Option Str :=
  if hasPrefix path (base ++ ['/']) then some (path.drop (base.length + 1)) else none

/-! ## SHA-256 (`crypto/sha256`, FIPS 180-4) -/

/-- UTF-8 encoding of one code point. -/
def utf8Encode (c : Char) : List Nat :=
  let v := c.toNat
  if v < 0x80 then [v]
  else if v < 0x800 then [0xC0 + v / 64, 0x80 + v % 64]
  else if v < 0x10000 then [0xE0 + v / 4096, 0x80 + (v / 64) % 64, 0x80 + v % 64]
  else [0xF0 + v / 262144, 0x80 + (v / 4096) % 64, 0x80 + (v / 64) % 64, 0x80 + v % 64]

/-- The bytes of a string. -/
def toBytes (s : Str) : List Nat := s.flatMap utf8Encode

/-- Truncation to a 32-bit word. -/
def w32 (x : Nat) : Nat := x % 4294967296

/-- Rotation of a 32-bit word to the right. -/
def rotr (x n : Nat) : Nat := w32 ((x >>> n) ||| (x <<< (32 - n)))

/-- The 64 round constants (FIPS 180-4, section 4.2.2), in decimal. -/
def shaK : List Nat := [
  1116352408, 1899447441, 3049323471, 3921009573, 961987163, 1508970993,
  2453635748, 2870763221, 3624381080, 310598401, 607225278, 1426881987,
  1925078388, 2162078206, 2614888103, 3248222580, 3835390401, 4022224774,
  264347078, 604807628, 770255983, 1249150122, 1555081692, 1996064986,
  2554220882, 2821834349, 2952996808, 3210313671, 3336571891, 3584528711,
  113926993, 338241895, 666307205, 773529912, 1294757372, 1396182291,
  1695183700, 1986661051, 2177026350, 2456956037, 2730485921, 2820302411,
  3259730800, 3345764771, 3516065817, 3600352804, 4094571909, 275423344,
  430227734, 506948616, 659060556, 883997877, 958139571, 1322822218,
  1537002063, 1747873779, 1955562222, 2024104815, 2227730452, 2361852424,
  2428436474, 2756734187, 3204031479, 3329325298]

/-- Message padding: a one bit, zeros up to 56 modulo 64, the bit length on 8 bytes. -/
def shaPad (msg : List Nat) : List Nat :=
  msg ++ [0x80] ++ List.replicate ((119 - msg.length % 64) % 64) 0 ++
    (List.range 8).map (fun i => ((8 * msg.length) >>> (8 * (7 - i))) % 256)

/-- Consecutive chunks of `n` elements; `fuel` bounds their number. -/
def chunks : Nat → Nat → List Nat → List (List Nat)
  | 0, _, _ => []
  | fuel + 1, n, l => if l = [] then [] else l.take n :: chunks fuel n (l.drop n)

/-- Big-endian value of a list of bytes. -/
def beWord (bs : List Nat) : Nat := bs.foldl (fun acc b => acc * 256 + b) 0

/-- The 64-word message schedule of a 64-byte block. -/
def schedule (block : List Nat) : List Nat :=
  (List.range 48).foldl (fun w _ =>
    let n := w.length
    let x15 := w.getD (n - 15) 0
    let x2 := w.getD (n - 2) 0
    let s0 := rotr x15 7 ^^^ rotr x15 18 ^^^ (x15 >>> 3)
    let s1 := rotr x2 17 ^^^ rotr x2 19 ^^^ (x2 >>> 10)
    w ++ [w32 (w.getD (n - 16) 0 + s0 + w.getD (n - 7) 0 + s1)])
    ((chunks 16 4 block).map beWord)

/-- The eight working variables. -/
structure ShaState where
  a : Nat
  b : Nat
  c : Nat
  d : Nat
  e : Nat
  f : Nat
  g : Nat
  h : Nat

/-- One round of the compression function. -/
def shaRound (s : ShaState) (kw : Nat × Nat) : ShaState :=
  let s1 := rotr s.e 6 ^^^ rotr s.e 11 ^^^ rotr s.e 25
  let ch := (s.e &&& s.f) ^^^ ((s.e ^^^ 0xffffffff) &&& s.g)
  let t1 := w32 (s.h + s1 + ch + kw.1 + kw.2)
  let s0 := rotr s.a 2 ^^^ rotr s.a 13 ^^^ rotr s.a 22
  let maj := (s.a &&& s.b) ^^^ (s.a &&& s.c) ^^^ (s.b &&& s.c)
  let t2 := w32 (s0 + maj)
  ⟨w32 (t1 + t2), s.a, s.b, s.c, w32 (s.d + t1), s.e, s.f, s.g⟩

/-- Compression of one block into the chaining value. -/
def shaBlock (s : ShaState) (block : List Nat) : ShaState :=
  let r := (shaK.zip (schedule block)).foldl shaRound s
  ⟨w32 (s.a + r.a), w32 (s.b + r.b), w32 (s.c + r.c), w32 (s.d + r.d),
   w32 (s.e + r.e), w32 (s.f + r.f), w32 (s.g + r.g), w32 (s.h + r.h)⟩

/-- The final chaining value of a message, from the initial value of section 5.3.3. -/
def shaWords (msg : List Nat) : ShaState :=
  (chunks (shaPad msg).length 64 (shaPad msg)).foldl shaBlock
    ⟨1779033703, 3144134277, 1013904242, 2773480762,
     1359893119, 2600822924, 528734635, 1541459225⟩

/-- A SHA-256 digest: 32 bytes, read as one big-endian number. -/
abbrev Digest := Fin (2 ^ 256)

/-- The function `sha256.New` + `io.Copy` + `Sum(nil)`: the digest of a content. -/
def sha256 (s : Str) : Digest :=
  let st := shaWords (toBytes s)
  ⟨([st.a, st.b, st.c, st.d, st.e, st.f, st.g, st.h].foldl
      (fun acc x => acc * 4294967296 + x) 0) % 2 ^ 256, Nat.mod_lt _ (Nat.two_pow_pos 256)⟩

/-! ## The environment and the world -/

/-- An entry handed to the callback of `fs.WalkDir`. -/
structure DirEntry where
  path : Str
  isDir : Bool

/-- A Go map with string keys, as the list of its entries (keys are unique). -/
abbrev GoMap (α : Type) := List (Str × α)

/-- Assignment `m[k] = v`. -/
def mapSet {α : Type} : GoMap α → Str → α → GoMap α
  | [], k, v => [(k, v)]
  | (k0, v0) :: m, k, v => if k0 = k then (k, v) :: m else (k0, v0) :: mapSet m k v

/-- Lookup `m[k]`. -/
def mapGet {α : Type} : GoMap α → Str → Option α
  | [], _ => none
  | (k0, v0) :: m, k => if k0 = k then some v0 else mapGet m k

/-- The step at which the write of a destination file fails. -/
inductive WriteFault where
  /-- The call `os.Create` fails: the destination is left as it is. -/
  | create
  /-- The call `io.Copy` fails after the file was truncated and that many characters
  were written. -/
  | copy (written : Nat)
  /-- The call `os.Chmod` fails: the whole content is written. -/
  | chmod
  deriving DecidableEq

/-- What the program takes from outside: the embedded files and the operating system. -/
structure Env where
  /-- Entries visited by `fs.WalkDir(embeddedFS, root, ...)`, in visit order. -/
  walk : Str → List DirEntry
  /-- Content of the embedded regular file at a path (`embeddedFS.Open` and reading it). -/
  data : Str → Option Str
  /-- Result of `os.Getwd`. -/
  getwd : Option Str
  /-- Result of `os.UserHomeDir`. -/
  userHomeDir : Option Str
  /-- Result of `filepath.Abs`. -/
  abs : Str → Option Str
  /-- Whether `exec.LookPath("git")` finds a program. -/
  gitOnPath : Bool
  /-- Exit code (-1 when the tool could not be started) and combined output of the diff
  tool, given whether git is used, the destination content and the embedded content. -/
  runDiff : Bool → Option Str → Str → Int × Str
  /-- Value of the variable `EDITOR`. -/
  editorVar : Str
  /-- Run of the editor on a path with its current content: whether it exited with
  success, and the content it leaves at that path. -/
  runEditor : Str → Str → Option Str → Bool × Option Str
  /-- Order in which a `range` over the role map visits its entries. -/
  rangeOrder : GoMap (List Str) → GoMap (List Str)
  /-- Whether the write of the given content to a destination path fails, and where. -/
  writeFault : Str → Str → Option WriteFault
  /-- Whether `os.MkdirAll` can create a directory that does not exist yet. -/
  mkdirAllOk : Str → Bool
  /-- Whether `os.CreateTemp` can create the scratch file of the diff display. -/
  createTempOk : Bool
  /-- Whether the given content can be copied into the scratch file. -/
  tempCopyOk : Str → Bool

/-- The mutable state around the program. -/
structure World where
  /-- Regular files of the destination file system. -/
  files : Str → Option Str
  /-- Data still to arrive on standard input, one entry per read call of the program:
  what that call returns.  A terminal delivers one typed line, line feed included, to
  each read; the end of the list is the end of the input. -/
  stdin : List Str
  /-- Text printed so far by the program, one entry per print call. -/
  out : List Str
  /-- Directories of the destination file system. -/
  dirs : Str → Bool

/-- Errors the program creates or passes on. -/
inductive Err where
  /-- The sentinel `ErrSkipped`. -/
  | skipped
  /-- An embedded path that cannot be opened. -/
  | notExist (path : Str)
  /-- The error `bufio.ErrTooLong` of a scanner. -/
  | tooLong
  /-- The failure "error reading input". -/
  | readInput
  /-- The failure "error opening embedded file". -/
  | openEmbedded (path : Str)
  /-- The diff tool failed with the given exit code. -/
  | diffTool (code : Int)
  /-- The failure "error opening editor". -/
  | editor
  /-- The failure of `filepath.Rel`. -/
  | rel (path : Str)
  /-- The wrapper "error reading command file %s: %v". -/
  | readingCommand (path : Str) (cause : Err)
  /-- The wrapper "error copying file %s: %v". -/
  | copying (path : Str) (cause : Err)
  /-- The usage error "--dir requires a directory path". -/
  | dirRequiresPath
  /-- The failure "invalid directory path". -/
  | invalidDir
  /-- The failure "error getting home directory". -/
  | homeDir
  /-- The failure "error getting current directory". -/
  | currentDir
  /-- The failure of `os.Create` on a destination path. -/
  | create (path : Str)
  /-- The failure of `io.Copy` to a destination path. -/
  | write (path : Str)
  /-- The failure of `os.Chmod` on a destination path. -/
  | chmod (path : Str)
  /-- The failure of `os.MkdirAll` on a directory path. -/
  | mkdir (path : Str)
  /-- The wrapper "error creating target directory: %v". -/
  | creatingDir (cause : Err)
  /-- The failure "error creating temp file". -/
  | createTemp
  /-- The failure "error copying embedded file". -/
  | copyTemp
  deriving DecidableEq

deriving instance DecidableEq for Except

/-- The message of an error (`err.Error()`), as `%v` prints it. -/
def Err.msg : Err → Str
  | .skipped => "file skipped".toList
  | .notExist path => "open ".toList ++ path ++ ": file does not exist".toList
  | .tooLong => "bufio.Scanner: token too long".toList
  | .readInput => "error reading input: EOF".toList
  | .openEmbedded path =>
    "error opening embedded file: open ".toList ++ path ++ ": file does not exist".toList
  | .diffTool code => "exit status ".toList ++ (toString code).toList
  | .editor => "error opening editor: exit status 1".toList
  | .rel path => "Rel: can't make ".toList ++ path ++ " relative".toList
  | .readingCommand path cause =>
    "error reading command file ".toList ++ path ++ ": ".toList ++ cause.msg
  | .copying path cause => "error copying file ".toList ++ path ++ ": ".toList ++ cause.msg
  | .dirRequiresPath => "--dir requires a directory path".toList
  | .invalidDir => "invalid directory path".toList
  | .homeDir => "error getting home directory".toList
  | .currentDir => "error getting current directory".toList
  | .create path => "open ".toList ++ path ++ ": permission denied".toList
  | .write path => "write ".toList ++ path ++ ": no space left on device".toList
  | .chmod path => "chmod ".toList ++ path ++ ": operation not permitted".toList
  | .mkdir path => "mkdir ".toList ++ path ++ ": permission denied".toList
  | .creatingDir cause => "error creating target directory: ".toList ++ cause.msg
  | .createTemp => "error creating temp file: permission denied".toList
  | .copyTemp => "error copying embedded file: no space left on device".toList

/-- A `fmt.Print` call. -/
def World.print (w : World) (s : Str) : World := { w with out := w.out ++ [s] }

/-- A `fmt.Println` call. -/
def World.println (w : World) (s : Str) : World := w.print (s ++ ['\n'])

/-- A write of a whole regular file. -/
def World.write (w : World) (path content : Str) : World :=
  { w with files := fun p => if p = path then some content else w.files p }

/-- Whether `os.Stat` succeeds on a path: a regular file or a directory is there. -/
def World.statOk (w : World) (path : Str) : Bool := (w.files path).isSome || w.dirs path

/-- The pending input after some reads. -/
def World.consume (w : World) (rest : List Str) : World := { w with stdin := rest }

/-- Go `filepath.Dir` on a clean path: the path up to its last slash, without the
slashes at its end; `.` when there is no slash and `/` when nothing else is left. -/
def filepathDir (path : Str) : Str :=
  let head := (path.reverse.dropWhile (fun c => c != '/')).reverse
  let trimmed := (head.reverse.dropWhile (fun c => c == '/')).reverse
  if head = [] then ['.'] else if trimmed = [] then ['/'] else trimmed

/-- The call `os.MkdirAll(path, 0755)`: nothing happens when the directory exists;
otherwise the directory and its missing parents are created, or the call fails. -/
def mkdirAll (env : Env) (path : Str) (w : World) : Option Err × World :=
  if w.dirs path then (none, w)
  else if env.mkdirAllOk path then
    (none, ⟨w.files, w.stdin, w.out,
      fun p => decide (p = path) || hasPrefix path (p ++ ['/']) || w.dirs p⟩)
  else (some (.mkdir path), w)

/-! ## Rule extraction -/

/-- Default `bufio.MaxScanTokenSize`: a scanner gives up on a line whose bytes, a
carriage return included, do not fit in a buffer of this size before the line feed. -/
def maxScanTokenSize : Nat := 65536

/-- Tokens of `bufio.ScanLines` before the carriage return is dropped: the text between
line feeds, and the last line when it is not empty. -/
def rawLines : Str → List Str
  | [] => []
  | c :: cs =>
    if c = '\n' then [] :: rawLines cs
    else
      match rawLines cs with
      | [] => [[c]]
      | l :: ls => (c :: l) :: ls

/-- Go `dropCR`: a line loses one final carriage return. -/
def dropCR (line : Str) : Str :=
  if hasSuffix line ['\r'] then line.take (line.length - 1) else line

/-- Class `\s` of Go regular expressions: tab, line feed, form feed, carriage return, space. -/
def isReSpace (c : Char) : Bool :=
  c.toNat == 9 || c.toNat == 10 || c.toNat == 12 || c.toNat == 13 || c.toNat == 32

/-- Class `[a-z0-9-]`. -/
def isRuleChar (c : Char) : Bool :=
  (97 ≤ c.toNat && c.toNat ≤ 122) || (48 ≤ c.toNat && c.toNat ≤ 57) || c.toNat == 45

/-- The suffix `.mdc`. -/
def mdcExt : Str := ['.', 'm', 'd', 'c']

/-- The call `rulePattern.FindStringSubmatch(line)` for the pattern
`^-\s+([a-z0-9-]+)(?:\.mdc)?\s*$`, followed by `matches[1]`: the captured token when the
whole line matches.  The classes of consecutive parts are disjoint, so the greedy match
is the only one. -/
def rulePattern (line : Str) : Option Str :=
  match line with
  | [] => none
  | c :: rest =>
    if c = '-' then
      let ws := rest.takeWhile isReSpace
      let r1 := rest.dropWhile isReSpace
      let tok := r1.takeWhile isRuleChar
      let r2 := r1.dropWhile isRuleChar
      let r3 := if hasPrefix r2 mdcExt then r2.drop 4 else r2
      if ws ≠ [] ∧ tok ≠ [] ∧ r3.all isReSpace then some tok else none
    else none

/-- The marker text looked for in each line. -/
def relatedRules : Str := "related rules".toList

/-- The test `strings.Contains(strings.ToLower(line), "related rules")`. -/
def isMarker (line : Str) : Bool := containsStr (toLower line) relatedRules

/-- The test `strings.HasPrefix(line, "##")`. -/
def isHeading (line : Str) : Bool := hasPrefix line ['#', '#']

/-- The line as the loop sees it: `strings.TrimSpace(scanner.Text())`. -/
def lineText (raw : Str) : Str := trimSpace (dropCR raw)

/-- The scanner loop of `extractRulesFromCommand` over the remaining lines, with the
variables `inRelatedRules` and `rules`. -/
def scanRules : List Str → Bool → List Str → Except Err (List Str)
  | [], _, rules => .ok rules
  | raw :: rest, inRelatedRules, rules =>
    if maxScanTokenSize ≤ byteLen raw then .error .tooLong
    else
      let line := lineText raw
      if isMarker line then scanRules rest true rules
      else if inRelatedRules && isHeading line then .ok rules
      else if inRelatedRules then
        match rulePattern line with
        | some m => scanRules rest inRelatedRules (rules ++ [m])
        | none => scanRules rest inRelatedRules rules
      else scanRules rest inRelatedRules rules

/-- Rule names listed in the "Related Rules" section of an embedded command file. -/
def extractRulesFromCommand (env : Env) (filePath : Str) : Except Err (List Str) :=
  match env.data filePath with
  | none => .error (.notExist filePath)
  | some doc => scanRules (rawLines doc) false []

/-! ## Copying and comparing -/

/-- Copy of an embedded file to a destination path: `embeddedFS.Open`, then `os.Create`,
`io.Copy` and `os.Chmod`, each of which can fail. -/
def copyFile (env : Env) (src dst : Str) (w : World) : Option Err × World :=
  match env.data src with
  | none => (some (.notExist src), w)
  | some content =>
    match env.writeFault dst content with
    | some .create => (some (.create dst), w)
    | some (.copy written) => (some (.write dst), w.write dst (content.take written))
    | some .chmod => (some (.chmod dst), w.write dst content)
    | none => (none, w.write dst content)

/-- SHA-256 digest of an embedded file. -/
def fileHashEmbedded (env : Env) (filePath : Str) : Except Err Digest :=
  match env.data filePath with
  | none => .error (.notExist filePath)
  | some content => .ok (sha256 content)

/-- SHA-256 digest of a destination file. -/
def fileHashFilesystem (w : World) (filePath : Str) : Except Err Digest :=
  match w.files filePath with
  | none => .error (.notExist filePath)
  | some content => .ok (sha256 content)

/-- Whether an embedded file and a destination file differ; an unreadable file counts
as different. -/
def filesAreDifferent (env : Env) (w : World) (file1 file2 : Str) : Bool :=
  match fileHashEmbedded env file1 with
  | .error _ => true
  | .ok hash1 =>
    match fileHashFilesystem w file2 with
    | .error _ => true
    | .ok hash2 => !(hash1 == hash2)

/-! ## The conflict resolver -/

/-- ANSI escape sequence with the given parameter. -/
def ansi (code : Str) : Str := Char.ofNat 27 :: '[' :: code ++ ['m']

/-- Go `strings.Split(s, "\n")`. -/
def splitNewline : Str → List Str
  | [] => [[]]
  | c :: cs =>
    if c = '\n' then [] :: splitNewline cs
    else
      match splitNewline cs with
      | [] => [[c]]
      | l :: ls => (c :: l) :: ls

/-- One line of `printColoredDiff`, with its colour. -/
def colorDiffLine (line : Str) : Str :=
  if hasPrefix line "---".toList then ansi "31".toList ++ line ++ ansi "0".toList ++ ['\n']
  else if hasPrefix line "+++".toList then ansi "32".toList ++ line ++ ansi "0".toList ++ ['\n']
  else if hasPrefix line "@@".toList then ansi "36".toList ++ line ++ ansi "0".toList ++ ['\n']
  else if hasPrefix line "-".toList then ansi "31".toList ++ line ++ ansi "0".toList ++ ['\n']
  else if hasPrefix line "+".toList then ansi "32".toList ++ line ++ ansi "0".toList ++ ['\n']
  else line ++ ['\n']

/-- Prints a unified diff with colours. -/
def printColoredDiff (diffOutput : Str) (w : World) : World :=
  (splitNewline diffOutput).foldl (fun w line => w.print (colorDiffLine line)) w

/-- A horizontal rule of the diff display. -/
def diffRule (c : Char) : Str := List.replicate 63 c

/-- The banner printed above a diff. -/
def diffHeader (file1 file2 : Str) (w : World) : World :=
  let w := w.println []
  let w := w.print (ansi "1".toList ++ ansi "36".toList ++ diffRule '═' ++ ansi "0".toList ++ ['\n'])
  let w := w.print (ansi "1".toList ++ ansi "36".toList ++ "  File Differences".toList ++ ansi "0".toList ++ ['\n'])
  let w := w.print (ansi "1".toList ++ ansi "36".toList ++ diffRule '═' ++ ansi "0".toList ++ ['\n'])
  let w := w.print (ansi "33".toList ++ "Existing file:".toList ++ ansi "0".toList ++ ' ' :: file2 ++ ['\n'])
  let w := w.print (ansi "32".toList ++ "New file:     ".toList ++ ansi "0".toList ++ ' ' :: file1 ++ ['\n'])
  let w := w.print (ansi "90".toList ++ ansi "0".toList ++ diffRule '─' ++ ansi "0".toList ++ ['\n'])
  w.println []

/-- The rule printed below a diff. -/
def diffFooter (w : World) : World :=
  let w := w.print (ansi "90".toList ++ ansi "0".toList ++ diffRule '─' ++ ansi "0".toList ++ ['\n'])
  w.println []

/-- Shows the difference between an embedded file and a destination file.  The scratch
copy of the embedded file is created under a fresh name in the temporary directory and
removed on return, so the destination files are left as they are; its creation and the
copy into it can fail. -/
def showDiff (env : Env) (file1 file2 : Str) (w : World) : Option Err × World :=
  if env.createTempOk = false then (some .createTemp, w)
  else
  match env.data file1 with
  | none => (some (.openEmbedded file1), w)
  | some content =>
    if env.tempCopyOk content = false then (some .copyTemp, w)
    else
    let useGitDiff := env.gitOnPath
    let r := env.runDiff useGitDiff (w.files file2) content
    if r.1 ≠ 0 then
      if r.1 = 1 then
        let w := diffHeader file1 file2 w
        let w := if useGitDiff then w.print r.2 else printColoredDiff r.2 w
        (none, diffFooter w)
      else (some (.diffTool r.1), w)
    else
      (none, w.print (ansi "32".toList ++ ansi "1".toList ++ "Files are identical".toList ++ ansi "0".toList ++ ['\n']))

/-- The lines printed before the editor is started. -/
def mergeAnnounce (editor src dst : Str) (w : World) : World :=
  let w := w.print ("  Opening files for merge with ".toList ++ editor ++ "...\n".toList)
  let w := w.print ("  Source: ".toList ++ src ++ ['\n'])
  w.print ("  Target: ".toList ++ dst ++ ['\n'])

/-- The editor named by `EDITOR`, `vim` when the variable is empty. -/
def editorName (env : Env) : Str := if env.editorVar = [] then "vim".toList else env.editorVar

/-- Opens the destination file in the editor for a manual merge. -/
def openForMerge (env : Env) (src dst : Str) (w : World) : Option Err × World :=
  let editor := editorName env
  let w := mergeAnnounce editor src dst w
  let r := env.runEditor editor dst (w.files dst)
  let w := { w with files := fun p => if p = dst then r.2 else w.files p }
  if r.1 then (none, w) else (some .editor, w)

/-- The first line of the prompt, which names the destination path. -/
def conflictLine (dst : Str) : Str := "\n⚠️  File conflict detected: ".toList ++ dst ++ ['\n']

/-- The prompt printed at the start of every call of `handleFileConflict`. -/
def conflictPrompt (src dst : Str) (w : World) : World :=
  let w := w.print (conflictLine dst)
  let w := w.println ("  Source: ".toList ++ src)
  let w := w.println ("  Target: ".toList ++ dst)
  let w := w.println []
  let w := w.println "Choose an action:".toList
  let w := w.println "  [s]kip - Skip this file (keep existing)".toList
  let w := w.println "  [o]verwrite - Overwrite with source file".toList
  let w := w.println "  [d]iff - View differences".toList
  let w := w.println "  [m]erge - Merge files (manual edit required)".toList
  w.print "Your choice (s/o/d/m): ".toList

/-- The answer as the program reads it: `strings.TrimSpace(strings.ToLower(choice))`. -/
def normalizeChoice (line : Str) : Str := trimSpace (toLower line)

/-- The line that `ReadString` returns when the read that holds the first line feed
arrives after the text `acc`: the text up to that line feed, line feed included. -/
def answerOf (acc chunk : Str) : Str :=
  acc ++ chunk.takeWhile (fun c => c != '\n') ++ ['\n']

/-- The body of `handleFileConflict` after its prompt is printed, by recursion on the
reads still to arrive, with the text read so far by the reader of this call.  The reader
takes reads until one holds a line feed; what that read holds after the line feed stays
in the buffer of the reader, which no later call sees.  The function calls itself after
a diff and after an invalid answer: each call prints the prompt and makes a new reader. -/
def handleFileConflictFrom (env : Env) (src dst : Str) :
    List Str → Str → World → Option Err × World
  | [], _, w => (some .readInput, w.consume [])
  | chunk :: rest, acc, w =>
    if chunk.contains '\n' then
      let w := w.consume rest
      let choice := normalizeChoice (answerOf acc chunk)
      if choice = "s".toList ∨ choice = "skip".toList then
        (some .skipped, w.println "  → Skipped".toList)
      else if choice = "o".toList ∨ choice = "overwrite".toList then
        match copyFile env src dst w with
        | (some e, w) => (some e, w)
        | (none, w) => (none, w.println "  → Overwritten".toList)
      else if choice = "d".toList ∨ choice = "diff".toList then
        match showDiff env src dst w with
        | (some e, w) =>
          handleFileConflictFrom env src dst rest []
            (conflictPrompt src dst
              (w.print ("  ⚠️  Error showing diff: ".toList ++ e.msg ++ ['\n'])))
        | (none, w) => handleFileConflictFrom env src dst rest [] (conflictPrompt src dst w)
      else if choice = "m".toList ∨ choice = "merge".toList then
        match openForMerge env src dst w with
        | (some e, w) =>
          (some e, w.print ("  ⚠️  Error opening for merge: ".toList ++ e.msg ++ ['\n']))
        | (none, w) => (none, w.println "  → Opened for manual merge".toList)
      else
        handleFileConflictFrom env src dst rest []
          (conflictPrompt src dst (w.println "  ⚠️  Invalid choice, please try again".toList))
    else handleFileConflictFrom env src dst rest (acc ++ chunk) w

/-- Handles a file conflict by prompting the user for an action. -/
def handleFileConflict (env : Env) (src dst : Str) (w : World) : Option Err × World :=
  handleFileConflictFrom env src dst w.stdin [] (conflictPrompt src dst w)

/-- Copies a file with conflict detection and handling: `ErrSkipped` when the file was
skipped, no error when the resolver succeeded, any other error otherwise. -/
def copyFileWithConflictHandling (env : Env) (src dst : Str) (w : World) :
    Option Err × World :=
  if w.statOk dst then
    if filesAreDifferent env w src dst then handleFileConflict env src dst w
    else (some .skipped, w)
  else copyFile env src dst w

/-! ## The install walks -/

/-- Go `fs.WalkDir` over the visited entries: the callback runs on each entry in turn,
and the first error it returns ends the walk and is returned. -/
def walkDir {σ : Type} (fn : σ → DirEntry → Option Err × σ) :
    List DirEntry → σ → Option Err × σ
  | [], s => (none, s)
  | d :: ds, s =>
    match fn s d with
    | (none, s) => walkDir fn ds s
    | (some e, s) => (some e, s)

/-- The variables of `installCommands` that its callback updates, and the world. -/
structure CommandsState where
  roleRulesMap : GoMap (List Str)
  count : Nat
  world : World

/-- The callback of the walk in `installCommands`. -/
def installCommandsVisit (env : Env) (sourceDir targetDir : Str) (s : CommandsState)
    (d : DirEntry) : Option Err × CommandsState :=
  if d.isDir then (none, s)
  else
    let ext := filepathExt d.path
    if ext ≠ ['.', 'm', 'd'] then (none, s)
    else
      let roleName := trimSuffix (filepathBase d.path) ext
      match extractRulesFromCommand env d.path with
      | .error e => (some (.readingCommand d.path e), s)
      | .ok rules =>
        let s := { s with roleRulesMap := mapSet s.roleRulesMap roleName rules }
        match filepathRel sourceDir d.path with
        | none => (some (.rel d.path), s)
        | some relPath =>
          let targetPath := filepathJoin targetDir relPath
          match mkdirAll env (filepathDir targetPath) s.world with
          | (some e, w) => (some (.creatingDir e), { s with world := w })
          | (none, w) =>
            match copyFileWithConflictHandling env d.path targetPath w with
            | (some .skipped, w) => (none, { s with world := w })
            | (some e, w) => (some (.copying d.path e), { s with world := w })
            | (none, w) =>
              (none, { s with
                world := w.print ("  ✓ Installed command: ".toList ++ relPath ++ ['\n']),
                count := s.count + 1 })

/-- Installs the command files; returns the role to rules map, the count and the error. -/
def installCommands (env : Env) (sourceDir targetDir : Str) (w : World) :
    Option Err × CommandsState :=
  walkDir (installCommandsVisit env sourceDir targetDir) (env.walk sourceDir) ⟨[], 0, w⟩

/-- The variable of `installRulesForRole` that its callback updates, and the world. -/
structure RulesState where
  count : Nat
  world : World

/-- The lookup set built from the rule names of a role. -/
def buildRuleMap (ruleNames : List Str) : GoMap Bool :=
  ruleNames.foldl (fun m ruleName => mapSet m ruleName true) []

/-- The callback of the walk in `installRulesForRole`. -/
def installRulesVisit (env : Env) (targetDir role : Str) (ruleMap : GoMap Bool)
    (s : RulesState) (d : DirEntry) : Option Err × RulesState :=
  if d.isDir then (none, s)
  else
    let ext := filepathExt d.path
    if ext ≠ mdcExt then (none, s)
    else
      let ruleName := trimSuffix (filepathBase d.path) ext
      if !((mapGet ruleMap ruleName).getD false) then (none, s)
      else
        let targetPath := filepathJoin targetDir (filepathBase d.path)
        match copyFileWithConflictHandling env d.path targetPath s.world with
        | (some .skipped, w) => (none, { s with world := w })
        | (some e, w) => (some (.copying d.path e), { s with world := w })
        | (none, w) =>
          (none, {
            world := w.print ("  ✓ Installed rule for ".toList ++ role ++ ": ".toList ++
              ruleName ++ ['\n']),
            count := s.count + 1 })

/-- Installs the rules of one role; returns the count and the error. -/
def installRulesForRole (env : Env) (sourceDir targetDir role : Str) (ruleNames : List Str)
    (w : World) : Option Err × RulesState :=
  match mkdirAll env targetDir w with
  | (some e, w) => (some (.creatingDir e), ⟨0, w⟩)
  | (none, w) =>
    walkDir (installRulesVisit env targetDir role (buildRuleMap ruleNames))
      (env.walk sourceDir) ⟨0, w⟩

/-! ## Arguments and the install command -/

/-- Outcome of `parseInstallArgs`. -/
inductive Parsed where
  /-- A help flag: the install help is printed and the process exits with status 0. -/
  | helpExit
  /-- A returned error. -/
  | fail (e : Err)
  /-- The returned target base directory. -/
  | dir (path : Str)
  deriving DecidableEq

/-- Whether an argument asks for help. -/
def isHelpFlag (arg : Str) : Bool :=
  arg = "-h".toList || arg = "--help".toList || arg = "help".toList

/-- The second loop of `parseInstallArgs`, with the variables `targetDir` and `useHome`. -/
def parseLoop : List Str → Str → Bool → Except Err (Str × Bool)
  | [], targetDir, useHome => .ok (targetDir, useHome)
  | arg :: rest, targetDir, useHome =>
    if arg = "--home".toList ∨ arg = "-H".toList then parseLoop rest targetDir true
    else if arg = "--dir".toList ∨ arg = "-d".toList then
      match rest with
      | [] => .error .dirRequiresPath
      | value :: rest => parseLoop rest value useHome
    else parseLoop rest targetDir useHome

/-- Parses the arguments of the install command and returns the target base directory. -/
def parseInstallArgs (env : Env) (args : List Str) : Parsed :=
  if args.any isHelpFlag then .helpExit
  else
    match parseLoop args [] false with
    | .error e => .fail e
    | .ok (targetDir, useHome) =>
      if targetDir ≠ [] then
        match env.abs targetDir with
        | none => .fail .invalidDir
        | some absPath => .dir absPath
      else if useHome then
        match env.userHomeDir with
        | none => .fail .homeDir
        | some homeDir => .dir homeDir
      else
        match env.getwd with
        | none => .fail .currentDir
        | some cwd => .dir cwd

/-- The loop of `runInstall` over the roles, with the variable `totalRulesCount`. -/
def installAllRules (env : Env) (cursorDir : Str) :
    List (Str × List Str) → Nat → World → Option (Str × Err) × Nat × World
  | [], total, w => (none, total, w)
  | (role, rules) :: more, total, w =>
    let rulesTarget := filepathJoin (filepathJoin cursorDir "rules/mozi".toList) role
    match installRulesForRole env "rules".toList rulesTarget role rules w with
    | (some e, s) => (some (role, e), total, s.world)
    | (none, s) => installAllRules env cursorDir more (total + s.count) s.world

/-- What a run of the install command leaves: the exit status, the two counts it holds
when it ends, and the world. -/
structure RunResult where
  exit : Nat
  commandsCount : Nat
  totalRulesCount : Nat
  world : World

/-- The first line of the install help. -/
def installHelp : Str :=
  "mozi install - Install commands and rules to Cursor IDE configuration\n".toList

/-- The line printed before the walks. -/
def installHeader (cursorDir : Str) : Str :=
  "Installing commands and rules to ".toList ++ cursorDir ++ ['\n']

/-- The line printed after the walks. -/
def installSummary (commandsCount totalRulesCount : Nat) (cursorDir : Str) : Str :=
  "✓ Successfully installed ".toList ++ (toString commandsCount).toList ++
    " commands and ".toList ++ (toString totalRulesCount).toList ++ " rules to ".toList ++
    cursorDir ++ ['\n']

/-- Runs the install subcommand. -/
def runInstall (env : Env) (args : List Str) (w : World) : RunResult :=
  match parseInstallArgs env args with
  | .helpExit => ⟨0, 0, 0, w.print installHelp⟩
  | .fail e => ⟨1, 0, 0, (w.print ("Error: ".toList ++ e.msg ++ ['\n'])).print installHelp⟩
  | .dir targetBaseDir =>
    let cursorDir := filepathJoin targetBaseDir ".cursor".toList
    let commandsTarget := filepathJoin cursorDir "commands".toList
    match mkdirAll env commandsTarget w with
    | (some e, w) =>
      ⟨1, 0, 0, w.print ("Error creating ".toList ++ commandsTarget ++ ": ".toList ++
        e.msg ++ ['\n'])⟩
    | (none, w) =>
      let w := w.print (installHeader cursorDir)
      let w := w.println []
      match installCommands env "commands".toList commandsTarget w with
      | (some e, s) =>
        ⟨1, s.count, 0,
          s.world.print ("Error installing commands: ".toList ++ e.msg ++ ['\n'])⟩
      | (none, s) =>
        match installAllRules env cursorDir (env.rangeOrder s.roleRulesMap) 0 s.world with
        | (some (role, e), total, w) =>
          ⟨1, s.count, total, w.print ("Error installing rules for role ".toList ++ role ++
            ": ".toList ++ e.msg ++ ['\n'])⟩
        | (none, total, w) =>
          let w := w.println []
          ⟨0, s.count, total, w.print (installSummary s.count total cursorDir)⟩

/-! ## Fixtures and specification-side definitions -/

/-- An environment for concrete scenarios: the embedded files are the given table, visited
in table order below a root; the working directory is `/work`, the home directory
`/home/u`; the diff tool reports a difference; the editor exits with success and leaves
the file as it is; a map is visited in insertion order; every write and every directory
creation succeeds. -/
def fixtureEnv (table : List (Str × Str)) : Env where
  walk := fun root =>
    ⟨root, true⟩ :: (table.filter (fun e => hasPrefix e.1 (root ++ ['/']))).map
      (fun e => ⟨e.1, false⟩)
  data := fun path => (table.find? (fun e => e.1 = path)).map (fun e => e.2)
  getwd := some "/work".toList
  userHomeDir := some "/home/u".toList
  abs := fun path => if hasPrefix path ['/'] then some path else some ("/work/".toList ++ path)
  gitOnPath := false
  runDiff := fun _ _ _ => (1, "--- a\n+++ b\n".toList)
  editorVar := []
  runEditor := fun _ _ content => (true, content)
  rangeOrder := id
  writeFault := fun _ _ => none
  mkdirAllOk := fun _ => true
  createTempOk := true
  tempCopyOk := fun _ => true

/-- The environment of the scenarios with a destination file system that refuses the
creation of the listed files and of the listed directories. -/
def refusingEnv (table : List (Str × Str)) (noCreate noMkdir : List Str) : Env :=
  { fixtureEnv table with
    writeFault := fun dst _ => if dst ∈ noCreate then some .create else none
    mkdirAllOk := fun path => !decide (path ∈ noMkdir) }

/-- The list-item pattern in words: a hyphen, one or more white-space characters, a token
of one or more lower-case letters, digits and hyphens, optionally the suffix `.mdc`, then
optional white space up to the end of the line. -/
def ListItem (line tok : Str) : Prop :=
  ∃ ws suffix trail : Str, line = '-' :: (ws ++ tok ++ suffix ++ trail) ∧
    ws ≠ [] ∧ (∀ c ∈ ws, isReSpace c = true) ∧
    tok ≠ [] ∧ (∀ c ∈ tok, isRuleChar c = true) ∧
    (suffix = [] ∨ suffix = mdcExt) ∧ (∀ c ∈ trail, isReSpace c = true)

/-- A separator before a token: white space of the pattern or the hyphen. -/
def isSep (c : Char) : Bool := isReSpace c || c == '-'

/-- Whether some white-space character of the line stands directly between a character
that is no separator and a character that is no white space. -/
def spaceBetween : Str → Bool
  | c1 :: c2 :: c3 :: t =>
    (!isSep c1 && isReSpace c2 && !isReSpace c3) || spaceBetween (c2 :: c3 :: t)
  | _ => false

/-- The answers `s` and `skip`, in any letter case and with surrounding white space. -/
abbrev IsSkipChoice (line : Str) : Prop :=
  normalizeChoice line = "s".toList ∨ normalizeChoice line = "skip".toList

/-- The answers `o` and `overwrite`. -/
abbrev IsOverwriteChoice (line : Str) : Prop :=
  normalizeChoice line = "o".toList ∨ normalizeChoice line = "overwrite".toList

/-- The answers `d` and `diff`. -/
abbrev IsDiffChoice (line : Str) : Prop :=
  normalizeChoice line = "d".toList ∨ normalizeChoice line = "diff".toList

/-- The answers `m` and `merge`. -/
abbrev IsMergeChoice (line : Str) : Prop :=
  normalizeChoice line = "m".toList ∨ normalizeChoice line = "merge".toList

/-- An answer that is none of the four actions. -/
abbrev IsInvalidChoice (line : Str) : Prop :=
  ¬ IsSkipChoice line ∧ ¬ IsOverwriteChoice line ∧ ¬ IsDiffChoice line ∧ ¬ IsMergeChoice line

/-- A non-terminal answer: a diff request or an invalid answer. -/
abbrev IsNonTerminalChoice (line : Str) : Prop := IsDiffChoice line ∨ IsInvalidChoice line

/-- The second world is the first one after some printing: same files, same
directories, same pending input, more output. -/
def OnlyPrints (w w2 : World) : Prop :=
  w2.files = w.files ∧ w2.stdin = w.stdin ∧ w2.dirs = w.dirs ∧ ∃ more, w2.out = w.out ++ more

/-- The flags `--dir` and `-d`. -/
abbrev IsDirFlag (arg : Str) : Prop := arg = "--dir".toList ∨ arg = "-d".toList

/-- The flags `--home` and `-H`. -/
abbrev IsHomeFlag (arg : Str) : Prop := arg = "--home".toList ∨ arg = "-H".toList

/-- The name of a document: the text after the last slash of its path. -/
def fileName (path : Str) : Str := (path.reverse.takeWhile (fun c => c != '/')).reverse

/-- The identifier of a rule document: its name without the four characters of `.mdc`. -/
def ruleId (path : Str) : Str := (fileName path).take ((fileName path).length - 4)

/-- The selection of a role in words: a document, not a directory, whose name ends in
`.mdc` and whose identifier occurs in the list of the role. -/
def isSelectedRule (ruleNames : List Str) (d : DirEntry) : Bool :=
  !d.isDir && hasSuffix (fileName d.path) mdcExt && decide (ruleId d.path ∈ ruleNames)

/-- The answers that successive calls of the resolver read from the pending input, the
reader of the first call having read the text `acc` already: a reader takes reads until
one holds a line feed, and what that read holds after the line feed is lost. -/
def answersOf : List Str → Str → List Str
  | [], _ => []
  | chunk :: rest, acc =>
    if chunk.contains '\n' then answerOf acc chunk :: answersOf rest []
    else answersOf rest (acc ++ chunk)

/-- No answer read from the pending input, after the text `acc`, asks for a skip or a
merge. -/
def SafeAnswers (stdin : List Str) (acc : Str) : Prop :=
  ∀ l ∈ answersOf stdin acc, ¬ IsSkipChoice l ∧ ¬ IsMergeChoice l

/-- No answer that can be read from the pending input asks for a skip or a merge. -/
def NoSkipNoMerge (stdin : List Str) : Prop := SafeAnswers stdin []

/-- The entries that the prompt of the resolver prints. -/
def promptLines (src dst : Str) : List Str :=
  [conflictLine dst, "  Source: ".toList ++ src ++ ['\n'], "  Target: ".toList ++ dst ++ ['\n'],
    ['\n'], "Choose an action:\n".toList, "  [s]kip - Skip this file (keep existing)\n".toList,
    "  [o]verwrite - Overwrite with source file\n".toList,
    "  [d]iff - View differences\n".toList,
    "  [m]erge - Merge files (manual edit required)\n".toList,
    "Your choice (s/o/d/m): ".toList]

/-- The entries printed before the editor is started. -/
def mergeLines (editor src dst : Str) : List Str :=
  ["  Opening files for merge with ".toList ++ editor ++ "...\n".toList,
    "  Source: ".toList ++ src ++ ['\n'], "  Target: ".toList ++ dst ++ ['\n']]

/-- A job is a source path of the store with its destination path.  It is settled in a
world when the destination exists and the differ reports it identical to the source. -/
def Settled (env : Env) (w : World) (job : Str × Str) : Prop :=
  (w.files job.2).isSome = true ∧ filesAreDifferent env w job.1 job.2 = false

/-- The jobs of the command walk: every document, not a directory, with the extension
`.md`, and its destination below the target directory. -/
def commandJobs (sourceDir targetDir : Str) (ds : List DirEntry) : List (Str × Str) :=
  ds.filterMap (fun d =>
    if d.isDir then none
    else if filepathExt d.path ≠ ['.', 'm', 'd'] then none
    else (filepathRel sourceDir d.path).map (fun relPath =>
      (d.path, filepathJoin targetDir relPath)))

/-- The jobs of the rule walk of one role. -/
def ruleJobs (targetDir : Str) (ruleNames : List Str) (ds : List DirEntry) :
    List (Str × Str) :=
  (ds.filter (isSelectedRule ruleNames)).map
    (fun d => (d.path, filepathJoin targetDir (fileName d.path)))

/-- The role map that the command walk builds from a given map. -/
def collectRoles (env : Env) : List DirEntry → GoMap (List Str) → GoMap (List Str)
  | [], m => m
  | d :: ds, m =>
    if d.isDir then collectRoles env ds m
    else if filepathExt d.path ≠ ['.', 'm', 'd'] then collectRoles env ds m
    else
      match extractRulesFromCommand env d.path with
      | .ok rules =>
        collectRoles env ds
          (mapSet m (trimSuffix (filepathBase d.path) ['.', 'm', 'd']) rules)
      | .error _ => m

/-- The destination directory of the rules of a role. -/
def rulesTargetOf (cursorDir role : Str) : Str :=
  filepathJoin (filepathJoin cursorDir "rules/mozi".toList) role

/-- The jobs of the rule walks of the given roles. -/
def allRuleJobs (env : Env) (cursorDir : Str) (roles : GoMap (List Str)) : List (Str × Str) :=
  roles.flatMap (fun e => ruleJobs (rulesTargetOf cursorDir e.1) e.2 (env.walk "rules".toList))

/-- All the jobs of an install run below a configuration directory. -/
def installJobs (env : Env) (cursorDir : Str) : List (Str × Str) :=
  commandJobs "commands".toList (filepathJoin cursorDir "commands".toList)
      (env.walk "commands".toList) ++
    allRuleJobs env cursorDir
      (env.rangeOrder (collectRoles env (env.walk "commands".toList) []))

/-- Whether a job can be carried out: the source can be read and the file system does
not refuse the write of its content to the destination. -/
def copyable (env : Env) (job : Str × Str) : Bool :=
  match env.data job.1 with
  | none => false
  | some content => (env.writeFault job.2 content).isNone

/-- The line printed for an installed rule document. -/
def installedRuleLine (role path : Str) : Str :=
  "  ✓ Installed rule for ".toList ++ role ++ ": ".toList ++ ruleId path ++ ['\n']

/-- The line printed for an installed command document. -/
def installedCommandLine (relPath : Str) : Str :=
  "  ✓ Installed command: ".toList ++ relPath ++ ['\n']

/-- The directories of an install run exist: the commands directory, the directory of
every command destination and the rules directory of every role. -/
def DirsReady (env : Env) (cursorDir : Str) (w : World) : Prop :=
  w.dirs (filepathJoin cursorDir "commands".toList) = true ∧
  (∀ j ∈ commandJobs "commands".toList (filepathJoin cursorDir "commands".toList)
      (env.walk "commands".toList), w.dirs (filepathDir j.2) = true) ∧
  (∀ e ∈ env.rangeOrder (collectRoles env (env.walk "commands".toList) []),
    w.dirs (rulesTargetOf cursorDir e.1) = true)

/-- Every command document of the list can be read and lies below the source root. -/
def GoodCommands (env : Env) (sourceDir : Str) (ds : List DirEntry) : Prop :=
  ∀ d ∈ ds, d.isDir = false → filepathExt d.path = ['.', 'm', 'd'] →
    ∃ rules relPath, extractRulesFromCommand env d.path = .ok rules ∧
      filepathRel sourceDir d.path = some relPath

/-- The store of the scenarios: one command document that lists two rules, and three
rule documents. -/
def plannerStore : List (Str × Str) :=
  [("commands/planner.md".toList,
      "# Planner\n## Related Rules\n- style-guide\n- testing.mdc\n## Other\n".toList),
    ("rules/style-guide.mdc".toList, "style".toList),
    ("rules/testing.mdc".toList, "testing".toList),
    ("rules/unused.mdc".toList, "unused".toList)]

/-- A destination that holds only an older version of the command document. -/
def olderPlanner : Str → Option Str :=
  fun p => if p = "/work/.cursor/commands/planner.md".toList then some "old".toList else none

/-! ## Test vectors of the digest -/

set_option maxRecDepth 100000 in
/-- The digest of the empty content and of `abc` are the values of FIPS 180-4. -/
theorem sha256_test_vectors :
    (sha256 []).val =
      0xe3b0c44298fc1c149afbf4c8996fb92427ae41e4649b934ca495991b7852b855 ∧
    (sha256 "abc".toList).val =
      0xba7816bf8f01cfea414140de5dae2223b00361a396177a9cb410ff61f20015ad := by
  decide

/-! ## Lemmas on strings -/

theorem containsStr_iff (s sub : Str) : containsStr s sub = true ↔ sub <:+: s := by
  unfold containsStr
  rw [List.any_eq_true]
  constructor
  · rintro ⟨t, ht, hp⟩
    rw [List.mem_tails] at ht
    rw [List.isPrefixOf_iff_prefix] at hp
    exact List.infix_iff_prefix_suffix.mpr ⟨t, hp, ht⟩
  · intro h
    obtain ⟨t, hp, ht⟩ := List.infix_iff_prefix_suffix.mp h
    exact ⟨t, (List.mem_tails ..).mpr ht, List.isPrefixOf_iff_prefix.mpr hp⟩

theorem trimSpace_within (s : Str) : trimSpace s <:+: s := by
  unfold trimSpace
  have h1 : (s.dropWhile isSpace) <:+ s := List.dropWhile_suffix _
  have h2 : ((s.dropWhile isSpace).reverse.dropWhile isSpace) <:+ (s.dropWhile isSpace).reverse :=
    List.dropWhile_suffix _
  have h3 : ((s.dropWhile isSpace).reverse.dropWhile isSpace).reverse <+: (s.dropWhile isSpace) := by
    have := List.reverse_prefix.mpr h2
    simpa using this
  exact h3.isInfix.trans h1.isInfix

theorem dropCR_within (s : Str) : dropCR s <:+: s := by
  unfold dropCR
  split
  · exact (List.take_prefix _ _).isInfix
  · exact List.infix_refl _

theorem lineText_within (s : Str) : lineText s <:+: s :=
  (trimSpace_within _).trans (dropCR_within s)

theorem isMarker_of_within {a b : Str} (h : a <:+: b) (ha : isMarker a = true) :
    isMarker b = true := by
  unfold isMarker at *
  rw [containsStr_iff] at *
  obtain ⟨x, y, rfl⟩ := h
  refine ha.trans ?_
  unfold toLower
  simp only [List.map_append]
  exact ⟨_, _, rfl⟩

theorem isMarker_lineText_false {raw : Str} (h : isMarker raw = false) :
    isMarker (lineText raw) = false := by
  by_contra hc
  have := isMarker_of_within (lineText_within raw) (by simpa using hc)
  simp [h] at this

/-! ## Lemmas on the scanner -/

theorem scanRules_outside (pre rest : List Str) (rules : List Str)
    (hshort : ∀ l ∈ pre, byteLen l < maxScanTokenSize)
    (hno : ∀ l ∈ pre, isMarker (lineText l) = false) :
    scanRules (pre ++ rest) false rules = scanRules rest false rules := by
  induction pre with
  | nil => rfl
  | cons l pre ih =>
    have h1 : ¬ maxScanTokenSize ≤ byteLen l := by
      have := hshort l (List.mem_cons_self _ _); omega
    have h2 := hno l (List.mem_cons_self _ _)
    simp only [List.cons_append, scanRules, h1, h2, if_false, Bool.false_and, Bool.false_eq_true]
    exact ih (fun x hx => hshort x (List.mem_cons_of_mem _ hx))
      (fun x hx => hno x (List.mem_cons_of_mem _ hx))

theorem scanRules_marker (m : Str) (rest : List Str) (b : Bool) (rules : List Str)
    (hshort : byteLen m < maxScanTokenSize) (hm : isMarker (lineText m) = true) :
    scanRules (m :: rest) b rules = scanRules rest true rules := by
  have h1 : ¬ maxScanTokenSize ≤ byteLen m := by omega
  simp only [scanRules, h1, hm, if_false, if_true]

theorem scanRules_stop (h : Str) (rest : List Str) (rules : List Str)
    (hshort : byteLen h < maxScanTokenSize) (hm : isMarker (lineText h) = false)
    (hh : isHeading (lineText h) = true) :
    scanRules (h :: rest) true rules = .ok rules := by
  have h1 : ¬ maxScanTokenSize ≤ byteLen h := by omega
  simp only [scanRules, h1, hm, hh, if_false, Bool.and_self, if_true, Bool.false_eq_true]

theorem scanRules_tooLong (l : Str) (rest : List Str) (b : Bool) (rules : List Str)
    (hlong : maxScanTokenSize ≤ byteLen l) :
    scanRules (l :: rest) b rules = .error .tooLong := by
  simp only [scanRules, hlong, if_true]

theorem scanRules_nil (b : Bool) (rules : List Str) : scanRules [] b rules = .ok rules := rfl

theorem byteLen_replicate_a (n : Nat) : byteLen (List.replicate n 'a') = n := by
  induction n with
  | zero => rfl
  | succ n ih =>
    simp only [byteLen, List.replicate_succ, List.map_cons, List.sum_cons] at *
    rw [ih]
    have : runeLen 'a' = 1 := by decide
    omega

theorem rawLines_cons_ne (c : Char) (cs : Str) (hc : c ≠ '\n') :
    rawLines (c :: cs) =
      match rawLines cs with
      | [] => [[c]]
      | l :: ls => (c :: l) :: ls := by
  simp only [rawLines, hc, if_false]

theorem rawLines_cons_nl (cs : Str) : rawLines ('\n' :: cs) = [] :: rawLines cs := by
  simp only [rawLines, if_true]

theorem rawLines_single (l : Str) (hne : l ≠ []) (hnl : '\n' ∉ l) : rawLines l = [l] := by
  induction l with
  | nil => exact absurd rfl hne
  | cons c cs ih =>
    have hc : c ≠ '\n' := fun h => hnl (h ▸ List.mem_cons_self _ _)
    rw [rawLines_cons_ne c cs hc]
    cases cs with
    | nil => rfl
    | cons d ds =>
      rw [ih (List.cons_ne_nil _ _) (fun h => hnl (List.mem_cons_of_mem _ h))]

theorem rawLines_replicate_a (n : Nat) :
    rawLines (List.replicate (n + 1) 'a') = [List.replicate (n + 1) 'a'] := by
  apply rawLines_single
  · simp [List.replicate_succ]
  · intro h
    exact absurd (List.eq_of_mem_replicate h) (by decide)

theorem isMarker_replicate_a (n : Nat) : isMarker (List.replicate n 'a') = false := by
  by_contra hc
  have hc : isMarker (List.replicate n 'a') = true := by simpa using hc
  unfold isMarker at hc
  rw [containsStr_iff] at hc
  have hmem : 'r' ∈ toLower (List.replicate n 'a') := by
    apply hc.subset
    decide
  unfold toLower at hmem
  rw [List.mem_map] at hmem
  obtain ⟨c, hc1, hc2⟩ := hmem
  rw [List.eq_of_mem_replicate hc1] at hc2
  exact absurd hc2 (by decide)

/-! ## The list-item pattern -/

theorem isReSpace_of_isRuleChar {c : Char} (h : isRuleChar c = true) : isReSpace c = false := by
  unfold isRuleChar at h
  unfold isReSpace
  simp only [Bool.or_eq_true, Bool.and_eq_true, decide_eq_true_eq, beq_iff_eq] at h
  simp only [Bool.or_eq_false_iff, beq_eq_false_iff_ne, ne_eq]
  omega

theorem takeWhile_append_stop {p : Char → Bool} (a b : Str) (ha : ∀ c ∈ a, p c = true)
    (hb : ∀ c, b.head? = some c → p c = false) : (a ++ b).takeWhile p = a := by
  rw [List.takeWhile_append_of_pos ha]
  cases b with
  | nil => simp
  | cons c b =>
    have := hb c rfl
    simp [List.takeWhile_cons, this]

theorem dropWhile_append_stop {p : Char → Bool} (a b : Str) (ha : ∀ c ∈ a, p c = true)
    (hb : ∀ c, b.head? = some c → p c = false) : (a ++ b).dropWhile p = b := by
  rw [List.dropWhile_append_of_pos ha]
  cases b with
  | nil => simp
  | cons c b =>
    have := hb c rfl
    simp [List.dropWhile_cons, this]

theorem head_tail_classes (tok suffix trail : Str) (htok : ∀ c ∈ tok, isRuleChar c = true)
    (hsuf : suffix = [] ∨ suffix = mdcExt) (htrail : ∀ c ∈ trail, isReSpace c = true) :
    (∀ c, (tok ++ suffix ++ trail).head? = some c → tok ≠ [] → isReSpace c = false) ∧
    (∀ c, (suffix ++ trail).head? = some c → isRuleChar c = false) := by
  constructor
  · intro c hc hne
    cases tok with
    | nil => exact absurd rfl hne
    | cons t ts =>
      simp only [List.cons_append, List.head?_cons, Option.some.injEq] at hc
      subst hc
      exact isReSpace_of_isRuleChar (htok _ (List.mem_cons_self _ _))
  · intro c hc
    rcases hsuf with rfl | rfl
    · cases trail with
      | nil => simp at hc
      | cons t ts =>
        simp only [List.nil_append, List.head?_cons, Option.some.injEq] at hc
        subst hc
        have := htrail _ (List.mem_cons_self _ _)
        by_contra hcon
        have hcon : isRuleChar t = true := by simpa using hcon
        rw [isReSpace_of_isRuleChar hcon] at this
        exact absurd this (by decide)
    · simp only [mdcExt, List.cons_append, List.head?_cons, Option.some.injEq] at hc
      subst hc
      decide

theorem stripMdc_split (r2 : Str) :
    (if hasPrefix r2 mdcExt then mdcExt else []) ++
      (if hasPrefix r2 mdcExt then r2.drop 4 else r2) = r2 := by
  by_cases hp : hasPrefix r2 mdcExt = true
  · rw [if_pos hp, if_pos hp]
    unfold hasPrefix at hp
    rw [List.isPrefixOf_iff_prefix] at hp
    obtain ⟨t, ht⟩ := hp
    rw [← ht]
    simp [mdcExt]
  · rw [if_neg hp, if_neg hp]
    rfl

theorem rulePattern_dash (rest : Str) :
    rulePattern ('-' :: rest) =
      if rest.takeWhile isReSpace ≠ [] ∧
          (rest.dropWhile isReSpace).takeWhile isRuleChar ≠ [] ∧
          (if hasPrefix ((rest.dropWhile isReSpace).dropWhile isRuleChar) mdcExt
            then ((rest.dropWhile isReSpace).dropWhile isRuleChar).drop 4
            else (rest.dropWhile isReSpace).dropWhile isRuleChar).all isReSpace = true
      then some ((rest.dropWhile isReSpace).takeWhile isRuleChar) else none := by
  unfold rulePattern
  simp only [if_true]

theorem rulePattern_not_dash (c : Char) (rest : Str) (hc : c ≠ '-') :
    rulePattern (c :: rest) = none := by
  unfold rulePattern
  simp only [hc, if_false]

theorem rulePattern_iff (line tok : Str) : rulePattern line = some tok ↔ ListItem line tok := by
  constructor
  · intro h
    cases line with
    | nil => simp [rulePattern] at h
    | cons c rest =>
      by_cases hc : c = '-'
      · subst hc
        rw [rulePattern_dash] at h
        by_cases hcond : rest.takeWhile isReSpace ≠ [] ∧
          (rest.dropWhile isReSpace).takeWhile isRuleChar ≠ [] ∧
          (if hasPrefix ((rest.dropWhile isReSpace).dropWhile isRuleChar) mdcExt
            then ((rest.dropWhile isReSpace).dropWhile isRuleChar).drop 4
            else (rest.dropWhile isReSpace).dropWhile isRuleChar).all isReSpace = true
        · rw [if_pos hcond] at h
          obtain ⟨hws, htok, hall⟩ := hcond
          simp only [Option.some.injEq] at h
          have hrest : rest.takeWhile isReSpace ++ rest.dropWhile isReSpace = rest :=
            List.takeWhile_append_dropWhile _ _
          have hr1 : (rest.dropWhile isReSpace).takeWhile isRuleChar ++
              (rest.dropWhile isReSpace).dropWhile isRuleChar = rest.dropWhile isReSpace :=
            List.takeWhile_append_dropWhile _ _
          have hr2 := stripMdc_split ((rest.dropWhile isReSpace).dropWhile isRuleChar)
          refine ⟨rest.takeWhile isReSpace,
            if hasPrefix ((rest.dropWhile isReSpace).dropWhile isRuleChar) mdcExt then mdcExt else [],
            if hasPrefix ((rest.dropWhile isReSpace).dropWhile isRuleChar) mdcExt
              then ((rest.dropWhile isReSpace).dropWhile isRuleChar).drop 4
              else (rest.dropWhile isReSpace).dropWhile isRuleChar,
            ?_, hws, ?_, ?_, ?_, ?_, ?_⟩
          · congr 1
            rw [List.append_assoc, List.append_assoc, hr2, ← h, hr1, hrest]
          · intro c hc
            exact List.mem_takeWhile_imp hc
          · rw [← h]; exact htok
          · intro c hc
            rw [← h] at hc
            exact List.mem_takeWhile_imp hc
          · by_cases hp : hasPrefix ((rest.dropWhile isReSpace).dropWhile isRuleChar) mdcExt = true
            · right; rw [if_pos hp]
            · left; rw [if_neg hp]
          · exact List.all_eq_true.mp hall
        · rw [if_neg hcond] at h
          exact absurd h (by simp)
      · rw [rulePattern_not_dash c rest hc] at h
        exact absurd h (by simp)
  · rintro ⟨ws, suffix, trail, rfl, hws, hwsall, htok, htokall, hsuf, htrail⟩
    obtain ⟨hA, hB⟩ := head_tail_classes tok suffix trail htokall hsuf htrail
    have e1 : (ws ++ tok ++ suffix ++ trail).takeWhile isReSpace = ws := by
      rw [List.append_assoc, List.append_assoc]
      apply takeWhile_append_stop _ _ hwsall
      intro c hc
      rw [← List.append_assoc] at hc
      exact hA c hc htok
    have e2 : (ws ++ tok ++ suffix ++ trail).dropWhile isReSpace = tok ++ (suffix ++ trail) := by
      rw [List.append_assoc, List.append_assoc]
      apply dropWhile_append_stop _ _ hwsall
      intro c hc
      rw [← List.append_assoc] at hc
      exact hA c hc htok
    have e3 : (tok ++ (suffix ++ trail)).takeWhile isRuleChar = tok :=
      takeWhile_append_stop _ _ htokall hB
    have e4 : (tok ++ (suffix ++ trail)).dropWhile isRuleChar = suffix ++ trail :=
      dropWhile_append_stop _ _ htokall hB
    have e5 : (if hasPrefix (suffix ++ trail) mdcExt then (suffix ++ trail).drop 4
        else suffix ++ trail) = trail := by
      rcases hsuf with rfl | rfl
      · have : hasPrefix ([] ++ trail) mdcExt = false := by
          cases trail with
          | nil => rfl
          | cons t ts =>
            have ht := htrail t (List.mem_cons_self _ _)
            have : ¬ ('.' = t) := by
              rintro rfl
              exact absurd ht (by decide)
            simp [hasPrefix, mdcExt, List.isPrefixOf, this]
        rw [this]
        simp
      · have : hasPrefix (mdcExt ++ trail) mdcExt = true := by
          unfold hasPrefix
          rw [List.isPrefixOf_iff_prefix]
          exact List.prefix_append _ _
        rw [this]
        simp [mdcExt]
    rw [rulePattern_dash]
    simp only [e1, e2, e3, e4, e5]
    have : trail.all isReSpace = true := List.all_eq_true.mpr htrail
    rw [if_pos ⟨hws, htok, this⟩]

/-! ## A list item never contains the marker -/

theorem ofNat_upper_ne_space : ∀ n < 91, 65 ≤ n → Char.ofNat (n + 32) ≠ ' ' := by decide

theorem toLowerRune_cases (c : Char) :
    (65 ≤ c.toNat ∧ c.toNat ≤ 90) ∨ toLowerRune c = 'k' ∨ toLowerRune c = 'i' ∨
      toLowerRune c = c := by
  by_cases h : 65 ≤ c.toNat ∧ c.toNat ≤ 90
  · exact Or.inl h
  · right
    unfold toLowerRune
    rw [if_neg h]
    by_cases h2 : c.toNat = 0x212A
    · rw [if_pos h2]; exact Or.inl rfl
    · rw [if_neg h2]
      by_cases h3 : c.toNat = 0x130
      · rw [if_pos h3]; exact Or.inr (Or.inl rfl)
      · rw [if_neg h3]; exact Or.inr (Or.inr rfl)

theorem isSep_false_of_lower_d (c : Char) (h : toLowerRune c = 'd') : isSep c = false := by
  rcases toLowerRune_cases c with hu | hk | hi | hc
  · unfold isSep isReSpace
    have : c ≠ '-' := by rintro rfl; exact absurd hu.1 (by decide)
    simp only [Bool.or_eq_false_iff, beq_eq_false_iff_ne, ne_eq]
    refine ⟨⟨⟨⟨⟨?_, ?_⟩, ?_⟩, ?_⟩, ?_⟩, this⟩ <;> omega
  · rw [hk] at h; exact absurd h (by decide)
  · rw [hi] at h; exact absurd h (by decide)
  · rw [hc] at h; subst h; decide

theorem isReSpace_false_of_lower_r (c : Char) (h : toLowerRune c = 'r') :
    isReSpace c = false := by
  rcases toLowerRune_cases c with hu | hk | hi | hc
  · unfold isReSpace
    simp only [Bool.or_eq_false_iff, beq_eq_false_iff_ne, ne_eq]
    refine ⟨⟨⟨⟨?_, ?_⟩, ?_⟩, ?_⟩, ?_⟩ <;> omega
  · rw [hk] at h; exact absurd h (by decide)
  · rw [hi] at h; exact absurd h (by decide)
  · rw [hc] at h; subst h; decide

theorem isReSpace_of_lower_space (c : Char) (h : toLowerRune c = ' ') : isReSpace c = true := by
  rcases toLowerRune_cases c with hu | hk | hi | hc
  · unfold toLowerRune at h
    rw [if_pos hu] at h
    exact absurd h (ofNat_upper_ne_space c.toNat (by omega) hu.1)
  · rw [hk] at h; exact absurd h (by decide)
  · rw [hi] at h; exact absurd h (by decide)
  · rw [hc] at h; subst h; decide

theorem spaceBetween_cons (a : Char) (l : Str) (h : spaceBetween l = true) :
    spaceBetween (a :: l) = true := by
  match l, h with
  | c1 :: c2 :: t, h =>
    unfold spaceBetween
    rw [h]
    exact Bool.or_true _

theorem spaceBetween_append (a l : Str) (h : spaceBetween l = true) :
    spaceBetween (a ++ l) = true := by
  induction a with
  | nil => exact h
  | cons x a ih => exact spaceBetween_cons x _ ih

theorem spaceBetween_of_isMarker (line : Str) (h : isMarker line = true) :
    spaceBetween line = true := by
  unfold isMarker at h
  rw [containsStr_iff] at h
  obtain ⟨x, y, hxy⟩ := h
  have hsplit : toLower line =
      (x ++ "relate".toList) ++ ('d' :: ' ' :: 'r' :: ("ules".toList ++ y)) := by
    rw [← hxy]
    simp [relatedRules]
  unfold toLower at hsplit
  rw [List.map_eq_append_iff] at hsplit
  obtain ⟨a, b, rfl, -, hb⟩ := hsplit
  rw [List.map_eq_cons_iff] at hb
  obtain ⟨c1, b1, rfl, h1, hb1⟩ := hb
  rw [List.map_eq_cons_iff] at hb1
  obtain ⟨c2, b2, rfl, h2, hb2⟩ := hb1
  rw [List.map_eq_cons_iff] at hb2
  obtain ⟨c3, b3, rfl, h3, -⟩ := hb2
  apply spaceBetween_append
  unfold spaceBetween
  rw [isSep_false_of_lower_d c1 h1, isReSpace_of_lower_space c2 h2,
    isReSpace_false_of_lower_r c3 h3]
  rfl

theorem spaceBetween_trail (c : Char) (trail : Str) (h : ∀ x ∈ trail, isReSpace x = true) :
    spaceBetween (c :: trail) = false := by
  induction trail generalizing c with
  | nil => rfl
  | cons t ts ih =>
    cases ts with
    | nil => rfl
    | cons u us =>
      unfold spaceBetween
      rw [h u (by simp), ih t (fun x hx => h x (List.mem_cons_of_mem _ hx))]
      simp

theorem spaceBetween_mid (c : Char) (mid trail : Str) (hm : ∀ x ∈ mid, isReSpace x = false)
    (h : ∀ x ∈ trail, isReSpace x = true) : spaceBetween (c :: (mid ++ trail)) = false := by
  induction mid generalizing c with
  | nil => exact spaceBetween_trail c trail h
  | cons m ms ih =>
    have ihm := ih m (fun x hx => hm x (List.mem_cons_of_mem _ hx))
    rw [List.cons_append]
    generalize ms ++ trail = rest at *
    cases rest with
    | nil => rfl
    | cons u us =>
      show spaceBetween (c :: m :: u :: us) = false
      unfold spaceBetween
      rw [hm m (List.mem_cons_self _ _), ihm]
      simp

theorem spaceBetween_ws (c : Char) (ws rest : Str) (hc : isSep c = true)
    (hws : ∀ x ∈ ws, isReSpace x = true)
    (hrest : ∀ d, isSep d = true → spaceBetween (d :: rest) = false) :
    spaceBetween (c :: (ws ++ rest)) = false := by
  induction ws generalizing c with
  | nil => exact hrest c hc
  | cons s ss ih =>
    have hs : isSep s = true := by
      unfold isSep
      rw [hws s (List.mem_cons_self _ _)]
      rfl
    have ihs := ih s hs (fun x hx => hws x (List.mem_cons_of_mem _ hx))
    rw [List.cons_append]
    generalize ss ++ rest = tl at *
    cases tl with
    | nil => rfl
    | cons u us =>
      show spaceBetween (c :: s :: u :: us) = false
      unfold spaceBetween
      rw [hc, ihs]
      simp

theorem isMarker_false_of_listItem (line tok : Str) (h : ListItem line tok) :
    isMarker line = false := by
  obtain ⟨ws, suffix, trail, rfl, -, hws, -, htok, hsuf, htrail⟩ := h
  by_contra hc
  have hm := spaceBetween_of_isMarker _ (by simpa using hc)
  have hmid : ∀ x ∈ tok ++ suffix, isReSpace x = false := by
    intro x hx
    rcases List.mem_append.mp hx with hx | hx
    · exact isReSpace_of_isRuleChar (htok x hx)
    · rcases hsuf with rfl | rfl
      · simp at hx
      · simp only [mdcExt, List.mem_cons, List.mem_singleton, List.not_mem_nil, or_false] at hx
        rcases hx with rfl | rfl | rfl | rfl <;> decide
  have := spaceBetween_ws '-' ws ((tok ++ suffix) ++ trail) (by decide) hws
    (fun d _ => spaceBetween_mid d _ _ hmid htrail)
  simp only [List.append_assoc] at hm this
  rw [this] at hm
  exact absurd hm (by decide)

theorem rulePattern_none_of_isMarker (line : Str) (h : isMarker line = true) :
    rulePattern line = none := by
  cases hr : rulePattern line with
  | none => rfl
  | some tok =>
    have := isMarker_false_of_listItem line tok ((rulePattern_iff line tok).mp hr)
    rw [h] at this
    exact absurd this (by decide)

/-! ## The section body and the end of the section -/

theorem scanRules_cons (raw : Str) (rest : List Str) (b : Bool) (rules : List Str) :
    scanRules (raw :: rest) b rules =
      if maxScanTokenSize ≤ byteLen raw then .error .tooLong
      else if isMarker (lineText raw) then scanRules rest true rules
      else if b && isHeading (lineText raw) then .ok rules
      else if b then
        match rulePattern (lineText raw) with
        | some m => scanRules rest b (rules ++ [m])
        | none => scanRules rest b rules
      else scanRules rest b rules := by
  rw [scanRules]

theorem scanRules_item (l : Str) (rest : List Str) (rules : List Str)
    (hshort : byteLen l < maxScanTokenSize) (hm : isMarker (lineText l) = false)
    (hh : isHeading (lineText l) = false) :
    scanRules (l :: rest) true rules =
      scanRules rest true (rules ++ (rulePattern (lineText l)).toList) := by
  have h1 : ¬ maxScanTokenSize ≤ byteLen l := by omega
  rw [scanRules_cons, if_neg h1, hm, hh]
  simp only [Bool.false_eq_true, if_false, Bool.and_false, if_true]
  cases rulePattern (lineText l) with
  | none => simp
  | some tok => simp

theorem scanRules_skip (l : Str) (rest : List Str) (rules : List Str)
    (hshort : byteLen l < maxScanTokenSize) (hm : isMarker (lineText l) = false) :
    scanRules (l :: rest) false rules = scanRules rest false rules := by
  have h1 : ¬ maxScanTokenSize ≤ byteLen l := by omega
  rw [scanRules_cons, if_neg h1, hm]
  simp only [Bool.false_eq_true, if_false, Bool.false_and]

theorem filterMap_cons_toList {α β : Type} (f : α → Option β) (a : α) (l : List α) :
    (a :: l).filterMap f = (f a).toList ++ l.filterMap f := by
  rw [List.filterMap_cons]
  cases f a <;> rfl

theorem scanRules_body (body rest : List Str) (rules : List Str)
    (hshort : ∀ l ∈ body, byteLen l < maxScanTokenSize)
    (hbody : ∀ l ∈ body, isHeading (lineText l) = false ∨ isMarker (lineText l) = true) :
    scanRules (body ++ rest) true rules =
      scanRules rest true (rules ++ body.filterMap (fun l => rulePattern (lineText l))) := by
  induction body generalizing rules with
  | nil => simp
  | cons l body ih =>
    have hs := hshort l (List.mem_cons_self _ _)
    have ih2 := fun r => ih r (fun x hx => hshort x (List.mem_cons_of_mem _ hx))
      (fun x hx => hbody x (List.mem_cons_of_mem _ hx))
    rw [List.cons_append, filterMap_cons_toList]
    by_cases hm : isMarker (lineText l) = true
    · rw [scanRules_marker l _ _ _ hs hm, ih2, rulePattern_none_of_isMarker _ hm]
      rfl
    · have hm2 : isMarker (lineText l) = false := by simpa using hm
      have hh : isHeading (lineText l) = false := by
        rcases hbody l (List.mem_cons_self _ _) with h | h
        · exact h
        · exact absurd h hm
      rw [scanRules_item l _ _ hs hm2 hh, ih2, List.append_assoc]

theorem scanRules_truncate (a : List Str) (h : Str) (b : List Str) (inSec : Bool)
    (rules : List Str) (hshort : byteLen h < maxScanTokenSize)
    (hm : isMarker (lineText h) = false) (hh : isHeading (lineText h) = true)
    (hin : inSec = true ∨ ∃ l ∈ a, isMarker (lineText l) = true) :
    scanRules (a ++ h :: b) inSec rules = scanRules a inSec rules := by
  induction a generalizing inSec rules with
  | nil =>
    rcases hin with rfl | ⟨l, hl, -⟩
    · exact scanRules_stop h b rules hshort hm hh
    · simp at hl
  | cons l a ih =>
    by_cases h1 : maxScanTokenSize ≤ byteLen l
    · rw [List.cons_append, scanRules_tooLong l _ _ _ h1, scanRules_tooLong l _ _ _ h1]
    · have hs : byteLen l < maxScanTokenSize := by omega
      by_cases hml : isMarker (lineText l) = true
      · rw [List.cons_append, scanRules_marker l _ _ _ hs hml, scanRules_marker l _ _ _ hs hml]
        exact ih true rules (Or.inl rfl)
      · have hml2 : isMarker (lineText l) = false := by simpa using hml
        have hin2 : inSec = true ∨ ∃ x ∈ a, isMarker (lineText x) = true := by
          rcases hin with h | ⟨x, hx, hxm⟩
          · exact Or.inl h
          · rcases List.mem_cons.mp hx with rfl | hx
            · exact absurd hxm hml
            · exact Or.inr ⟨x, hx, hxm⟩
        cases inSec with
        | false =>
          rw [List.cons_append, scanRules_skip l _ _ hs hml2, scanRules_skip l _ _ hs hml2]
          exact ih false rules hin2
        | true =>
          by_cases hhl : isHeading (lineText l) = true
          · rw [List.cons_append, scanRules_stop l _ _ hs hml2 hhl,
              scanRules_stop l _ _ hs hml2 hhl]
          · have hhl2 : isHeading (lineText l) = false := by simpa using hhl
            rw [List.cons_append, scanRules_item l _ _ hs hml2 hhl2,
              scanRules_item l _ _ hs hml2 hhl2]
            exact ih true _ (Or.inl rfl)

theorem rawLines_line_cons (h r : Str) (hh : '\n' ∉ h) :
    rawLines (h ++ '\n' :: r) = h :: rawLines r := by
  induction h with
  | nil => exact rawLines_cons_nl r
  | cons c cs ih =>
    have hc : c ≠ '\n' := fun e => hh (e ▸ List.mem_cons_self _ _)
    rw [List.cons_append, rawLines_cons_ne _ _ hc, ih (fun e => hh (List.mem_cons_of_mem _ e))]

theorem rawLines_ne_nil (s : Str) (hs : s ≠ []) : rawLines s ≠ [] := by
  cases s with
  | nil => exact absurd rfl hs
  | cons c cs =>
    by_cases hc : c = '\n'
    · subst hc
      rw [rawLines_cons_nl]
      exact List.cons_ne_nil _ _
    · rw [rawLines_cons_ne _ _ hc]
      cases rawLines cs <;> exact List.cons_ne_nil _ _

theorem rawLines_append (p q : Str) (hp : p = [] ∨ p.getLast? = some '\n') :
    rawLines (p ++ q) = rawLines p ++ rawLines q := by
  induction p with
  | nil => rfl
  | cons c cs ih =>
    have hlast : (c :: cs).getLast? = some '\n' := by
      rcases hp with h | h
      · exact absurd h (List.cons_ne_nil _ _)
      · exact h
    by_cases hc : c = '\n'
    · subst hc
      have hcs : cs = [] ∨ cs.getLast? = some '\n' := by
        cases cs with
        | nil => exact Or.inl rfl
        | cons d ds =>
          right
          rw [List.getLast?_cons_cons] at hlast
          exact hlast
      rw [List.cons_append, rawLines_cons_nl, rawLines_cons_nl, ih hcs]
      rfl
    · have hcs : cs ≠ [] := by
        rintro rfl
        simp only [List.getLast?_singleton, Option.some.injEq] at hlast
        exact hc hlast
      have hcs2 : cs = [] ∨ cs.getLast? = some '\n' := by
        cases cs with
        | nil => exact absurd rfl hcs
        | cons d ds =>
          right
          rw [List.getLast?_cons_cons] at hlast
          exact hlast
      rw [List.cons_append, rawLines_cons_ne _ _ hc, rawLines_cons_ne _ _ hc, ih hcs2]
      cases hr : rawLines cs with
      | nil => exact absurd hr (rawLines_ne_nil cs hcs)
      | cons l ls => rfl

theorem length_filterMap_eq_countP {α β : Type} (f : α → Option β) (l : List α) :
    (l.filterMap f).length = l.countP (fun a => (f a).isSome) := by
  induction l with
  | nil => rfl
  | cons a l ih =>
    rw [List.filterMap_cons, List.countP_cons]
    cases f a with
    | none => simpa using ih
    | some b => simpa using ih

/-! ## Lemmas on the world and the resolver -/

theorem filesAreDifferent_readable (env : Env) (w : World) (file1 file2 c1 c2 : Str)
    (h1 : env.data file1 = some c1) (h2 : w.files file2 = some c2) :
    filesAreDifferent env w file1 file2 = !(sha256 c1 == sha256 c2) := by
  unfold filesAreDifferent fileHashEmbedded fileHashFilesystem
  rw [h1, h2]

theorem filesAreDifferent_same (env : Env) (w : World) (file1 file2 c : Str)
    (h1 : env.data file1 = some c) (h2 : w.files file2 = some c) :
    filesAreDifferent env w file1 file2 = false := by
  rw [filesAreDifferent_readable env w file1 file2 c c h1 h2]
  simp


@[simp] theorem print_files (w : World) (s : Str) : (w.print s).files = w.files := rfl
@[simp] theorem print_stdin (w : World) (s : Str) : (w.print s).stdin = w.stdin := rfl
@[simp] theorem print_dirs (w : World) (s : Str) : (w.print s).dirs = w.dirs := rfl
@[simp] theorem print_out (w : World) (s : Str) : (w.print s).out = w.out ++ [s] := rfl
@[simp] theorem println_files (w : World) (s : Str) : (w.println s).files = w.files := rfl
@[simp] theorem println_stdin (w : World) (s : Str) : (w.println s).stdin = w.stdin := rfl
@[simp] theorem println_dirs (w : World) (s : Str) : (w.println s).dirs = w.dirs := rfl
@[simp] theorem println_out (w : World) (s : Str) :
    (w.println s).out = w.out ++ [s ++ ['\n']] := rfl
@[simp] theorem write_stdin (w : World) (p c : Str) : (w.write p c).stdin = w.stdin := rfl
@[simp] theorem write_out (w : World) (p c : Str) : (w.write p c).out = w.out := rfl
@[simp] theorem write_dirs (w : World) (p c : Str) : (w.write p c).dirs = w.dirs := rfl
@[simp] theorem write_files_same (w : World) (p c : Str) : (w.write p c).files p = some c := by
  simp [World.write]

theorem write_files_other (w : World) (p c q : Str) (h : q ≠ p) :
    (w.write p c).files q = w.files q := by
  simp [World.write, h]

@[simp] theorem consume_files (w : World) (r : List Str) : (w.consume r).files = w.files := rfl
@[simp] theorem consume_stdin (w : World) (r : List Str) : (w.consume r).stdin = r := rfl
@[simp] theorem consume_dirs (w : World) (r : List Str) : (w.consume r).dirs = w.dirs := rfl
@[simp] theorem consume_out (w : World) (r : List Str) : (w.consume r).out = w.out := rfl

theorem consume_self (w : World) : w.consume w.stdin = w := rfl

theorem OnlyPrints.refl (w : World) : OnlyPrints w w := ⟨rfl, rfl, rfl, [], by simp⟩

theorem OnlyPrints.trans {a b c : World} (h1 : OnlyPrints a b) (h2 : OnlyPrints b c) :
    OnlyPrints a c := by
  obtain ⟨f1, s1, d1, m1, o1⟩ := h1
  obtain ⟨f2, s2, d2, m2, o2⟩ := h2
  exact ⟨f2.trans f1, s2.trans s1, d2.trans d1, m1 ++ m2, by rw [o2, o1, List.append_assoc]⟩

theorem OnlyPrints.print (w : World) (s : Str) : OnlyPrints w (w.print s) :=
  ⟨rfl, rfl, rfl, [s], rfl⟩

theorem OnlyPrints.println (w : World) (s : Str) : OnlyPrints w (w.println s) :=
  ⟨rfl, rfl, rfl, [s ++ ['\n']], rfl⟩

theorem OnlyPrints.then_print {a b : World} (h : OnlyPrints a b) (s : Str) :
    OnlyPrints a (b.print s) := h.trans (OnlyPrints.print b s)

theorem OnlyPrints.then_println {a b : World} (h : OnlyPrints a b) (s : Str) :
    OnlyPrints a (b.println s) := h.trans (OnlyPrints.println b s)

theorem conflictPrompt_prints (src dst : Str) (w : World) :
    OnlyPrints w (conflictPrompt src dst w) := by
  unfold conflictPrompt
  exact ((((((((((OnlyPrints.print w _).then_println _).then_println _).then_println
    _).then_println _).then_println _).then_println _).then_println _).then_println
    _).then_print _)

@[simp] theorem conflictPrompt_files (src dst : Str) (w : World) :
    (conflictPrompt src dst w).files = w.files := (conflictPrompt_prints src dst w).1

@[simp] theorem conflictPrompt_stdin (src dst : Str) (w : World) :
    (conflictPrompt src dst w).stdin = w.stdin := (conflictPrompt_prints src dst w).2.1

@[simp] theorem conflictPrompt_dirs (src dst : Str) (w : World) :
    (conflictPrompt src dst w).dirs = w.dirs := (conflictPrompt_prints src dst w).2.2.1

theorem conflictPrompt_out (src dst : Str) (w : World) :
    ∃ more, (conflictPrompt src dst w).out = w.out ++ conflictLine dst :: more := by
  simp only [conflictPrompt, print_out, println_out, List.append_assoc, List.singleton_append]
  exact ⟨_, rfl⟩

theorem handleFileConflict_eq (env : Env) (src dst : Str) (rest : List Str) (w : World)
    (h : w.stdin = rest) :
    handleFileConflict env src dst w =
      handleFileConflictFrom env src dst rest [] (conflictPrompt src dst w) := by
  unfold handleFileConflict
  rw [h]

theorem printColoredDiff_prints (d : Str) (w : World) : OnlyPrints w (printColoredDiff d w) := by
  unfold printColoredDiff
  generalize splitNewline d = ls
  induction ls generalizing w with
  | nil => exact OnlyPrints.refl w
  | cons l ls ih =>
    rw [List.foldl_cons]
    exact (OnlyPrints.print w _).trans (ih _)

theorem diffHeader_prints (file1 file2 : Str) (w : World) :
    OnlyPrints w (diffHeader file1 file2 w) := by
  unfold diffHeader
  exact ((((((((OnlyPrints.println w _).then_print _).then_print _).then_print _).then_print
    _).then_print _).then_print _).then_println _)

theorem diffFooter_prints (w : World) : OnlyPrints w (diffFooter w) := by
  unfold diffFooter
  exact (OnlyPrints.print w _).then_println _

theorem showDiff_prints (env : Env) (file1 file2 : Str) (w : World) :
    OnlyPrints w (showDiff env file1 file2 w).2 := by
  unfold showDiff
  by_cases hct : env.createTempOk = false
  · rw [if_pos hct]
    exact OnlyPrints.refl w
  rw [if_neg hct]
  cases env.data file1 with
  | none => exact OnlyPrints.refl w
  | some content =>
    simp only []
    by_cases hcp : env.tempCopyOk content = false
    · rw [if_pos hcp]
      exact OnlyPrints.refl w
    rw [if_neg hcp]
    by_cases h0 : (env.runDiff env.gitOnPath (w.files file2) content).1 ≠ 0
    · rw [if_pos h0]
      by_cases h1 : (env.runDiff env.gitOnPath (w.files file2) content).1 = 1
      · rw [if_pos h1]
        refine ((diffHeader_prints file1 file2 w).trans ?_).trans (diffFooter_prints _)
        by_cases hg : env.gitOnPath = true
        · rw [if_pos hg]
          exact OnlyPrints.print _ _
        · rw [if_neg hg]
          exact printColoredDiff_prints _ _
      · rw [if_neg h1]
        exact OnlyPrints.refl w
    · rw [if_neg h0]
      exact OnlyPrints.print w _

theorem handleFileConflictFrom_pending (env : Env) (src dst chunk acc : Str)
    (rest : List Str) (w : World) (hnl : chunk.contains '\n' = false) :
    handleFileConflictFrom env src dst (chunk :: rest) acc w =
      handleFileConflictFrom env src dst rest (acc ++ chunk) w := by
  rw [handleFileConflictFrom]
  rw [if_neg (by rw [hnl]; decide)]

theorem handleFileConflictFrom_skip (env : Env) (src dst chunk acc : Str) (rest : List Str)
    (w : World) (hnl : chunk.contains '\n' = true) (ht : IsSkipChoice (answerOf acc chunk)) :
    handleFileConflictFrom env src dst (chunk :: rest) acc w =
      (some .skipped, (w.consume rest).println "  → Skipped".toList) := by
  rw [handleFileConflictFrom]
  rw [if_pos hnl]
  simp only []
  rw [if_pos ht]

theorem not_skip_of_overwrite {t : Str} (ht : IsOverwriteChoice t) : ¬ IsSkipChoice t := by
  rintro (h | h) <;> rcases ht with h2 | h2 <;> rw [h] at h2 <;> exact absurd h2 (by decide)

theorem not_skip_of_diff {t : Str} (ht : IsDiffChoice t) : ¬ IsSkipChoice t := by
  rintro (h | h) <;> rcases ht with h2 | h2 <;> rw [h] at h2 <;> exact absurd h2 (by decide)

theorem not_overwrite_of_diff {t : Str} (ht : IsDiffChoice t) : ¬ IsOverwriteChoice t := by
  rintro (h | h) <;> rcases ht with h2 | h2 <;> rw [h] at h2 <;> exact absurd h2 (by decide)

theorem not_skip_of_merge {t : Str} (ht : IsMergeChoice t) : ¬ IsSkipChoice t := by
  rintro (h | h) <;> rcases ht with h2 | h2 <;> rw [h] at h2 <;> exact absurd h2 (by decide)

theorem not_overwrite_of_merge {t : Str} (ht : IsMergeChoice t) : ¬ IsOverwriteChoice t := by
  rintro (h | h) <;> rcases ht with h2 | h2 <;> rw [h] at h2 <;> exact absurd h2 (by decide)

theorem not_diff_of_merge {t : Str} (ht : IsMergeChoice t) : ¬ IsDiffChoice t := by
  rintro (h | h) <;> rcases ht with h2 | h2 <;> rw [h] at h2 <;> exact absurd h2 (by decide)

theorem handleFileConflictFrom_overwrite (env : Env) (src dst chunk acc : Str)
    (rest : List Str) (w : World) (hnl : chunk.contains '\n' = true)
    (ht : IsOverwriteChoice (answerOf acc chunk)) :
    handleFileConflictFrom env src dst (chunk :: rest) acc w =
      match copyFile env src dst (w.consume rest) with
      | (some e, w) => (some e, w)
      | (none, w) => (none, w.println "  → Overwritten".toList) := by
  rw [handleFileConflictFrom]
  rw [if_pos hnl]
  simp only []
  rw [if_neg (not_skip_of_overwrite ht), if_pos ht]

theorem handleFileConflictFrom_diff (env : Env) (src dst chunk acc : Str) (rest : List Str)
    (w : World) (hnl : chunk.contains '\n' = true) (ht : IsDiffChoice (answerOf acc chunk)) :
    handleFileConflictFrom env src dst (chunk :: rest) acc w =
      match showDiff env src dst (w.consume rest) with
      | (some e, w) =>
        handleFileConflictFrom env src dst rest []
          (conflictPrompt src dst
            (w.print ("  ⚠️  Error showing diff: ".toList ++ e.msg ++ ['\n'])))
      | (none, w) => handleFileConflictFrom env src dst rest [] (conflictPrompt src dst w) := by
  rw [handleFileConflictFrom]
  rw [if_pos hnl]
  simp only []
  rw [if_neg (not_skip_of_diff ht), if_neg (not_overwrite_of_diff ht), if_pos ht]

theorem handleFileConflictFrom_merge (env : Env) (src dst chunk acc : Str) (rest : List Str)
    (w : World) (hnl : chunk.contains '\n' = true) (ht : IsMergeChoice (answerOf acc chunk)) :
    handleFileConflictFrom env src dst (chunk :: rest) acc w =
      match openForMerge env src dst (w.consume rest) with
      | (some e, w) =>
        (some e, w.print ("  ⚠️  Error opening for merge: ".toList ++ e.msg ++ ['\n']))
      | (none, w) => (none, w.println "  → Opened for manual merge".toList) := by
  rw [handleFileConflictFrom]
  rw [if_pos hnl]
  simp only []
  rw [if_neg (not_skip_of_merge ht), if_neg (not_overwrite_of_merge ht),
    if_neg (not_diff_of_merge ht), if_pos ht]

theorem handleFileConflictFrom_invalid (env : Env) (src dst chunk acc : Str)
    (rest : List Str) (w : World) (hnl : chunk.contains '\n' = true)
    (ht : IsInvalidChoice (answerOf acc chunk)) :
    handleFileConflictFrom env src dst (chunk :: rest) acc w =
      handleFileConflictFrom env src dst rest []
        (conflictPrompt src dst
          ((w.consume rest).println "  ⚠️  Invalid choice, please try again".toList)) := by
  rw [handleFileConflictFrom]
  rw [if_pos hnl]
  simp only []
  rw [if_neg ht.1, if_neg ht.2.1, if_neg ht.2.2.1, if_neg ht.2.2.2]

/-- After a diff request or an invalid answer the resolver starts again: the whole call
equals a new call of `handleFileConflict` in a world that differs from the one after the
read only by what was printed. -/
theorem handleFileConflictFrom_nonTerminal (env : Env) (src dst chunk acc : Str)
    (rest : List Str) (w : World) (hnl : chunk.contains '\n' = true)
    (ht : IsNonTerminalChoice (answerOf acc chunk)) :
    ∃ w2 : World, OnlyPrints (w.consume rest) w2 ∧
      handleFileConflictFrom env src dst (chunk :: rest) acc w =
        handleFileConflict env src dst w2 := by
  rcases ht with hd | hi
  · rw [handleFileConflictFrom_diff env src dst chunk acc rest w hnl hd]
    have hp := showDiff_prints env src dst (w.consume rest)
    cases hr : showDiff env src dst (w.consume rest) with
    | mk r w1 =>
      rw [hr] at hp
      simp only at hp
      cases r with
      | none =>
        exact ⟨w1, hp, (handleFileConflict_eq env src dst rest w1 hp.2.1).symm⟩
      | some e =>
        exact ⟨_, hp.then_print _,
          (handleFileConflict_eq env src dst rest _ (hp.then_print _).2.1).symm⟩
  · rw [handleFileConflictFrom_invalid env src dst chunk acc rest w hnl hi]
    exact ⟨_, OnlyPrints.println _ _,
      (handleFileConflict_eq env src dst rest _ (OnlyPrints.println _ _).2.1).symm⟩

/-! ## What a resolution can change -/

/-- The effect of a copy on the world: files other than the destination are as they
were, and so are the output, the pending input and the directories. -/
theorem copyFile_effect (env : Env) (src dst : Str) (w : World) :
    (∀ q, q ≠ dst → (copyFile env src dst w).2.files q = w.files q) ∧
    (copyFile env src dst w).2.out = w.out ∧
    (copyFile env src dst w).2.stdin = w.stdin ∧
    (copyFile env src dst w).2.dirs = w.dirs := by
  unfold copyFile
  cases env.data src with
  | none => exact ⟨fun _ _ => rfl, rfl, rfl, rfl⟩
  | some c =>
    simp only []
    cases env.writeFault dst c with
    | none => exact ⟨fun q hq => write_files_other w dst c q hq, rfl, rfl, rfl⟩
    | some f =>
      cases f with
      | create => exact ⟨fun _ _ => rfl, rfl, rfl, rfl⟩
      | copy n => exact ⟨fun q hq => write_files_other w dst _ q hq, rfl, rfl, rfl⟩
      | chmod => exact ⟨fun q hq => write_files_other w dst c q hq, rfl, rfl, rfl⟩

/-- A copy that the file system does not refuse writes the content of the source. -/
theorem copyFile_ok (env : Env) (src dst content : Str) (w : World)
    (hdata : env.data src = some content) (hfault : env.writeFault dst content = none) :
    copyFile env src dst w = (none, w.write dst content) := by
  unfold copyFile
  rw [hdata]
  simp only []
  rw [hfault]

/-- A copy that returns no error has written the content of the source. -/
theorem copyFile_none (env : Env) (src dst : Str) (w w1 : World)
    (h : copyFile env src dst w = (none, w1)) :
    ∃ content, env.data src = some content ∧ env.writeFault dst content = none ∧
      w1 = w.write dst content := by
  unfold copyFile at h
  cases hd : env.data src with
  | none => rw [hd] at h; exact absurd (congrArg Prod.fst h) (by simp)
  | some c =>
    rw [hd] at h
    simp only [] at h
    cases hf : env.writeFault dst c with
    | none =>
      rw [hf] at h
      exact ⟨c, rfl, hf, (congrArg Prod.snd h).symm⟩
    | some f =>
      rw [hf] at h
      cases f <;> exact absurd (congrArg Prod.fst h) (by simp)

/-- A copy never returns the sentinel `ErrSkipped`. -/
theorem copyFile_not_skipped (env : Env) (src dst : Str) (w : World) :
    (copyFile env src dst w).1 ≠ some .skipped := by
  unfold copyFile
  cases env.data src with
  | none => simp
  | some c =>
    simp only []
    cases env.writeFault dst c with
    | none => simp
    | some f => cases f <;> simp

/-- A copy that the file system refuses returns an error. -/
theorem copyFile_fault (env : Env) (src dst content : Str) (f : WriteFault) (w : World)
    (hdata : env.data src = some content) (hfault : env.writeFault dst content = some f) :
    (copyFile env src dst w).1 ≠ none := by
  unfold copyFile
  rw [hdata]
  simp only []
  rw [hfault]
  cases f <;> simp

/-- A copy whose `os.Create` is refused leaves the world as it is. -/
theorem copyFile_create_fault (env : Env) (src dst content : Str) (w : World)
    (hdata : env.data src = some content)
    (hfault : env.writeFault dst content = some .create) :
    copyFile env src dst w = (some (.create dst), w) := by
  unfold copyFile
  rw [hdata]
  simp only []
  rw [hfault]

theorem mergeAnnounce_prints (editor src dst : Str) (w : World) :
    OnlyPrints w (mergeAnnounce editor src dst w) := by
  unfold mergeAnnounce
  exact ((OnlyPrints.print w _).then_print _).then_print _

theorem openForMerge_effect (env : Env) (src dst : Str) (w : World) :
    (∀ q, q ≠ dst → (openForMerge env src dst w).2.files q = w.files q) ∧
    (∃ more, (openForMerge env src dst w).2.out = w.out ++ more) ∧
    (openForMerge env src dst w).2.stdin = w.stdin ∧
    (openForMerge env src dst w).2.dirs = w.dirs := by
  obtain ⟨hf, hs, hdir, ho⟩ := mergeAnnounce_prints (editorName env) src dst w
  unfold openForMerge
  simp only []
  generalize mergeAnnounce (editorName env) src dst w = w1 at *
  by_cases hr : (env.runEditor (editorName env) dst (w1.files dst)).1 = true
  · rw [if_pos hr]
    refine ⟨fun q hq => ?_, ho, hs, hdir⟩
    simp only [if_neg hq, hf]
  · rw [if_neg hr]
    refine ⟨fun q hq => ?_, ho, hs, hdir⟩
    simp only [if_neg hq, hf]

theorem handleFileConflictFrom_nil (env : Env) (src dst acc : Str) (w : World) :
    handleFileConflictFrom env src dst [] acc w = (some .readInput, w.consume []) := by
  rw [handleFileConflictFrom]

theorem choice_cases (t : Str) :
    IsSkipChoice t ∨ IsOverwriteChoice t ∨ IsMergeChoice t ∨ IsNonTerminalChoice t := by
  by_cases h1 : IsSkipChoice t
  · exact Or.inl h1
  · by_cases h2 : IsOverwriteChoice t
    · exact Or.inr (Or.inl h2)
    · by_cases h3 : IsMergeChoice t
      · exact Or.inr (Or.inr (Or.inl h3))
      · by_cases h4 : IsDiffChoice t
        · exact Or.inr (Or.inr (Or.inr (Or.inl h4)))
        · exact Or.inr (Or.inr (Or.inr (Or.inr ⟨h1, h2, h4, h3⟩)))

theorem handleFileConflictFrom_effect (env : Env) (src dst : Str) (stdin : List Str)
    (acc : Str) (w : World) :
    (∀ q, q ≠ dst → (handleFileConflictFrom env src dst stdin acc w).2.files q = w.files q) ∧
    (∃ more, (handleFileConflictFrom env src dst stdin acc w).2.out = w.out ++ more) ∧
    (handleFileConflictFrom env src dst stdin acc w).2.stdin <:+ stdin ∧
    (handleFileConflictFrom env src dst stdin acc w).2.dirs = w.dirs := by
  induction stdin generalizing acc w with
  | nil =>
    rw [handleFileConflictFrom_nil]
    exact ⟨fun q _ => rfl, ⟨[], by simp⟩, List.suffix_refl _, rfl⟩
  | cons chunk rest ih =>
    cases hnl : chunk.contains '\n' with
    | false =>
      rw [handleFileConflictFrom_pending env src dst chunk acc rest w hnl]
      obtain ⟨hf, ho, hs, hd⟩ := ih (acc ++ chunk) w
      exact ⟨hf, ho, hs.trans (List.suffix_cons _ _), hd⟩
    | true =>
      rcases choice_cases (answerOf acc chunk) with h | h | h | h
      · rw [handleFileConflictFrom_skip env src dst chunk acc rest w hnl h]
        exact ⟨fun q _ => rfl, ⟨["  → Skipped".toList ++ ['\n']], rfl⟩,
          List.suffix_cons _ _, rfl⟩
      · rw [handleFileConflictFrom_overwrite env src dst chunk acc rest w hnl h]
        obtain ⟨hf, ho, hs, hd⟩ := copyFile_effect env src dst (w.consume rest)
        cases hr : copyFile env src dst (w.consume rest) with
        | mk r w1 =>
          rw [hr] at hf ho hs hd
          simp only [consume_files, consume_out, consume_stdin, consume_dirs] at hf ho hs hd
          cases r with
          | none =>
            refine ⟨fun q hq => hf q hq, ⟨["  → Overwritten".toList ++ ['\n']], ?_⟩, ?_, hd⟩
            · simp only [println_out]
              rw [ho]
            · simp only [println_stdin]
              rw [hs]
              exact List.suffix_cons _ _
          | some e =>
            refine ⟨fun q hq => hf q hq, ⟨[], ?_⟩, ?_, hd⟩
            · simp only []
              rw [ho]
              simp
            · simp only []
              rw [hs]
              exact List.suffix_cons _ _
      · rw [handleFileConflictFrom_merge env src dst chunk acc rest w hnl h]
        obtain ⟨hf, ⟨mo, ho⟩, hs, hd⟩ := openForMerge_effect env src dst (w.consume rest)
        cases hr : openForMerge env src dst (w.consume rest) with
        | mk r w1 =>
          rw [hr] at hf ho hs hd
          simp only [consume_files, consume_out, consume_stdin, consume_dirs] at hf ho hs hd
          cases r with
          | none =>
            refine ⟨fun q hq => hf q hq,
              ⟨mo ++ ["  → Opened for manual merge".toList ++ ['\n']], ?_⟩, ?_, hd⟩
            · simp only [println_out]
              rw [ho]
              simp
            · simp only [println_stdin]
              rw [hs]
              exact List.suffix_cons _ _
          | some e =>
            refine ⟨fun q hq => hf q hq,
              ⟨mo ++ ["  ⚠️  Error opening for merge: ".toList ++ e.msg ++ ['\n']], ?_⟩, ?_,
              hd⟩
            · simp only [print_out]
              rw [ho]
              simp
            · simp only [print_stdin]
              rw [hs]
              exact List.suffix_cons _ _
      · obtain ⟨w2, ⟨hf2, hs2, hd2, m2, ho2⟩, he2⟩ :=
          handleFileConflictFrom_nonTerminal env src dst chunk acc rest w hnl h
        rw [he2, handleFileConflict_eq env src dst rest w2 hs2]
        obtain ⟨hf, ⟨mo, ho⟩, hs, hd⟩ := ih [] (conflictPrompt src dst w2)
        obtain ⟨pm, hpm⟩ := conflictPrompt_out src dst w2
        refine ⟨fun q hq => by rw [hf q hq, conflictPrompt_files, hf2]; rfl,
          ⟨m2 ++ conflictLine dst :: pm ++ mo, ?_⟩, hs.trans (List.suffix_cons _ _), ?_⟩
        · rw [ho, hpm, ho2]
          simp
        · rw [hd, conflictPrompt_dirs, hd2]
          rfl

theorem handleFileConflict_effect (env : Env) (src dst : Str) (w : World) :
    (∀ q, q ≠ dst → (handleFileConflict env src dst w).2.files q = w.files q) ∧
    (∃ more, (handleFileConflict env src dst w).2.out = w.out ++ conflictLine dst :: more) ∧
    (handleFileConflict env src dst w).2.stdin <:+ w.stdin ∧
    (handleFileConflict env src dst w).2.dirs = w.dirs := by
  unfold handleFileConflict
  obtain ⟨hf, ⟨mo, ho⟩, hs, hd⟩ :=
    handleFileConflictFrom_effect env src dst w.stdin [] (conflictPrompt src dst w)
  obtain ⟨pm, hpm⟩ := conflictPrompt_out src dst w
  refine ⟨fun q hq => by rw [hf q hq, conflictPrompt_files], ⟨pm ++ mo, ?_⟩, hs, ?_⟩
  · rw [ho, hpm]
    simp
  · rw [hd, conflictPrompt_dirs]

theorem copyFileWithConflictHandling_absent (env : Env) (src dst : Str) (w : World)
    (h : w.files dst = none) (hd : w.dirs dst = false) :
    copyFileWithConflictHandling env src dst w = copyFile env src dst w := by
  unfold copyFileWithConflictHandling World.statOk
  rw [h, hd]
  rfl

theorem copyFileWithConflictHandling_identical (env : Env) (src dst : Str) (w : World)
    (h : (w.files dst).isSome = true) (hd : filesAreDifferent env w src dst = false) :
    copyFileWithConflictHandling env src dst w = (some .skipped, w) := by
  unfold copyFileWithConflictHandling World.statOk
  rw [h, hd]
  rfl

theorem copyFileWithConflictHandling_conflict (env : Env) (src dst : Str) (w : World)
    (h : (w.files dst).isSome = true) (hd : filesAreDifferent env w src dst = true) :
    copyFileWithConflictHandling env src dst w = handleFileConflict env src dst w := by
  unfold copyFileWithConflictHandling World.statOk
  rw [h, hd]
  rfl

/-- A file that cannot be read counts as different. -/
theorem filesAreDifferent_unreadable (env : Env) (w : World) (file1 file2 : Str)
    (h : w.files file2 = none) : filesAreDifferent env w file1 file2 = true := by
  unfold filesAreDifferent fileHashFilesystem
  rw [h]
  cases fileHashEmbedded env file1 <;> rfl

/-- A directory at the destination path: `os.Stat` succeeds, the content cannot be read,
and the resolver is called. -/
theorem copyFileWithConflictHandling_directory (env : Env) (src dst : Str) (w : World)
    (h : w.files dst = none) (hd : w.dirs dst = true) :
    copyFileWithConflictHandling env src dst w = handleFileConflict env src dst w := by
  unfold copyFileWithConflictHandling World.statOk
  rw [h, hd, filesAreDifferent_unreadable env w src dst h]
  rfl

/-- The three cases of a resolution: a direct copy, a silent skip, a call of the
resolver. -/
theorem copyFileWithConflictHandling_cases (env : Env) (src dst : Str) (w : World) :
    (w.files dst = none ∧ w.dirs dst = false ∧
      copyFileWithConflictHandling env src dst w = copyFile env src dst w) ∨
    ((w.files dst).isSome = true ∧ filesAreDifferent env w src dst = false ∧
      copyFileWithConflictHandling env src dst w = (some .skipped, w)) ∨
    (w.statOk dst = true ∧ filesAreDifferent env w src dst = true ∧
      copyFileWithConflictHandling env src dst w = handleFileConflict env src dst w) := by
  cases hex : w.files dst with
  | none =>
    cases hd : w.dirs dst with
    | false =>
      exact Or.inl ⟨rfl, rfl, copyFileWithConflictHandling_absent env src dst w hex hd⟩
    | true =>
      refine Or.inr (Or.inr ⟨?_, filesAreDifferent_unreadable env w src dst hex,
        copyFileWithConflictHandling_directory env src dst w hex hd⟩)
      unfold World.statOk
      rw [hd]
      simp
  | some old =>
    have hsome : (w.files dst).isSome = true := by rw [hex]; rfl
    cases hd : filesAreDifferent env w src dst with
    | false =>
      exact Or.inr (Or.inl ⟨rfl, rfl,
        copyFileWithConflictHandling_identical env src dst w hsome hd⟩)
    | true =>
      refine Or.inr (Or.inr ⟨?_, rfl,
        copyFileWithConflictHandling_conflict env src dst w hsome hd⟩)
      unfold World.statOk
      rw [hex]
      rfl

theorem copyFileWithConflictHandling_effect (env : Env) (src dst : Str) (w : World) :
    (∀ q, q ≠ dst → (copyFileWithConflictHandling env src dst w).2.files q = w.files q) ∧
    (∃ more, (copyFileWithConflictHandling env src dst w).2.out = w.out ++ more) ∧
    (copyFileWithConflictHandling env src dst w).2.stdin <:+ w.stdin ∧
    (copyFileWithConflictHandling env src dst w).2.dirs = w.dirs := by
  rcases copyFileWithConflictHandling_cases env src dst w with ⟨-, -, h⟩ | ⟨-, -, h⟩ | ⟨-, -, h⟩
  · rw [h]
    obtain ⟨hf, ho, hs, hd⟩ := copyFile_effect env src dst w
    exact ⟨hf, ⟨[], by rw [ho]; simp⟩, by rw [hs], hd⟩
  · rw [h]
    exact ⟨fun _ _ => rfl, ⟨[], by simp⟩, List.suffix_refl _, rfl⟩
  · rw [h]
    obtain ⟨hf, ⟨mo, ho⟩, hs, hdir⟩ := handleFileConflict_effect env src dst w
    exact ⟨hf, ⟨_, ho⟩, hs, hdir⟩

/-- The effect of `os.MkdirAll` on the world: only directories are added. -/
theorem mkdirAll_effect (env : Env) (path : Str) (w : World) :
    (mkdirAll env path w).2.files = w.files ∧ (mkdirAll env path w).2.out = w.out ∧
    (mkdirAll env path w).2.stdin = w.stdin ∧
    (∀ p, w.dirs p = true → (mkdirAll env path w).2.dirs p = true) := by
  unfold mkdirAll
  by_cases h : w.dirs path = true
  · rw [if_pos h]
    exact ⟨rfl, rfl, rfl, fun _ hp => hp⟩
  · rw [if_neg h]
    by_cases hk : env.mkdirAllOk path = true
    · rw [if_pos hk]
      refine ⟨rfl, rfl, rfl, fun p hp => ?_⟩
      simp only [hp, Bool.or_true]
    · rw [if_neg hk]
      exact ⟨rfl, rfl, rfl, fun _ hp => hp⟩

/-- After `os.MkdirAll` returns no error the directory exists. -/
theorem mkdirAll_none (env : Env) (path : Str) (w : World)
    (h : (mkdirAll env path w).1 = none) : (mkdirAll env path w).2.dirs path = true := by
  unfold mkdirAll at h ⊢
  by_cases hd : w.dirs path = true
  · rw [if_pos hd]
    exact hd
  · rw [if_neg hd] at h ⊢
    by_cases hk : env.mkdirAllOk path = true
    · rw [if_pos hk]
      simp
    · rw [if_neg hk] at h
      exact absurd h (by simp)

/-- On an existing directory `os.MkdirAll` does nothing. -/
theorem mkdirAll_exists (env : Env) (path : Str) (w : World) (h : w.dirs path = true) :
    mkdirAll env path w = (none, w) := by
  unfold mkdirAll
  rw [if_pos h]

/-- The failure of `os.MkdirAll` leaves the world as it is. -/
theorem mkdirAll_some (env : Env) (path : Str) (w : World) (e : Err)
    (h : (mkdirAll env path w).1 = some e) :
    e = .mkdir path ∧ (mkdirAll env path w).2 = w := by
  unfold mkdirAll at h ⊢
  by_cases hd : w.dirs path = true
  · rw [if_pos hd] at h
    exact absurd h (by simp)
  · rw [if_neg hd] at h ⊢
    by_cases hk : env.mkdirAllOk path = true
    · rw [if_pos hk] at h
      exact absurd h (by simp)
    · rw [if_neg hk] at h ⊢
      exact ⟨(Option.some.inj h).symm, rfl⟩

/-! ## Lemmas on the walks -/

theorem walkDir_error {σ : Type} (fn : σ → DirEntry → Option Err × σ) (ds : List DirEntry)
    (s s2 : σ) (e : Err) (h : walkDir fn ds s = (some e, s2)) :
    ∃ d ∈ ds, ∃ s0, (fn s0 d).1 = some e := by
  induction ds generalizing s with
  | nil =>
    rw [walkDir] at h
    exact absurd (congrArg Prod.fst h) (by simp)
  | cons d ds ih =>
    rw [walkDir] at h
    cases hr : fn s d with
    | mk r s1 =>
      rw [hr] at h
      cases r with
      | none =>
        simp only at h
        obtain ⟨x, hx, s0, hs0⟩ := ih s1 h
        exact ⟨x, List.mem_cons_of_mem _ hx, s0, hs0⟩
      | some e1 =>
        simp only [Prod.mk.injEq, Option.some.injEq] at h
        exact ⟨d, List.mem_cons_self _ _, s, by rw [hr, ← h.1]⟩

theorem walkDir_cons_ok {σ : Type} (fn : σ → DirEntry → Option Err × σ) (d : DirEntry)
    (ds : List DirEntry) (s s1 : σ) (h : fn s d = (none, s1)) :
    walkDir fn (d :: ds) s = walkDir fn ds s1 := by
  rw [walkDir, h]

theorem walkDir_cons_err {σ : Type} (fn : σ → DirEntry → Option Err × σ) (d : DirEntry)
    (ds : List DirEntry) (s s1 : σ) (e : Err) (h : fn s d = (some e, s1)) :
    walkDir fn (d :: ds) s = (some e, s1) := by
  rw [walkDir, h]

theorem walkDir_append {σ : Type} (fn : σ → DirEntry → Option Err × σ)
    (pre post : List DirEntry) (s : σ) :
    walkDir fn (pre ++ post) s =
      match walkDir fn pre s with
      | (none, s1) => walkDir fn post s1
      | (some e, s1) => (some e, s1) := by
  induction pre generalizing s with
  | nil => rfl
  | cons d ds ih =>
    rw [List.cons_append, walkDir, walkDir]
    cases hr : fn s d with
    | mk r s1 =>
      cases r with
      | none => exact ih s1
      | some e => rfl

/-- A walk that returns no error ran its callback, without error, on every entry. -/
theorem walkDir_reaches {σ : Type} (fn : σ → DirEntry → Option Err × σ)
    (pre post : List DirEntry) (d : DirEntry) (s : σ)
    (h : (walkDir fn (pre ++ d :: post) s).1 = none) :
    ∃ s0 s1, walkDir fn pre s = (none, s0) ∧ fn s0 d = (none, s1) ∧
      walkDir fn (pre ++ d :: post) s = walkDir fn post s1 := by
  rw [walkDir_append] at h ⊢
  cases hr : walkDir fn pre s with
  | mk r s0 =>
    rw [hr] at h
    cases r with
    | some e => exact absurd h (by simp)
    | none =>
      simp only at h ⊢
      rw [walkDir] at h ⊢
      cases hv : fn s0 d with
      | mk r1 s1 =>
        rw [hv] at h
        cases r1 with
        | some e => exact absurd h (by simp)
        | none => exact ⟨s0, s1, rfl, hv, rfl⟩

/-- A walk that returns an error stopped at the first entry on which the callback
returned an error, after it ran without error on the entries before. -/
theorem walkDir_first_error {σ : Type} (fn : σ → DirEntry → Option Err × σ)
    (ds : List DirEntry) (s s2 : σ) (e : Err) (h : walkDir fn ds s = (some e, s2)) :
    ∃ pre d post s0, ds = pre ++ d :: post ∧ walkDir fn pre s = (none, s0) ∧
      fn s0 d = (some e, s2) := by
  induction ds generalizing s with
  | nil =>
    rw [walkDir] at h
    exact absurd (congrArg Prod.fst h) (by simp)
  | cons d ds ih =>
    rw [walkDir] at h
    cases hr : fn s d with
    | mk r s1 =>
      rw [hr] at h
      cases r with
      | none =>
        simp only at h
        obtain ⟨pre, x, post, s0, hds, hpre, hx⟩ := ih s1 h
        refine ⟨d :: pre, x, post, s0, by rw [hds]; rfl, ?_, hx⟩
        rw [walkDir, hr]
        exact hpre
      | some e1 =>
        simp only at h
        exact ⟨[], d, ds, s, rfl, rfl, by rw [hr, h]⟩

/-- The callback of `installCommands` on a command document, in terms of the results of
the creation of the directory and of the resolution. -/
theorem installCommandsVisit_command (env : Env) (sourceDir targetDir : Str)
    (s : CommandsState) (d : DirEntry) (relPath : Str) (rules : List Str)
    (hdir : d.isDir = false) (hext : filepathExt d.path = ['.', 'm', 'd'])
    (hrules : extractRulesFromCommand env d.path = .ok rules)
    (hrel : filepathRel sourceDir d.path = some relPath) :
    installCommandsVisit env sourceDir targetDir s d =
      match mkdirAll env (filepathDir (filepathJoin targetDir relPath)) s.world with
      | (some e, w) =>
        (some (.creatingDir e),
          ⟨mapSet s.roleRulesMap (trimSuffix (filepathBase d.path) ['.', 'm', 'd']) rules,
            s.count, w⟩)
      | (none, w) =>
        match copyFileWithConflictHandling env d.path (filepathJoin targetDir relPath) w with
        | (some .skipped, w) =>
          (none, ⟨mapSet s.roleRulesMap (trimSuffix (filepathBase d.path) ['.', 'm', 'd']) rules,
            s.count, w⟩)
        | (some e, w) =>
          (some (.copying d.path e),
            ⟨mapSet s.roleRulesMap (trimSuffix (filepathBase d.path) ['.', 'm', 'd']) rules,
              s.count, w⟩)
        | (none, w) =>
          (none, ⟨mapSet s.roleRulesMap (trimSuffix (filepathBase d.path) ['.', 'm', 'd']) rules,
            s.count + 1, w.print ("  ✓ Installed command: ".toList ++ relPath ++ ['\n'])⟩) := by
  unfold installCommandsVisit
  simp only [hdir, hext, hrules, hrel, Bool.false_eq_true, if_false, ne_eq, not_true_eq_false]

/-- The callback of `installCommands` on a command document whose directory could be
created, in terms of the result of the resolution. -/
theorem installCommandsVisit_made (env : Env) (sourceDir targetDir : Str)
    (s : CommandsState) (d : DirEntry) (relPath : Str) (rules : List Str)
    (hdir : d.isDir = false) (hext : filepathExt d.path = ['.', 'm', 'd'])
    (hrules : extractRulesFromCommand env d.path = .ok rules)
    (hrel : filepathRel sourceDir d.path = some relPath)
    (hmk : (mkdirAll env (filepathDir (filepathJoin targetDir relPath)) s.world).1 = none) :
    installCommandsVisit env sourceDir targetDir s d =
      match copyFileWithConflictHandling env d.path (filepathJoin targetDir relPath)
        (mkdirAll env (filepathDir (filepathJoin targetDir relPath)) s.world).2 with
      | (some .skipped, w) =>
        (none, ⟨mapSet s.roleRulesMap (trimSuffix (filepathBase d.path) ['.', 'm', 'd']) rules,
          s.count, w⟩)
      | (some e, w) =>
        (some (.copying d.path e),
          ⟨mapSet s.roleRulesMap (trimSuffix (filepathBase d.path) ['.', 'm', 'd']) rules,
            s.count, w⟩)
      | (none, w) =>
        (none, ⟨mapSet s.roleRulesMap (trimSuffix (filepathBase d.path) ['.', 'm', 'd']) rules,
          s.count + 1, w.print ("  ✓ Installed command: ".toList ++ relPath ++ ['\n'])⟩) := by
  rw [installCommandsVisit_command env sourceDir targetDir s d relPath rules hdir hext hrules
    hrel]
  cases hr : mkdirAll env (filepathDir (filepathJoin targetDir relPath)) s.world with
  | mk r w1 =>
    rw [hr] at hmk
    simp only at hmk
    rw [hmk]

/-- The callback of `installCommands` on a command document whose directory cannot be
created. -/
theorem installCommandsVisit_mkdir_fails (env : Env) (sourceDir targetDir : Str)
    (s : CommandsState) (d : DirEntry) (relPath : Str) (rules : List Str) (e : Err)
    (hdir : d.isDir = false) (hext : filepathExt d.path = ['.', 'm', 'd'])
    (hrules : extractRulesFromCommand env d.path = .ok rules)
    (hrel : filepathRel sourceDir d.path = some relPath)
    (hmk : (mkdirAll env (filepathDir (filepathJoin targetDir relPath)) s.world).1 = some e) :
    installCommandsVisit env sourceDir targetDir s d =
      (some (.creatingDir (.mkdir (filepathDir (filepathJoin targetDir relPath)))),
        ⟨mapSet s.roleRulesMap (trimSuffix (filepathBase d.path) ['.', 'm', 'd']) rules,
          s.count, s.world⟩) := by
  rw [installCommandsVisit_command env sourceDir targetDir s d relPath rules hdir hext hrules
    hrel]
  obtain ⟨he, hw⟩ := mkdirAll_some env _ s.world e hmk
  cases hr : mkdirAll env (filepathDir (filepathJoin targetDir relPath)) s.world with
  | mk r w1 =>
    rw [hr] at hmk hw
    simp only at hmk hw
    rw [hmk, hw, he]

theorem installCommandsVisit_other (env : Env) (sourceDir targetDir : Str)
    (s : CommandsState) (d : DirEntry)
    (h : d.isDir = true ∨ filepathExt d.path ≠ ['.', 'm', 'd']) :
    installCommandsVisit env sourceDir targetDir s d = (none, s) := by
  unfold installCommandsVisit
  rcases h with h | h
  · rw [if_pos h]
  · by_cases hd : d.isDir = true
    · rw [if_pos hd]
    · rw [if_neg hd]
      simp only [h, ne_eq, not_false_eq_true, if_true]

theorem openForMerge_result (env : Env) (src dst : Str) (w : World) :
    ((openForMerge env src dst w).1 = none ↔
      (env.runEditor (editorName env) dst (w.files dst)).1 = true) ∧
    (openForMerge env src dst w).2.files dst =
      (env.runEditor (editorName env) dst (w.files dst)).2 := by
  obtain ⟨hf, -, -⟩ := mergeAnnounce_prints (editorName env) src dst w
  unfold openForMerge
  simp only []
  generalize mergeAnnounce (editorName env) src dst w = w1 at *
  rw [hf]
  by_cases hr : (env.runEditor (editorName env) dst (w.files dst)).1 = true
  · rw [if_pos hr]
    simp [hr]
  · rw [if_neg hr]
    simp [hr]

theorem handleFileConflictFrom_merge_result (env : Env) (src dst chunk acc : Str)
    (rest : List Str) (w : World) (hnl : chunk.contains '\n' = true)
    (ht : IsMergeChoice (answerOf acc chunk)) :
    ((handleFileConflictFrom env src dst (chunk :: rest) acc w).1 = none ↔
      (env.runEditor (editorName env) dst (w.files dst)).1 = true) ∧
    (handleFileConflictFrom env src dst (chunk :: rest) acc w).2.files dst =
      (env.runEditor (editorName env) dst (w.files dst)).2 := by
  rw [handleFileConflictFrom_merge env src dst chunk acc rest w hnl ht]
  obtain ⟨h1, h2⟩ := openForMerge_result env src dst (w.consume rest)
  rw [consume_files] at h1 h2
  cases hr : openForMerge env src dst (w.consume rest) with
  | mk r w1 =>
    rw [hr] at h1 h2
    cases r with
    | none => exact ⟨by simpa using h1, by simpa using h2⟩
    | some e => exact ⟨by simpa using h1, by simpa using h2⟩

theorem path_within_msg (pre path post : Str) : path <:+: pre ++ path ++ post :=
  ⟨pre, post, rfl⟩

theorem extract_ok_data (env : Env) (path : Str) (rules : List Str)
    (h : extractRulesFromCommand env path = .ok rules) : ∃ c, env.data path = some c := by
  unfold extractRulesFromCommand at h
  cases hd : env.data path with
  | none =>
    rw [hd] at h
    exact absurd h (by simp)
  | some c => exact ⟨c, rfl⟩

/-- The callback of `installRulesForRole` on a rule document of the role, in terms of the
result of the resolution. -/
theorem installRulesVisit_rule (env : Env) (targetDir role : Str) (ruleMap : GoMap Bool)
    (s : RulesState) (d : DirEntry)
    (hdir : d.isDir = false) (hext : filepathExt d.path = mdcExt)
    (hin : (mapGet ruleMap (trimSuffix (filepathBase d.path) mdcExt)).getD false = true) :
    installRulesVisit env targetDir role ruleMap s d =
      match copyFileWithConflictHandling env d.path
          (filepathJoin targetDir (filepathBase d.path)) s.world with
      | (some .skipped, w) => (none, ⟨s.count, w⟩)
      | (some e, w) => (some (.copying d.path e), ⟨s.count, w⟩)
      | (none, w) =>
        (none, ⟨s.count + 1, w.print ("  ✓ Installed rule for ".toList ++ role ++ ": ".toList ++
          trimSuffix (filepathBase d.path) mdcExt ++ ['\n'])⟩) := by
  unfold installRulesVisit
  simp only [hdir, hext, hin, Bool.false_eq_true, if_false, ne_eq, not_true_eq_false,
    Bool.not_true]

theorem installRulesVisit_other (env : Env) (targetDir role : Str) (ruleMap : GoMap Bool)
    (s : RulesState) (d : DirEntry)
    (h : d.isDir = true ∨ filepathExt d.path ≠ mdcExt ∨
      (mapGet ruleMap (trimSuffix (filepathBase d.path) (filepathExt d.path))).getD false
        = false) :
    installRulesVisit env targetDir role ruleMap s d = (none, s) := by
  unfold installRulesVisit
  by_cases hd : d.isDir = true
  · rw [if_pos hd]
  · rw [if_neg hd]
    simp only []
    by_cases hx : filepathExt d.path ≠ mdcExt
    · rw [if_pos hx]
    · rw [if_neg hx]
      rcases h with h | h | h
      · exact absurd h hd
      · exact absurd h hx
      · rw [h]
        rfl

/-! ## Names, extensions and the lookup set -/

theorem filepathExt_eq (path : Str) :
    filepathExt path =
      if (fileName path).contains '.' then
        '.' :: ((fileName path).reverse.takeWhile (fun c => c != '.')).reverse
      else [] := rfl

theorem filepathExt_mdc_iff (path : Str) :
    filepathExt path = mdcExt ↔ hasSuffix (fileName path) mdcExt = true := by
  rw [filepathExt_eq]
  generalize fileName path = l
  unfold hasSuffix
  rw [List.isPrefixOf_iff_prefix]
  constructor
  · intro h
    by_cases hc : l.contains '.' = true
    · rw [if_pos hc] at h
      have hmem : '.' ∈ l.reverse := by
        rw [List.mem_reverse]
        simpa using hc
      have htw : l.reverse.takeWhile (fun c => c != '.') = ['c', 'd', 'm'] := by
        have h2 : (l.reverse.takeWhile (fun c => c != '.')).reverse = ['m', 'd', 'c'] := by
          simpa [mdcExt] using h
        have := congrArg List.reverse h2
        simpa using this
      have hsplit := List.takeWhile_append_dropWhile (fun c => c != '.') l.reverse
      rw [htw] at hsplit
      cases hdw : l.reverse.dropWhile (fun c => c != '.') with
      | nil =>
        rw [hdw] at hsplit
        rw [← hsplit] at hmem
        exact absurd hmem (by decide)
      | cons x xs =>
        have hx := List.head?_dropWhile_not (fun c => c != '.') l.reverse
        rw [hdw] at hx hsplit
        simp only [List.head?_cons, Option.some.injEq] at hx
        have hxe : x = '.' := by
          simpa using hx
        subst hxe
        exact ⟨xs, by rw [← hsplit]; rfl⟩
    · rw [if_neg hc] at h
      exact absurd h (by decide)
  · rintro ⟨t, ht⟩
    have hrev : l.reverse = 'c' :: 'd' :: 'm' :: '.' :: t := by
      rw [← ht]
      rfl
    have hc : l.contains '.' = true := by
      have : '.' ∈ l.reverse := by rw [hrev]; simp
      rw [List.mem_reverse] at this
      simpa using this
    rw [if_pos hc, hrev]
    have e : List.takeWhile (fun c => c != '.') ('c' :: 'd' :: 'm' :: '.' :: t) =
        ['c', 'd', 'm'] := by
      simp [List.takeWhile]
    rw [e]
    rfl

theorem fileName_ne_nil_of_hasSuffix (path : Str) (h : hasSuffix (fileName path) mdcExt = true) :
    fileName path ≠ [] := by
  intro he
  rw [he] at h
  exact absurd h (by decide)

theorem filepathBase_eq_fileName (path : Str) (h : fileName path ≠ []) :
    filepathBase path = fileName path := by
  have hp : path ≠ [] := by
    rintro rfl
    exact h rfl
  unfold filepathBase
  rw [if_neg hp]
  simp only []
  have hdrop : path.reverse.dropWhile (fun c => c == '/') = path.reverse := by
    cases hr : path.reverse with
    | nil => rfl
    | cons c cs =>
      have hc : ¬ ((c == '/') = true) := by
        intro hc
        apply h
        unfold fileName
        rw [hr]
        have : (c != '/') = false := by simpa using hc
        simp [List.takeWhile, this]
      exact List.dropWhile_cons_of_neg hc
  rw [hdrop, List.reverse_reverse]
  have : (path.reverse.takeWhile (fun c => c != '/')).reverse = fileName path := rfl
  rw [this, if_neg h]

theorem trimSuffix_of_hasSuffix (s suf : Str) (h : hasSuffix s suf = true) :
    trimSuffix s suf = s.take (s.length - suf.length) := by
  unfold trimSuffix
  rw [if_pos h]

theorem mapGet_mapSet {α : Type} (m : GoMap α) (k k2 : Str) (v : α) :
    mapGet (mapSet m k v) k2 = if k = k2 then some v else mapGet m k2 := by
  induction m with
  | nil => simp [mapSet, mapGet]
  | cons e m ih =>
    obtain ⟨k0, v0⟩ := e
    by_cases h0 : k0 = k
    · subst h0
      by_cases h2 : k0 = k2
      · simp [mapSet, mapGet, h2]
      · simp [mapSet, mapGet, h2]
    · by_cases h2 : k0 = k2
      · subst h2
        have : ¬ k = k0 := fun e => h0 e.symm
        simp [mapSet, mapGet, h0, this]
      · simp [mapSet, mapGet, h0, h2, ih]

theorem mapGet_foldl_mapSet (names : List Str) (m : GoMap Bool) (k : Str) :
    (mapGet (names.foldl (fun m ruleName => mapSet m ruleName true) m) k).getD false = true ↔
      k ∈ names ∨ (mapGet m k).getD false = true := by
  induction names generalizing m with
  | nil => simp
  | cons n names ih =>
    rw [List.foldl_cons, ih, mapGet_mapSet]
    by_cases hn : n = k
    · subst hn
      simp
    · have : ¬ k = n := fun e => hn e.symm
      simp [hn, this]

theorem buildRuleMap_lookup (names : List Str) (k : Str) :
    (mapGet (buildRuleMap names) k).getD false = true ↔ k ∈ names := by
  unfold buildRuleMap
  rw [mapGet_foldl_mapSet]
  simp [mapGet]

/-- The test of the callback is the selection in words. -/
theorem selected_iff (ruleNames : List Str) (d : DirEntry) :
    isSelectedRule ruleNames d = true ↔
      d.isDir = false ∧ filepathExt d.path = mdcExt ∧
      (mapGet (buildRuleMap ruleNames) (trimSuffix (filepathBase d.path) mdcExt)).getD false
        = true := by
  unfold isSelectedRule
  simp only [Bool.and_eq_true, Bool.not_eq_true', decide_eq_true_eq]
  rw [filepathExt_mdc_iff, buildRuleMap_lookup]
  constructor
  · rintro ⟨⟨h1, h2⟩, h3⟩
    refine ⟨h1, h2, ?_⟩
    rw [filepathBase_eq_fileName _ (fileName_ne_nil_of_hasSuffix _ h2),
      trimSuffix_of_hasSuffix _ _ h2]
    exact h3
  · rintro ⟨h1, h2, h3⟩
    refine ⟨⟨h1, h2⟩, ?_⟩
    rw [filepathBase_eq_fileName _ (fileName_ne_nil_of_hasSuffix _ h2),
      trimSuffix_of_hasSuffix _ _ h2] at h3
    exact h3

theorem installRulesVisit_unselected (env : Env) (targetDir role : Str) (ruleNames : List Str)
    (s : RulesState) (d : DirEntry) (h : isSelectedRule ruleNames d = false) :
    installRulesVisit env targetDir role (buildRuleMap ruleNames) s d = (none, s) := by
  apply installRulesVisit_other
  by_cases hd : d.isDir = true
  · exact Or.inl hd
  · by_cases hx : filepathExt d.path = mdcExt
    · right; right
      rw [hx]
      by_contra hc
      have hc2 : (mapGet (buildRuleMap ruleNames)
          (trimSuffix (filepathBase d.path) mdcExt)).getD false = true := by simpa using hc
      have := (selected_iff ruleNames d).mpr ⟨by simpa using hd, hx, hc2⟩
      rw [h] at this
      exact absurd this (by decide)
    · exact Or.inr (Or.inl hx)

theorem walkDir_filter {σ : Type} (fn : σ → DirEntry → Option Err × σ) (p : DirEntry → Bool)
    (ds : List DirEntry) (s : σ) (h : ∀ d, p d = false → ∀ s, fn s d = (none, s)) :
    walkDir fn ds s = walkDir fn (ds.filter p) s := by
  induction ds generalizing s with
  | nil => rfl
  | cons d ds ih =>
    cases hp : p d with
    | false =>
      rw [List.filter_cons_of_neg (by simp [hp]), walkDir_cons_ok fn d ds s s (h d hp s)]
      exact ih s
    | true =>
      rw [List.filter_cons_of_pos hp]
      cases hr : fn s d with
      | mk r s1 =>
        cases r with
        | none =>
          rw [walkDir_cons_ok fn d ds s s1 hr, walkDir_cons_ok fn d _ s s1 hr]
          exact ih s1
        | some e =>
          rw [walkDir_cons_err fn d ds s s1 e hr, walkDir_cons_err fn d _ s s1 e hr]

/-! ## What a rule walk can change -/

theorem installRulesVisit_selected (env : Env) (targetDir role : Str) (ruleNames : List Str)
    (s : RulesState) (d : DirEntry) (h : isSelectedRule ruleNames d = true) :
    installRulesVisit env targetDir role (buildRuleMap ruleNames) s d =
      match copyFileWithConflictHandling env d.path
          (filepathJoin targetDir (fileName d.path)) s.world with
      | (some .skipped, w) => (none, ⟨s.count, w⟩)
      | (some e, w) => (some (.copying d.path e), ⟨s.count, w⟩)
      | (none, w) =>
        (none, ⟨s.count + 1, w.print ("  ✓ Installed rule for ".toList ++ role ++ ": ".toList ++
          ruleId d.path ++ ['\n'])⟩) := by
  obtain ⟨hdir, hext, hin⟩ := (selected_iff ruleNames d).mp h
  have hsuf := (filepathExt_mdc_iff d.path).mp hext
  rw [installRulesVisit_rule env targetDir role _ s d hdir hext hin,
    filepathBase_eq_fileName _ (fileName_ne_nil_of_hasSuffix _ hsuf),
    trimSuffix_of_hasSuffix _ _ hsuf]
  rfl

theorem installRulesVisit_frame (env : Env) (targetDir role : Str) (ruleNames : List Str)
    (s : RulesState) (d : DirEntry) (q : Str)
    (hq : isSelectedRule ruleNames d = true → q ≠ filepathJoin targetDir (fileName d.path)) :
    (installRulesVisit env targetDir role (buildRuleMap ruleNames) s d).2.world.files q =
      s.world.files q := by
  cases hsel : isSelectedRule ruleNames d with
  | false => rw [installRulesVisit_unselected env targetDir role ruleNames s d hsel]
  | true =>
    rw [installRulesVisit_selected env targetDir role ruleNames s d hsel]
    obtain ⟨hf, -, -, -⟩ := copyFileWithConflictHandling_effect env d.path
      (filepathJoin targetDir (fileName d.path)) s.world
    have hfq := hf q (hq hsel)
    cases hr : copyFileWithConflictHandling env d.path
      (filepathJoin targetDir (fileName d.path)) s.world with
    | mk r w1 =>
      rw [hr] at hfq
      cases r with
      | none => exact hfq
      | some e => cases e <;> exact hfq

theorem walkDir_rules_frame (env : Env) (targetDir role : Str) (ruleNames : List Str)
    (ds : List DirEntry) (s : RulesState) (q : Str)
    (hq : ∀ d ∈ ds, isSelectedRule ruleNames d = true →
      q ≠ filepathJoin targetDir (fileName d.path)) :
    (walkDir (installRulesVisit env targetDir role (buildRuleMap ruleNames)) ds s).2.world.files q
      = s.world.files q := by
  induction ds generalizing s with
  | nil => rfl
  | cons d ds ih =>
    have hstep := installRulesVisit_frame env targetDir role ruleNames s d q
      (hq d (List.mem_cons_self _ _))
    cases hr : installRulesVisit env targetDir role (buildRuleMap ruleNames) s d with
    | mk r s1 =>
      rw [hr] at hstep
      cases r with
      | none =>
        rw [walkDir_cons_ok _ d ds s s1 hr, ih s1 (fun x hx => hq x (List.mem_cons_of_mem _ hx))]
        exact hstep
      | some e =>
        rw [walkDir_cons_err _ d ds s s1 e hr]
        exact hstep

theorem filepathJoin_injective (dir a b : Str) (h : filepathJoin dir a = filepathJoin dir b) :
    a = b := by
  unfold filepathJoin at h
  have := List.append_cancel_left h
  exact List.cons_injective this

/-! ## Settled destinations -/

theorem answersOf_cons_pending (chunk acc : Str) (rest : List Str)
    (hnl : chunk.contains '\n' = false) :
    answersOf (chunk :: rest) acc = answersOf rest (acc ++ chunk) := by
  rw [answersOf]
  rw [if_neg (by rw [hnl]; decide)]

theorem answersOf_cons_line (chunk acc : Str) (rest : List Str)
    (hnl : chunk.contains '\n' = true) :
    answersOf (chunk :: rest) acc = answerOf acc chunk :: answersOf rest [] := by
  rw [answersOf]
  rw [if_pos hnl]

theorem safeAnswers_cons_pending (chunk acc : Str) (rest : List Str)
    (hnl : chunk.contains '\n' = false) :
    SafeAnswers (chunk :: rest) acc ↔ SafeAnswers rest (acc ++ chunk) := by
  unfold SafeAnswers
  rw [answersOf_cons_pending chunk acc rest hnl]

theorem safeAnswers_cons_line (chunk acc : Str) (rest : List Str)
    (hnl : chunk.contains '\n' = true) :
    SafeAnswers (chunk :: rest) acc ↔
      (¬ IsSkipChoice (answerOf acc chunk) ∧ ¬ IsMergeChoice (answerOf acc chunk)) ∧
        SafeAnswers rest [] := by
  unfold SafeAnswers
  rw [answersOf_cons_line chunk acc rest hnl]
  exact List.forall_mem_cons

theorem Settled.of_files {env : Env} {w w2 : World} {job : Str × Str}
    (h : Settled env w job) (hf : w2.files job.2 = w.files job.2) : Settled env w2 job := by
  unfold Settled filesAreDifferent fileHashFilesystem at *
  rw [hf]
  exact h

theorem settled_of_content (env : Env) (w : World) (src dst c : Str)
    (hs : env.data src = some c) (hd : w.files dst = some c) : Settled env w (src, dst) :=
  ⟨by simp [hd], filesAreDifferent_same env w src dst c hs hd⟩

/-- A resolver call that ends without error or with `ErrSkipped`, on input without skip
and merge answers, leaves the destination identical to the source, and what is left of
the input has no skip and no merge answer. -/
theorem handleFileConflictFrom_settles (env : Env) (src dst : Str) (stdin : List Str)
    (acc : Str) (w : World) (hno : SafeAnswers stdin acc) :
    NoSkipNoMerge (handleFileConflictFrom env src dst stdin acc w).2.stdin ∧
    (((handleFileConflictFrom env src dst stdin acc w).1 = none ∨
      (handleFileConflictFrom env src dst stdin acc w).1 = some .skipped) →
    Settled env (handleFileConflictFrom env src dst stdin acc w).2 (src, dst)) := by
  induction stdin generalizing acc w with
  | nil =>
    rw [handleFileConflictFrom_nil]
    refine ⟨fun l hl => absurd hl (List.not_mem_nil l), fun hr => ?_⟩
    rcases hr with h | h <;> exact absurd h (by simp)
  | cons chunk rest ih =>
    cases hnl : chunk.contains '\n' with
    | false =>
      rw [handleFileConflictFrom_pending env src dst chunk acc rest w hnl]
      exact ih (acc ++ chunk) w ((safeAnswers_cons_pending chunk acc rest hnl).mp hno)
    | true =>
      obtain ⟨⟨hns, hnm⟩, hrest⟩ := (safeAnswers_cons_line chunk acc rest hnl).mp hno
      rcases choice_cases (answerOf acc chunk) with h | h | h | h
      · exact absurd h hns
      · rw [handleFileConflictFrom_overwrite env src dst chunk acc rest w hnl h]
        obtain ⟨-, -, hs, -⟩ := copyFile_effect env src dst (w.consume rest)
        cases hc : copyFile env src dst (w.consume rest) with
        | mk r w1 =>
          rw [hc] at hs
          simp only [consume_stdin] at hs
          cases r with
          | none =>
            obtain ⟨c, hdata, -, hw1⟩ := copyFile_none env src dst _ w1 hc
            refine ⟨?_, fun _ => ?_⟩
            · simp only [println_stdin]
              rw [hs]
              exact hrest
            · apply settled_of_content env _ src dst c hdata
              simp only [println_files]
              rw [hw1]
              exact write_files_same _ _ _
          | some e =>
            have hnsk := copyFile_not_skipped env src dst (w.consume rest)
            rw [hc] at hnsk
            refine ⟨?_, fun hr => ?_⟩
            · simp only []
              rw [hs]
              exact hrest
            · rcases hr with h2 | h2
              · exact absurd h2 (by simp)
              · exact absurd h2 hnsk
      · exact absurd h hnm
      · obtain ⟨w2, ⟨-, hs2, -, -⟩, he2⟩ :=
          handleFileConflictFrom_nonTerminal env src dst chunk acc rest w hnl h
        rw [he2, handleFileConflict_eq env src dst rest w2 hs2]
        exact ih [] (conflictPrompt src dst w2) hrest

theorem copyFileWithConflictHandling_safe (env : Env) (src dst : Str) (w : World)
    (hno : NoSkipNoMerge w.stdin) :
    NoSkipNoMerge (copyFileWithConflictHandling env src dst w).2.stdin := by
  rcases copyFileWithConflictHandling_cases env src dst w with ⟨-, -, h⟩ | ⟨-, -, h⟩ | ⟨-, -, h⟩
  · rw [h, (copyFile_effect env src dst w).2.2.1]
    exact hno
  · rw [h]
    exact hno
  · rw [h]
    exact (handleFileConflictFrom_settles env src dst w.stdin [] _ hno).1

theorem copyFileWithConflictHandling_settles (env : Env) (src dst : Str) (w : World)
    (hno : NoSkipNoMerge w.stdin)
    (hr : (copyFileWithConflictHandling env src dst w).1 = none ∨
      (copyFileWithConflictHandling env src dst w).1 = some .skipped) :
    Settled env (copyFileWithConflictHandling env src dst w).2 (src, dst) := by
  rcases copyFileWithConflictHandling_cases env src dst w with
    ⟨-, -, h⟩ | ⟨hsome, hd, h⟩ | ⟨-, -, h⟩
  · rw [h] at hr ⊢
    cases hc : copyFile env src dst w with
    | mk r w1 =>
      rw [hc] at hr
      cases r with
      | none =>
        obtain ⟨c, hdata, -, hw1⟩ := copyFile_none env src dst _ w1 hc
        apply settled_of_content env _ src dst c hdata
        simp only []
        rw [hw1]
        exact write_files_same _ _ _
      | some e =>
        have hns := copyFile_not_skipped env src dst w
        rw [hc] at hns
        rcases hr with h2 | h2
        · exact absurd h2 (by simp)
        · exact absurd h2 hns
  · rw [h]
    exact ⟨hsome, hd⟩
  · rw [h] at hr ⊢
    exact (handleFileConflictFrom_settles env src dst w.stdin [] _ hno).2 hr

theorem copyFileWithConflictHandling_settled (env : Env) (src dst : Str) (w : World)
    (h : Settled env w (src, dst)) :
    copyFileWithConflictHandling env src dst w = (some .skipped, w) :=
  copyFileWithConflictHandling_identical env src dst w h.1 h.2

/-! ## The command walk, first and second run -/

theorem commandJobs_cons_other (sourceDir targetDir : Str) (d : DirEntry) (ds : List DirEntry)
    (h : d.isDir = true ∨ filepathExt d.path ≠ ['.', 'm', 'd']) :
    commandJobs sourceDir targetDir (d :: ds) = commandJobs sourceDir targetDir ds := by
  unfold commandJobs
  rw [List.filterMap_cons]
  rcases h with h | h
  · simp [h]
  · by_cases hd : d.isDir = true
    · simp [hd]
    · simp [hd, h]

theorem commandJobs_cons_command (sourceDir targetDir : Str) (d : DirEntry)
    (ds : List DirEntry) (relPath : Str) (hdir : d.isDir = false)
    (hext : filepathExt d.path = ['.', 'm', 'd'])
    (hrel : filepathRel sourceDir d.path = some relPath) :
    commandJobs sourceDir targetDir (d :: ds) =
      (d.path, filepathJoin targetDir relPath) :: commandJobs sourceDir targetDir ds := by
  unfold commandJobs
  rw [List.filterMap_cons]
  simp [hdir, hext, hrel]

theorem collectRoles_cons_other (env : Env) (d : DirEntry) (ds : List DirEntry)
    (m : GoMap (List Str)) (h : d.isDir = true ∨ filepathExt d.path ≠ ['.', 'm', 'd']) :
    collectRoles env (d :: ds) m = collectRoles env ds m := by
  rw [collectRoles]
  rcases h with h | h
  · rw [if_pos h]
  · by_cases hd : d.isDir = true
    · rw [if_pos hd]
    · rw [if_neg hd, if_pos h]

theorem collectRoles_cons_command (env : Env) (d : DirEntry) (ds : List DirEntry)
    (m : GoMap (List Str)) (rules : List Str) (hdir : d.isDir = false)
    (hext : filepathExt d.path = ['.', 'm', 'd'])
    (hrules : extractRulesFromCommand env d.path = .ok rules) :
    collectRoles env (d :: ds) m =
      collectRoles env ds
        (mapSet m (trimSuffix (filepathBase d.path) ['.', 'm', 'd']) rules) := by
  rw [collectRoles]
  simp only [hdir, hext, hrules, Bool.false_eq_true, if_false, ne_eq, not_true_eq_false]

theorem command_or_other (d : DirEntry) :
    (d.isDir = true ∨ filepathExt d.path ≠ ['.', 'm', 'd']) ∨
      (d.isDir = false ∧ filepathExt d.path = ['.', 'm', 'd']) := by
  by_cases hd : d.isDir = true
  · exact Or.inl (Or.inl hd)
  · by_cases hx : filepathExt d.path = ['.', 'm', 'd']
    · exact Or.inr ⟨by simpa using hd, hx⟩
    · exact Or.inl (Or.inr hx)

/-- A call of the callback of `installCommands` on a command document that returns no
error: the document was read, the directory of its destination exists afterwards, and its
resolution returned no error or `ErrSkipped`. -/
theorem installCommandsVisit_ok (env : Env) (sourceDir targetDir : Str)
    (s s1 : CommandsState) (d : DirEntry) (hdir : d.isDir = false)
    (hext : filepathExt d.path = ['.', 'm', 'd'])
    (h : installCommandsVisit env sourceDir targetDir s d = (none, s1)) :
    ∃ rules relPath, extractRulesFromCommand env d.path = .ok rules ∧
      filepathRel sourceDir d.path = some relPath ∧
      (mkdirAll env (filepathDir (filepathJoin targetDir relPath)) s.world).1 = none ∧
      ((copyFileWithConflictHandling env d.path (filepathJoin targetDir relPath)
          (mkdirAll env (filepathDir (filepathJoin targetDir relPath)) s.world).2).1 = none ∨
        (copyFileWithConflictHandling env d.path (filepathJoin targetDir relPath)
          (mkdirAll env (filepathDir (filepathJoin targetDir relPath)) s.world).2).1
            = some .skipped) ∧
      s1.roleRulesMap =
        mapSet s.roleRulesMap (trimSuffix (filepathBase d.path) ['.', 'm', 'd']) rules ∧
      s1.world.files = (copyFileWithConflictHandling env d.path
        (filepathJoin targetDir relPath)
        (mkdirAll env (filepathDir (filepathJoin targetDir relPath)) s.world).2).2.files ∧
      s1.world.stdin = (copyFileWithConflictHandling env d.path
        (filepathJoin targetDir relPath)
        (mkdirAll env (filepathDir (filepathJoin targetDir relPath)) s.world).2).2.stdin ∧
      s1.world.dirs = (copyFileWithConflictHandling env d.path
        (filepathJoin targetDir relPath)
        (mkdirAll env (filepathDir (filepathJoin targetDir relPath)) s.world).2).2.dirs ∧
      (s1.count = s.count + 1 ↔
        (copyFileWithConflictHandling env d.path (filepathJoin targetDir relPath)
          (mkdirAll env (filepathDir (filepathJoin targetDir relPath)) s.world).2).1 = none) ∧
      (s1.count = s.count ↔
        (copyFileWithConflictHandling env d.path (filepathJoin targetDir relPath)
          (mkdirAll env (filepathDir (filepathJoin targetDir relPath)) s.world).2).1
            = some .skipped) := by
  cases hrules : extractRulesFromCommand env d.path with
  | error e =>
    unfold installCommandsVisit at h
    simp only [hdir, hext, hrules, Bool.false_eq_true, if_false, ne_eq, not_true_eq_false] at h
    exact absurd (congrArg Prod.fst h) (by simp)
  | ok rules =>
    cases hrel : filepathRel sourceDir d.path with
    | none =>
      unfold installCommandsVisit at h
      simp only [hdir, hext, hrules, hrel, Bool.false_eq_true, if_false, ne_eq,
        not_true_eq_false] at h
      exact absurd (congrArg Prod.fst h) (by simp)
    | some relPath =>
      cases hmk : (mkdirAll env (filepathDir (filepathJoin targetDir relPath)) s.world).1 with
      | some e1 =>
        rw [installCommandsVisit_mkdir_fails env sourceDir targetDir s d relPath rules e1
          hdir hext hrules hrel hmk] at h
        exact absurd (congrArg Prod.fst h) (by simp)
      | none =>
        rw [installCommandsVisit_made env sourceDir targetDir s d relPath rules hdir hext
          hrules hrel hmk] at h
        refine ⟨rules, relPath, rfl, rfl, hmk, ?_⟩
        cases hr : copyFileWithConflictHandling env d.path (filepathJoin targetDir relPath)
          (mkdirAll env (filepathDir (filepathJoin targetDir relPath)) s.world).2 with
        | mk r w1 =>
          rw [hr] at h
          cases r with
          | none =>
            simp only [Prod.mk.injEq, true_and] at h
            rw [← h]
            exact ⟨Or.inl rfl, rfl, rfl, rfl, rfl, by simp, by simp⟩
          | some e =>
            cases e with
            | skipped =>
              simp only [Prod.mk.injEq, true_and] at h
              rw [← h]
              exact ⟨Or.inr rfl, rfl, rfl, rfl, rfl, by simp, by simp⟩
            | _ => exact absurd (congrArg Prod.fst h) (by simp)

theorem commands_first_run (env : Env) (sourceDir targetDir : Str) (ds : List DirEntry)
    (s s2 : CommandsState)
    (hwalk : walkDir (installCommandsVisit env sourceDir targetDir) ds s = (none, s2))
    (hno : NoSkipNoMerge s.world.stdin)
    (hnodup : ((commandJobs sourceDir targetDir ds).map Prod.snd).Nodup) :
    (∀ j ∈ commandJobs sourceDir targetDir ds, Settled env s2.world j) ∧
    (∀ q, q ∉ (commandJobs sourceDir targetDir ds).map Prod.snd →
      s2.world.files q = s.world.files q) ∧
    NoSkipNoMerge s2.world.stdin ∧
    s2.roleRulesMap = collectRoles env ds s.roleRulesMap ∧
    GoodCommands env sourceDir ds ∧
    (∀ j ∈ commandJobs sourceDir targetDir ds, s2.world.dirs (filepathDir j.2) = true) ∧
    (∀ p, s.world.dirs p = true → s2.world.dirs p = true) := by
  induction ds generalizing s with
  | nil =>
    rw [walkDir] at hwalk
    have : s2 = s := (congrArg Prod.snd hwalk).symm
    subst this
    exact ⟨fun j hj => absurd hj (by simp [commandJobs]), fun _ _ => rfl, hno,
      rfl, fun d hd => absurd hd (by simp), fun j hj => absurd hj (by simp [commandJobs]),
      fun _ hp => hp⟩
  | cons d ds ih =>
    cases hv : installCommandsVisit env sourceDir targetDir s d with
    | mk r s1 =>
      cases r with
      | some e =>
        rw [walkDir_cons_err _ d ds s s1 e hv] at hwalk
        exact absurd (congrArg Prod.fst hwalk) (by simp)
      | none =>
        rw [walkDir_cons_ok _ d ds s s1 hv] at hwalk
        rcases command_or_other d with hother | ⟨hdir, hext⟩
        · rw [installCommandsVisit_other env sourceDir targetDir s d hother] at hv
          have hs1 : s1 = s := (congrArg Prod.snd hv).symm
          subst hs1
          rw [commandJobs_cons_other sourceDir targetDir d ds hother] at hnodup ⊢
          rw [collectRoles_cons_other env d ds _ hother]
          obtain ⟨h1, h2, h3, h4, h5, h6, h7⟩ := ih s1 hwalk hno hnodup
          refine ⟨h1, h2, h3, h4, ?_, h6, h7⟩
          intro x hx hxd hxe
          rcases List.mem_cons.mp hx with rfl | hx
          · rcases hother with h | h
            · rw [h] at hxd
              exact absurd hxd (by simp)
            · exact absurd hxe h
          · exact h5 x hx hxd hxe
        · obtain ⟨rules, relPath, hrules, hrel, hmk, hres, hmap, hfiles, hstdin, hdirs, -, -⟩ :=
            installCommandsVisit_ok env sourceDir targetDir s s1 d hdir hext hv
          obtain ⟨mf, -, ms, md⟩ := mkdirAll_effect env
            (filepathDir (filepathJoin targetDir relPath)) s.world
          have mdone := mkdirAll_none env (filepathDir (filepathJoin targetDir relPath)) s.world
            hmk
          generalize (mkdirAll env (filepathDir (filepathJoin targetDir relPath)) s.world).2
            = w1 at hres hfiles hstdin hdirs mf ms md mdone
          have hno0 : NoSkipNoMerge w1.stdin := by rw [ms]; exact hno
          obtain ⟨hf, -, -, hfd⟩ := copyFileWithConflictHandling_effect env d.path
            (filepathJoin targetDir relPath) w1
          have hset := copyFileWithConflictHandling_settles env d.path
            (filepathJoin targetDir relPath) w1 hno0 hres
          rw [commandJobs_cons_command sourceDir targetDir d ds relPath hdir hext hrel]
            at hnodup ⊢
          rw [collectRoles_cons_command env d ds _ rules hdir hext hrules, ← hmap]
          rw [List.map_cons, List.nodup_cons] at hnodup
          have hno1 : NoSkipNoMerge s1.world.stdin := by
            rw [hstdin]
            exact copyFileWithConflictHandling_safe env _ _ w1 hno0
          obtain ⟨h1, h2, h3, h4, h5, h6, h7⟩ := ih s1 hwalk hno1 hnodup.2
          have hset1 : Settled env s1.world (d.path, filepathJoin targetDir relPath) :=
            hset.of_files (by rw [hfiles])
          have hd1 : ∀ p, s.world.dirs p = true → s1.world.dirs p = true := by
            intro p hp
            rw [hdirs, hfd]
            exact md p hp
          refine ⟨?_, ?_, h3, h4, ?_, ?_, fun p hp => h7 p (hd1 p hp)⟩
          · intro j hj
            rcases List.mem_cons.mp hj with rfl | hj
            · exact hset1.of_files (h2 _ hnodup.1)
            · exact h1 j hj
          · intro q hq
            rw [List.map_cons, List.mem_cons, not_or] at hq
            rw [h2 q hq.2, hfiles, hf q hq.1, mf]
          · intro x hx hxd hxe
            rcases List.mem_cons.mp hx with rfl | hx
            · exact ⟨rules, relPath, hrules, hrel⟩
            · exact h5 x hx hxd hxe
          · intro j hj
            rcases List.mem_cons.mp hj with rfl | hj
            · apply h7
              rw [hdirs, hfd]
              exact mdone
            · exact h6 j hj

theorem commands_second_run (env : Env) (sourceDir targetDir : Str) (ds : List DirEntry)
    (s : CommandsState) (hgood : GoodCommands env sourceDir ds)
    (hset : ∀ j ∈ commandJobs sourceDir targetDir ds, Settled env s.world j)
    (hdirs : ∀ j ∈ commandJobs sourceDir targetDir ds, s.world.dirs (filepathDir j.2) = true) :
    walkDir (installCommandsVisit env sourceDir targetDir) ds s =
      (none, ⟨collectRoles env ds s.roleRulesMap, s.count, s.world⟩) := by
  induction ds generalizing s with
  | nil => rfl
  | cons d ds ih =>
    have hgood2 : GoodCommands env sourceDir ds :=
      fun x hx => hgood x (List.mem_cons_of_mem _ hx)
    rcases command_or_other d with hother | ⟨hdir, hext⟩
    · rw [walkDir_cons_ok _ d ds s s (installCommandsVisit_other env sourceDir targetDir s d
        hother), collectRoles_cons_other env d ds _ hother]
      rw [commandJobs_cons_other sourceDir targetDir d ds hother] at hset hdirs
      exact ih s hgood2 hset hdirs
    · obtain ⟨rules, relPath, hrules, hrel⟩ := hgood d (List.mem_cons_self _ _) hdir hext
      rw [commandJobs_cons_command sourceDir targetDir d ds relPath hdir hext hrel]
        at hset hdirs
      have hv : installCommandsVisit env sourceDir targetDir s d =
          (none, ⟨mapSet s.roleRulesMap (trimSuffix (filepathBase d.path) ['.', 'm', 'd']) rules,
            s.count, s.world⟩) := by
        rw [installCommandsVisit_command env sourceDir targetDir s d relPath rules hdir hext
          hrules hrel, mkdirAll_exists env _ s.world (hdirs _ (List.mem_cons_self _ _))]
        simp only []
        rw [copyFileWithConflictHandling_settled env _ _ _
          (hset _ (List.mem_cons_self _ _))]
      rw [walkDir_cons_ok _ d ds s _ hv, collectRoles_cons_command env d ds _ rules hdir hext
        hrules]
      exact ih _ hgood2 (fun j hj => hset j (List.mem_cons_of_mem _ hj))
        (fun j hj => hdirs j (List.mem_cons_of_mem _ hj))

/-! ## The rule walks, first and second run -/

theorem ruleJobs_cons_unselected (targetDir : Str) (ruleNames : List Str) (d : DirEntry)
    (ds : List DirEntry) (h : isSelectedRule ruleNames d = false) :
    ruleJobs targetDir ruleNames (d :: ds) = ruleJobs targetDir ruleNames ds := by
  unfold ruleJobs
  rw [List.filter_cons_of_neg (by simp [h])]

theorem ruleJobs_cons_selected (targetDir : Str) (ruleNames : List Str) (d : DirEntry)
    (ds : List DirEntry) (h : isSelectedRule ruleNames d = true) :
    ruleJobs targetDir ruleNames (d :: ds) =
      (d.path, filepathJoin targetDir (fileName d.path)) :: ruleJobs targetDir ruleNames ds := by
  unfold ruleJobs
  rw [List.filter_cons_of_pos h, List.map_cons]

theorem installRulesVisit_ok (env : Env) (targetDir role : Str) (ruleNames : List Str)
    (s s1 : RulesState) (d : DirEntry) (hsel : isSelectedRule ruleNames d = true)
    (h : installRulesVisit env targetDir role (buildRuleMap ruleNames) s d = (none, s1)) :
    ((copyFileWithConflictHandling env d.path (filepathJoin targetDir (fileName d.path))
        s.world).1 = none ∨
      (copyFileWithConflictHandling env d.path (filepathJoin targetDir (fileName d.path))
        s.world).1 = some .skipped) ∧
    s1.world.files = (copyFileWithConflictHandling env d.path
      (filepathJoin targetDir (fileName d.path)) s.world).2.files ∧
    s1.world.stdin = (copyFileWithConflictHandling env d.path
      (filepathJoin targetDir (fileName d.path)) s.world).2.stdin ∧
    s1.world.dirs = (copyFileWithConflictHandling env d.path
      (filepathJoin targetDir (fileName d.path)) s.world).2.dirs := by
  rw [installRulesVisit_selected env targetDir role ruleNames s d hsel] at h
  cases hr : copyFileWithConflictHandling env d.path (filepathJoin targetDir (fileName d.path))
    s.world with
  | mk r w1 =>
    rw [hr] at h
    cases r with
    | none =>
      simp only [Prod.mk.injEq, true_and] at h
      rw [← h]
      exact ⟨Or.inl rfl, rfl, rfl, rfl⟩
    | some e =>
      cases e with
      | skipped =>
        simp only [Prod.mk.injEq, true_and] at h
        rw [← h]
        exact ⟨Or.inr rfl, rfl, rfl, rfl⟩
      | _ => exact absurd (congrArg Prod.fst h) (by simp)

theorem rules_first_run (env : Env) (targetDir role : Str) (ruleNames : List Str)
    (ds : List DirEntry) (s s2 : RulesState)
    (hwalk : walkDir (installRulesVisit env targetDir role (buildRuleMap ruleNames)) ds s =
      (none, s2))
    (hno : NoSkipNoMerge s.world.stdin)
    (hnodup : ((ruleJobs targetDir ruleNames ds).map Prod.snd).Nodup) :
    (∀ j ∈ ruleJobs targetDir ruleNames ds, Settled env s2.world j) ∧
    (∀ q, q ∉ (ruleJobs targetDir ruleNames ds).map Prod.snd →
      s2.world.files q = s.world.files q) ∧
    NoSkipNoMerge s2.world.stdin ∧
    s2.world.dirs = s.world.dirs := by
  induction ds generalizing s with
  | nil =>
    rw [walkDir] at hwalk
    have : s2 = s := (congrArg Prod.snd hwalk).symm
    subst this
    exact ⟨fun j hj => absurd hj (by simp [ruleJobs]), fun _ _ => rfl, hno, rfl⟩
  | cons d ds ih =>
    cases hv : installRulesVisit env targetDir role (buildRuleMap ruleNames) s d with
    | mk r s1 =>
      cases r with
      | some e =>
        rw [walkDir_cons_err _ d ds s s1 e hv] at hwalk
        exact absurd (congrArg Prod.fst hwalk) (by simp)
      | none =>
        rw [walkDir_cons_ok _ d ds s s1 hv] at hwalk
        cases hsel : isSelectedRule ruleNames d with
        | false =>
          rw [installRulesVisit_unselected env targetDir role ruleNames s d hsel] at hv
          have hs1 : s1 = s := (congrArg Prod.snd hv).symm
          subst hs1
          rw [ruleJobs_cons_unselected targetDir ruleNames d ds hsel] at hnodup ⊢
          exact ih s1 hwalk hno hnodup
        | true =>
          obtain ⟨hres, hfiles, hstdin, hdirs⟩ :=
            installRulesVisit_ok env targetDir role ruleNames s s1 d hsel hv
          obtain ⟨hf, -, -, hfd⟩ := copyFileWithConflictHandling_effect env d.path
            (filepathJoin targetDir (fileName d.path)) s.world
          have hset := copyFileWithConflictHandling_settles env d.path
            (filepathJoin targetDir (fileName d.path)) s.world hno hres
          rw [ruleJobs_cons_selected targetDir ruleNames d ds hsel] at hnodup ⊢
          rw [List.map_cons, List.nodup_cons] at hnodup
          have hno1 : NoSkipNoMerge s1.world.stdin := by
            rw [hstdin]
            exact copyFileWithConflictHandling_safe env _ _ s.world hno
          obtain ⟨h1, h2, h3, h4⟩ := ih s1 hwalk hno1 hnodup.2
          have hset1 : Settled env s1.world (d.path, filepathJoin targetDir (fileName d.path)) :=
            hset.of_files (by rw [hfiles])
          refine ⟨?_, ?_, h3, ?_⟩
          · intro j hj
            rcases List.mem_cons.mp hj with rfl | hj
            · exact hset1.of_files (h2 _ hnodup.1)
            · exact h1 j hj
          · intro q hq
            rw [List.map_cons, List.mem_cons, not_or] at hq
            rw [h2 q hq.2, hfiles]
            exact hf q hq.1
          · rw [h4, hdirs, hfd]

theorem rules_second_run (env : Env) (targetDir role : Str) (ruleNames : List Str)
    (ds : List DirEntry) (s : RulesState)
    (hset : ∀ j ∈ ruleJobs targetDir ruleNames ds, Settled env s.world j) :
    walkDir (installRulesVisit env targetDir role (buildRuleMap ruleNames)) ds s = (none, s) := by
  induction ds generalizing s with
  | nil => rfl
  | cons d ds ih =>
    cases hsel : isSelectedRule ruleNames d with
    | false =>
      rw [walkDir_cons_ok _ d ds s s
        (installRulesVisit_unselected env targetDir role ruleNames s d hsel)]
      rw [ruleJobs_cons_unselected targetDir ruleNames d ds hsel] at hset
      exact ih s hset
    | true =>
      rw [ruleJobs_cons_selected targetDir ruleNames d ds hsel] at hset
      have hv : installRulesVisit env targetDir role (buildRuleMap ruleNames) s d = (none, s) := by
        rw [installRulesVisit_selected env targetDir role ruleNames s d hsel,
          copyFileWithConflictHandling_settled env _ _ _ (hset _ (List.mem_cons_self _ _))]
      rw [walkDir_cons_ok _ d ds s s hv]
      exact ih s (fun j hj => hset j (List.mem_cons_of_mem _ hj))

theorem installAllRules_cons (env : Env) (cursorDir role : Str) (rules : List Str)
    (more : List (Str × List Str)) (total : Nat) (w : World) :
    installAllRules env cursorDir ((role, rules) :: more) total w =
      match installRulesForRole env "rules".toList (rulesTargetOf cursorDir role) role rules w with
      | (some e, s) => (some (role, e), total, s.world)
      | (none, s) => installAllRules env cursorDir more (total + s.count) s.world := by
  rw [installAllRules]
  rfl

theorem allRuleJobs_cons (env : Env) (cursorDir : Str) (e : Str × List Str)
    (more : GoMap (List Str)) :
    allRuleJobs env cursorDir (e :: more) =
      ruleJobs (rulesTargetOf cursorDir e.1) e.2 (env.walk "rules".toList) ++
        allRuleJobs env cursorDir more := by
  unfold allRuleJobs
  rw [List.flatMap_cons]

/-- A call of `installRulesForRole` that returns no error created its directory and
walked the rule documents from the world with that directory. -/
theorem installRulesForRole_none (env : Env) (sourceDir targetDir role : Str)
    (ruleNames : List Str) (w : World) (s : RulesState)
    (h : installRulesForRole env sourceDir targetDir role ruleNames w = (none, s)) :
    (mkdirAll env targetDir w).1 = none ∧
    walkDir (installRulesVisit env targetDir role (buildRuleMap ruleNames))
      (env.walk sourceDir) ⟨0, (mkdirAll env targetDir w).2⟩ = (none, s) := by
  unfold installRulesForRole at h
  cases hr : mkdirAll env targetDir w with
  | mk r w1 =>
    rw [hr] at h
    cases r with
    | some e => exact absurd (congrArg Prod.fst h) (by simp)
    | none => exact ⟨rfl, h⟩

/-- With its directory in place, `installRulesForRole` is the walk. -/
theorem installRulesForRole_made (env : Env) (sourceDir targetDir role : Str)
    (ruleNames : List Str) (w : World) (h : (mkdirAll env targetDir w).1 = none) :
    installRulesForRole env sourceDir targetDir role ruleNames w =
      walkDir (installRulesVisit env targetDir role (buildRuleMap ruleNames))
        (env.walk sourceDir) ⟨0, (mkdirAll env targetDir w).2⟩ := by
  unfold installRulesForRole
  cases hr : mkdirAll env targetDir w with
  | mk r w1 =>
    rw [hr] at h
    simp only at h
    rw [h]

/-- When its directory cannot be created, `installRulesForRole` returns that failure
and leaves the world as it is. -/
theorem installRulesForRole_mkdir_fails (env : Env) (sourceDir targetDir role : Str)
    (ruleNames : List Str) (w : World) (e : Err) (h : (mkdirAll env targetDir w).1 = some e) :
    installRulesForRole env sourceDir targetDir role ruleNames w =
      (some (.creatingDir (.mkdir targetDir)), ⟨0, w⟩) := by
  unfold installRulesForRole
  obtain ⟨he, hw⟩ := mkdirAll_some env targetDir w e h
  cases hr : mkdirAll env targetDir w with
  | mk r w1 =>
    rw [hr] at h hw
    simp only at h hw
    rw [h, hw, he]

theorem allRules_first_run (env : Env) (cursorDir : Str) (roles : GoMap (List Str))
    (total total2 : Nat) (w w2 : World)
    (hrun : installAllRules env cursorDir roles total w = (none, total2, w2))
    (hno : NoSkipNoMerge w.stdin)
    (hnodup : ((allRuleJobs env cursorDir roles).map Prod.snd).Nodup) :
    (∀ j ∈ allRuleJobs env cursorDir roles, Settled env w2 j) ∧
    (∀ q, q ∉ (allRuleJobs env cursorDir roles).map Prod.snd → w2.files q = w.files q) ∧
    NoSkipNoMerge w2.stdin ∧
    (∀ e ∈ roles, w2.dirs (rulesTargetOf cursorDir e.1) = true) ∧
    (∀ p, w.dirs p = true → w2.dirs p = true) := by
  induction roles generalizing total w with
  | nil =>
    rw [installAllRules] at hrun
    simp only [Prod.mk.injEq, true_and] at hrun
    rw [← hrun.2]
    exact ⟨fun j hj => absurd hj (by simp [allRuleJobs]), fun _ _ => rfl, hno,
      fun e he => absurd he (by simp), fun _ hp => hp⟩
  | cons e roles ih =>
    obtain ⟨role, rules⟩ := e
    rw [installAllRules_cons] at hrun
    rw [allRuleJobs_cons, List.map_append, List.nodup_append] at hnodup
    obtain ⟨hnd1, hnd2, hdisj⟩ := hnodup
    cases hr : installRulesForRole env "rules".toList (rulesTargetOf cursorDir role) role rules
      w with
    | mk r s =>
      rw [hr] at hrun
      cases r with
      | some e1 => exact absurd (congrArg Prod.fst hrun) (by simp)
      | none =>
        simp only at hrun
        obtain ⟨hmk, hwalk⟩ := installRulesForRole_none env _ _ role rules w s hr
        obtain ⟨mf, -, ms, md⟩ := mkdirAll_effect env (rulesTargetOf cursorDir role) w
        have mdone := mkdirAll_none env (rulesTargetOf cursorDir role) w hmk
        generalize (mkdirAll env (rulesTargetOf cursorDir role) w).2 = w1
          at hwalk mf ms md mdone
        obtain ⟨h1, h2, h3, h4⟩ := rules_first_run env (rulesTargetOf cursorDir role) role rules
          (env.walk "rules".toList) ⟨0, w1⟩ s hwalk (by rw [ms]; exact hno) hnd1
        obtain ⟨g1, g2, g3, g4, g5⟩ := ih (total + s.count) s.world hrun h3 hnd2
        rw [allRuleJobs_cons]
        refine ⟨?_, ?_, g3, ?_, ?_⟩
        · intro j hj
          rcases List.mem_append.mp hj with hj | hj
          · refine (h1 j hj).of_files (g2 _ ?_)
            intro hmem
            exact hdisj (List.mem_map_of_mem _ hj) hmem
          · exact g1 j hj
        · intro q hq
          rw [List.map_append, List.mem_append, not_or] at hq
          rw [g2 q hq.2, h2 q hq.1, mf]
        · intro x hx
          rcases List.mem_cons.mp hx with rfl | hx
          · apply g5
            rw [h4]
            exact mdone
          · exact g4 x hx
        · intro p hp
          apply g5
          rw [h4]
          exact md p hp

theorem allRules_second_run (env : Env) (cursorDir : Str) (roles : GoMap (List Str))
    (total : Nat) (w : World)
    (hset : ∀ j ∈ allRuleJobs env cursorDir roles, Settled env w j)
    (hdirs : ∀ e ∈ roles, w.dirs (rulesTargetOf cursorDir e.1) = true) :
    installAllRules env cursorDir roles total w = (none, total, w) := by
  induction roles generalizing total with
  | nil => rw [installAllRules]
  | cons e roles ih =>
    obtain ⟨role, rules⟩ := e
    rw [allRuleJobs_cons] at hset
    have hex := mkdirAll_exists env (rulesTargetOf cursorDir role) w
      (hdirs _ (List.mem_cons_self _ _))
    have hr : installRulesForRole env "rules".toList (rulesTargetOf cursorDir role) role rules w =
        (none, ⟨0, w⟩) := by
      rw [installRulesForRole_made env _ _ role rules w (by rw [hex]), hex]
      exact rules_second_run env _ role rules _ ⟨0, w⟩
        (fun j hj => hset j (List.mem_append_left _ hj))
    rw [installAllRules_cons, hr]
    exact ih total (fun j hj => hset j (List.mem_append_right _ hj))
      (fun x hx => hdirs x (List.mem_cons_of_mem _ hx))

/-! ## Two runs of the install command -/

theorem runInstall_dir (env : Env) (args : List Str) (base : Str) (w : World)
    (h : parseInstallArgs env args = .dir base)
    (hmk : (mkdirAll env
      (filepathJoin (filepathJoin base ".cursor".toList) "commands".toList) w).1 = none) :
    runInstall env args w =
      match installCommands env "commands".toList
          (filepathJoin (filepathJoin base ".cursor".toList) "commands".toList)
          (((mkdirAll env (filepathJoin (filepathJoin base ".cursor".toList)
            "commands".toList) w).2.print
              (installHeader (filepathJoin base ".cursor".toList))).println []) with
      | (some e, s) =>
        ⟨1, s.count, 0, s.world.print ("Error installing commands: ".toList ++ e.msg ++ ['\n'])⟩
      | (none, s) =>
        match installAllRules env (filepathJoin base ".cursor".toList)
            (env.rangeOrder s.roleRulesMap) 0 s.world with
        | (some (role, e), total, w) =>
          ⟨1, s.count, total, w.print ("Error installing rules for role ".toList ++ role ++
            ": ".toList ++ e.msg ++ ['\n'])⟩
        | (none, total, w) =>
          ⟨0, s.count, total,
            (w.println []).print
              (installSummary s.count total (filepathJoin base ".cursor".toList))⟩ := by
  unfold runInstall
  rw [h]
  simp only []
  cases hr : mkdirAll env
    (filepathJoin (filepathJoin base ".cursor".toList) "commands".toList) w with
  | mk r w1 =>
    rw [hr] at hmk
    simp only at hmk
    rw [hmk]

theorem runInstall_mkdir_fails (env : Env) (args : List Str) (base : Str) (w : World) (e : Err)
    (h : parseInstallArgs env args = .dir base)
    (hmk : (mkdirAll env
      (filepathJoin (filepathJoin base ".cursor".toList) "commands".toList) w).1 = some e) :
    (runInstall env args w).exit = 1 := by
  unfold runInstall
  rw [h]
  simp only []
  cases hr : mkdirAll env
    (filepathJoin (filepathJoin base ".cursor".toList) "commands".toList) w with
  | mk r w1 =>
    rw [hr] at hmk
    simp only at hmk
    rw [hmk]

theorem extract_congr (env1 env2 : Env) (hdata : env2.data = env1.data) (path : Str) :
    extractRulesFromCommand env2 path = extractRulesFromCommand env1 path := by
  unfold extractRulesFromCommand
  rw [hdata]

theorem settled_congr (env1 env2 : Env) (hdata : env2.data = env1.data) (w : World)
    (job : Str × Str) (h : Settled env1 w job) : Settled env2 w job := by
  unfold Settled filesAreDifferent fileHashEmbedded at *
  rw [hdata]
  exact h

theorem goodCommands_congr (env1 env2 : Env) (hdata : env2.data = env1.data) (sourceDir : Str)
    (ds : List DirEntry) (h : GoodCommands env1 sourceDir ds) :
    GoodCommands env2 sourceDir ds := by
  intro d hd hdir hext
  obtain ⟨rules, relPath, h1, h2⟩ := h d hd hdir hext
  exact ⟨rules, relPath, by rw [extract_congr env1 env2 hdata, h1], h2⟩

theorem collectRoles_congr (env1 env2 : Env) (hdata : env2.data = env1.data)
    (ds : List DirEntry) (m : GoMap (List Str)) :
    collectRoles env2 ds m = collectRoles env1 ds m := by
  induction ds generalizing m with
  | nil => rfl
  | cons d ds ih =>
    rw [collectRoles, collectRoles, extract_congr env1 env2 hdata]
    by_cases hd : d.isDir = true
    · rw [if_pos hd, if_pos hd]
      exact ih m
    · rw [if_neg hd, if_neg hd]
      by_cases hx : filepathExt d.path ≠ ['.', 'm', 'd']
      · rw [if_pos hx, if_pos hx]
        exact ih m
      · rw [if_neg hx, if_neg hx]
        cases extractRulesFromCommand env1 d.path with
        | error e => rfl
        | ok rules => exact ih _

theorem mem_allRuleJobs (env : Env) (cursorDir : Str) (roles : GoMap (List Str))
    (j : Str × Str) :
    j ∈ allRuleJobs env cursorDir roles ↔
      ∃ e ∈ roles, j ∈ ruleJobs (rulesTargetOf cursorDir e.1) e.2 (env.walk "rules".toList) := by
  unfold allRuleJobs
  rw [List.mem_flatMap]

/-- The state of the destination after a first run that completed: every job of the
run is settled and every directory of the run exists. -/
theorem first_run_settles (env : Env) (args : List Str) (base : Str) (w : World)
    (hparse : parseInstallArgs env args = .dir base)
    (hok : (runInstall env args w).exit = 0)
    (hchoices : NoSkipNoMerge w.stdin)
    (hdistinct : ((installJobs env (filepathJoin base ".cursor".toList)).map Prod.snd).Nodup) :
    (∀ j ∈ installJobs env (filepathJoin base ".cursor".toList),
      Settled env (runInstall env args w).world j) ∧
    GoodCommands env "commands".toList (env.walk "commands".toList) ∧
    DirsReady env (filepathJoin base ".cursor".toList) (runInstall env args w).world := by
  cases hmk : (mkdirAll env
    (filepathJoin (filepathJoin base ".cursor".toList) "commands".toList) w).1 with
  | some e =>
    rw [runInstall_mkdir_fails env args base w e hparse hmk] at hok
    exact absurd hok (by decide)
  | none =>
  rw [runInstall_dir env args base w hparse hmk] at hok ⊢
  obtain ⟨-, -, ms, md⟩ := mkdirAll_effect env
    (filepathJoin (filepathJoin base ".cursor".toList) "commands".toList) w
  have mdone := mkdirAll_none env
    (filepathJoin (filepathJoin base ".cursor".toList) "commands".toList) w hmk
  generalize (mkdirAll env
    (filepathJoin (filepathJoin base ".cursor".toList) "commands".toList) w).2 = w0
    at hok ms md mdone ⊢
  unfold installJobs at hdistinct ⊢
  unfold DirsReady
  rw [List.map_append, List.nodup_append] at hdistinct
  obtain ⟨hnd1, hnd2, hdisj⟩ := hdistinct
  cases hc : installCommands env "commands".toList
      (filepathJoin (filepathJoin base ".cursor".toList) "commands".toList)
      ((w0.print (installHeader (filepathJoin base ".cursor".toList))).println []) with
  | mk r s =>
    rw [hc] at hok
    cases r with
    | some e => exact absurd hok (by simp)
    | none =>
      simp only at hok ⊢
      unfold installCommands at hc
      obtain ⟨c1, c2, c3, c4, c5, c6, c7⟩ := commands_first_run env _ _ _ _ s hc
        (by simpa [ms] using hchoices) hnd1
      rw [← c4] at hnd2 hdisj ⊢
      cases hr : installAllRules env (filepathJoin base ".cursor".toList)
          (env.rangeOrder s.roleRulesMap) 0 s.world with
      | mk r2 rest =>
        obtain ⟨total, w2⟩ := rest
        rw [hr] at hok
        cases r2 with
        | some e =>
          obtain ⟨role, e1⟩ := e
          exact absurd hok (by simp)
        | none =>
          simp only
          obtain ⟨g1, g2, -, g4, g5⟩ := allRules_first_run env _ _ 0 total s.world w2 hr
            c3 hnd2
          refine ⟨?_, c5, ?_, ?_, ?_⟩
          · intro j hj
            rcases List.mem_append.mp hj with hj | hj
            · refine (c1 j hj).of_files ?_
              simp only [print_files, println_files]
              exact g2 _ (fun hmem => hdisj (List.mem_map_of_mem _ hj) hmem)
            · exact (g1 j hj).of_files (by simp)
          · simp only [print_dirs, println_dirs]
            exact g5 _ (c7 _ (by simpa using mdone))
          · intro j hj
            simp only [print_dirs, println_dirs]
            exact g5 _ (c6 j hj)
          · intro e he
            simp only [print_dirs, println_dirs]
            exact g4 e he

/-- A run on a destination where every job is settled and every directory exists:
nothing is copied, nothing is read from the input, and only the two frame lines are
printed. -/
theorem settled_run (env : Env) (args : List Str) (base : Str) (w : World)
    (hparse : parseInstallArgs env args = .dir base)
    (hgood : GoodCommands env "commands".toList (env.walk "commands".toList))
    (hset : ∀ j ∈ installJobs env (filepathJoin base ".cursor".toList), Settled env w j)
    (hdirs : DirsReady env (filepathJoin base ".cursor".toList) w) :
    (runInstall env args w).exit = 0 ∧
    (runInstall env args w).commandsCount = 0 ∧
    (runInstall env args w).totalRulesCount = 0 ∧
    (runInstall env args w).world.files = w.files ∧
    (runInstall env args w).world.stdin = w.stdin ∧
    (runInstall env args w).world.out = w.out ++
      [installHeader (filepathJoin base ".cursor".toList), ['\n'], ['\n'],
        installSummary 0 0 (filepathJoin base ".cursor".toList)] := by
  obtain ⟨hd1, hd2, hd3⟩ := hdirs
  have hex := mkdirAll_exists env _ w hd1
  rw [runInstall_dir env args base w hparse (by rw [hex]), hex]
  unfold installJobs at hset
  have hc : installCommands env "commands".toList
      (filepathJoin (filepathJoin base ".cursor".toList) "commands".toList)
      ((w.print (installHeader (filepathJoin base ".cursor".toList))).println []) =
      (none, ⟨collectRoles env (env.walk "commands".toList) [], 0,
        (w.print (installHeader (filepathJoin base ".cursor".toList))).println []⟩) := by
    unfold installCommands
    exact commands_second_run env _ _ _ _ hgood
      (fun j hj => (hset j (List.mem_append_left _ hj)).of_files (by simp))
      (fun j hj => by simpa using hd2 j hj)
  rw [hc]
  simp only
  rw [allRules_second_run env _ _ 0 _
    (fun j hj => (hset j (List.mem_append_right _ hj)).of_files (by simp))
    (fun e he => by simpa using hd3 e he)]
  simp only [print_files, println_files, print_stdin, println_stdin, print_out, println_out,
    List.append_assoc, List.nil_append, List.singleton_append, List.cons_append]
  exact ⟨trivial, trivial, trivial, trivial, trivial, trivial⟩

/-! ## The resolver in terms of the answers it reads -/

theorem conflictPrompt_out_eq (src dst : Str) (w : World) :
    (conflictPrompt src dst w).out = w.out ++ promptLines src dst := by
  simp only [conflictPrompt, promptLines, print_out, println_out, List.append_assoc,
    List.singleton_append, List.cons_append, List.nil_append]
  rfl

theorem mergeAnnounce_out_eq (editor src dst : Str) (w : World) :
    (mergeAnnounce editor src dst w).out = w.out ++ mergeLines editor src dst := by
  simp only [mergeAnnounce, mergeLines, print_out, List.append_assoc, List.singleton_append,
    List.cons_append, List.nil_append]

/-- The reader of a call reaches the read that holds the first line feed: the call is
the call on the input that starts with that read. -/
theorem answersOf_read (stdin : List Str) (acc a : Str) (more : List Str)
    (h : answersOf stdin acc = a :: more) :
    ∃ chunk rest acc1, chunk.contains '\n' = true ∧ answerOf acc1 chunk = a ∧
      answersOf rest [] = more ∧
      ∀ (env : Env) (src dst : Str) (w : World),
        handleFileConflictFrom env src dst stdin acc w =
          handleFileConflictFrom env src dst (chunk :: rest) acc1 w := by
  induction stdin generalizing acc with
  | nil =>
    rw [answersOf] at h
    exact absurd h (by simp)
  | cons chunk rest ih =>
    cases hnl : chunk.contains '\n' with
    | false =>
      rw [answersOf_cons_pending chunk acc rest hnl] at h
      obtain ⟨c, r, acc1, h1, h2, h3, h4⟩ := ih (acc ++ chunk) h
      refine ⟨c, r, acc1, h1, h2, h3, fun env src dst w => ?_⟩
      rw [handleFileConflictFrom_pending env src dst chunk acc rest w hnl]
      exact h4 env src dst w
    | true =>
      rw [answersOf_cons_line chunk acc rest hnl] at h
      simp only [List.cons.injEq] at h
      exact ⟨chunk, rest, acc, hnl, h.1, h.2, fun _ _ _ _ => rfl⟩

/-- A call of the resolver whose input holds no complete answer fails at the end of the
input. -/
theorem handleFileConflictFrom_no_answer (env : Env) (src dst : Str) (stdin : List Str)
    (acc : Str) (w : World) (h : answersOf stdin acc = []) :
    handleFileConflictFrom env src dst stdin acc w = (some .readInput, w.consume []) := by
  induction stdin generalizing acc with
  | nil => rw [handleFileConflictFrom_nil]
  | cons chunk rest ih =>
    cases hnl : chunk.contains '\n' with
    | false =>
      rw [answersOf_cons_pending chunk acc rest hnl] at h
      rw [handleFileConflictFrom_pending env src dst chunk acc rest w hnl]
      exact ih (acc ++ chunk) h
    | true =>
      rw [answersOf_cons_line chunk acc rest hnl] at h
      exact absurd h (by simp)

theorem handleFileConflict_skip_answer (env : Env) (src dst t : Str) (more : List Str)
    (w : World) (hans : answersOf w.stdin [] = t :: more) (ht : IsSkipChoice t) :
    ∃ rest, answersOf rest [] = more ∧
      handleFileConflict env src dst w =
        (some .skipped, ((conflictPrompt src dst w).consume rest).println "  → Skipped".toList)
      := by
  obtain ⟨chunk, rest, acc1, hnl, ha, hm, he⟩ := answersOf_read w.stdin [] t more hans
  refine ⟨rest, hm, ?_⟩
  unfold handleFileConflict
  rw [he, handleFileConflictFrom_skip env src dst chunk acc1 rest _ hnl (by rw [ha]; exact ht)]

theorem handleFileConflict_overwrite_answer (env : Env) (src dst t : Str) (more : List Str)
    (w : World) (hans : answersOf w.stdin [] = t :: more) (ht : IsOverwriteChoice t) :
    ∃ rest, answersOf rest [] = more ∧
      handleFileConflict env src dst w =
        match copyFile env src dst ((conflictPrompt src dst w).consume rest) with
        | (some e, w) => (some e, w)
        | (none, w) => (none, w.println "  → Overwritten".toList) := by
  obtain ⟨chunk, rest, acc1, hnl, ha, hm, he⟩ := answersOf_read w.stdin [] t more hans
  refine ⟨rest, hm, ?_⟩
  unfold handleFileConflict
  rw [he, handleFileConflictFrom_overwrite env src dst chunk acc1 rest _ hnl
    (by rw [ha]; exact ht)]

theorem handleFileConflict_merge_answer (env : Env) (src dst t : Str) (more : List Str)
    (w : World) (hans : answersOf w.stdin [] = t :: more) (ht : IsMergeChoice t) :
    ∃ rest, answersOf rest [] = more ∧
      handleFileConflict env src dst w =
        match openForMerge env src dst ((conflictPrompt src dst w).consume rest) with
        | (some e, w) =>
          (some e, w.print ("  ⚠️  Error opening for merge: ".toList ++ e.msg ++ ['\n']))
        | (none, w) => (none, w.println "  → Opened for manual merge".toList) := by
  obtain ⟨chunk, rest, acc1, hnl, ha, hm, he⟩ := answersOf_read w.stdin [] t more hans
  refine ⟨rest, hm, ?_⟩
  unfold handleFileConflict
  rw [he, handleFileConflictFrom_merge env src dst chunk acc1 rest _ hnl
    (by rw [ha]; exact ht)]

/-- After a diff request or an invalid answer the call is a new call of the resolver, in
a world with the same files and directories, the answers that follow, and an output
that has grown by the prompt and what the answer made the program print. -/
theorem handleFileConflict_step (env : Env) (src dst c : Str) (more : List Str)
    (w : World) (hans : answersOf w.stdin [] = c :: more) (hc : IsNonTerminalChoice c) :
    ∃ w2 : World, w2.files = w.files ∧ w2.dirs = w.dirs ∧ answersOf w2.stdin [] = more ∧
      (∃ printed, w2.out = w.out ++ promptLines src dst ++ printed) ∧
      handleFileConflict env src dst w = handleFileConflict env src dst w2 := by
  obtain ⟨chunk, rest, acc1, hnl, ha, hm, he⟩ := answersOf_read w.stdin [] c more hans
  obtain ⟨w2, ⟨hf, hs, hd, pr, ho⟩, h2⟩ := handleFileConflictFrom_nonTerminal env src dst chunk
    acc1 rest (conflictPrompt src dst w) hnl (by rw [ha]; exact hc)
  refine ⟨w2, by rw [hf]; simp, by rw [hd]; simp, by rw [hs]; exact hm, ⟨pr, ?_⟩, ?_⟩
  · rw [ho, consume_out, conflictPrompt_out_eq]
  · rw [← h2, ← he]
    rfl

/-- Diff requests and invalid answers before another answer: the call is a call of the
resolver in a world with the same files, where that other answer is the next one. -/
theorem handleFileConflict_pre (env : Env) (src dst : Str) (pre tail : List Str) (w : World)
    (hans : answersOf w.stdin [] = pre ++ tail) (hpre : ∀ c ∈ pre, IsNonTerminalChoice c) :
    ∃ w1 : World, w1.files = w.files ∧ w1.dirs = w.dirs ∧ answersOf w1.stdin [] = tail ∧
      (∃ printed, w1.out = w.out ++ printed) ∧
      handleFileConflict env src dst w = handleFileConflict env src dst w1 := by
  induction pre generalizing w with
  | nil => exact ⟨w, rfl, rfl, hans, ⟨[], by simp⟩, rfl⟩
  | cons c pre ih =>
    obtain ⟨w2, hf2, hd2, ha2, ⟨p2, ho2⟩, he2⟩ := handleFileConflict_step env src dst c
      (pre ++ tail) w hans (hpre c (List.mem_cons_self _ _))
    obtain ⟨w1, hf1, hd1, ha1, ⟨p1, ho1⟩, he1⟩ :=
      ih w2 ha2 (fun x hx => hpre x (List.mem_cons_of_mem _ hx))
    exact ⟨w1, hf1.trans hf2, hd1.trans hd2, ha1,
      ⟨promptLines src dst ++ p2 ++ p1, by rw [ho1, ho2]; simp⟩, he2.trans he1⟩

theorem openForMerge_out (env : Env) (src dst : Str) (w : World) :
    (openForMerge env src dst w).2.out = w.out ++ mergeLines (editorName env) src dst := by
  have h := mergeAnnounce_out_eq (editorName env) src dst w
  unfold openForMerge
  simp only []
  split <;> exact h

/-- What a call of the resolver prints, in every case: the prompt first. -/
theorem handleFileConflict_out (env : Env) (src dst : Str) (w : World) :
    ∃ more, (handleFileConflict env src dst w).2.out = w.out ++ promptLines src dst ++ more := by
  unfold handleFileConflict
  obtain ⟨-, ⟨more, ho⟩, -, -⟩ :=
    handleFileConflictFrom_effect env src dst w.stdin [] (conflictPrompt src dst w)
  exact ⟨more, by rw [ho, conflictPrompt_out_eq]⟩

/-! ## A rule walk on a destination without the files, and a rule walk that fails -/

theorem copyable_iff (env : Env) (job : Str × Str) :
    copyable env job = true ↔
      ∃ content, env.data job.1 = some content ∧ env.writeFault job.2 content = none := by
  unfold copyable
  cases env.data job.1 with
  | none => simp
  | some c => simp

/-- The callback of `installRulesForRole` on a selected document whose destination does
not exist and can be written. -/
theorem installRulesVisit_fresh (env : Env) (targetDir role : Str) (ruleNames : List Str)
    (s : RulesState) (d : DirEntry) (content : Str) (hsel : isSelectedRule ruleNames d = true)
    (habsent : s.world.files (filepathJoin targetDir (fileName d.path)) = none)
    (hnodir : s.world.dirs (filepathJoin targetDir (fileName d.path)) = false)
    (hdata : env.data d.path = some content)
    (hfault : env.writeFault (filepathJoin targetDir (fileName d.path)) content = none) :
    installRulesVisit env targetDir role (buildRuleMap ruleNames) s d =
      (none, ⟨s.count + 1,
        (s.world.write (filepathJoin targetDir (fileName d.path)) content).print
          (installedRuleLine role d.path)⟩) := by
  rw [installRulesVisit_selected env targetDir role ruleNames s d hsel,
    copyFileWithConflictHandling_absent env _ _ _ habsent hnodir,
    copyFile_ok env _ _ content _ hdata hfault]
  rfl

/-- The call `os.MkdirAll` does not make a directory of a path longer than its own. -/
theorem mkdirAll_dirs_longer (env : Env) (path p : Str) (w : World)
    (h : path.length < p.length) : (mkdirAll env path w).2.dirs p = w.dirs p := by
  unfold mkdirAll
  by_cases hd : w.dirs path = true
  · rw [if_pos hd]
  · rw [if_neg hd]
    by_cases hk : env.mkdirAllOk path = true
    · rw [if_pos hk]
      have h1 : decide (p = path) = false := by
        simp only [decide_eq_false_iff_not]
        intro heq
        rw [heq] at h
        exact Nat.lt_irrefl _ h
      have h2 : hasPrefix path (p ++ ['/']) = false := by
        unfold hasPrefix
        cases hp : (p ++ ['/']).isPrefixOf path with
        | false => rfl
        | true =>
          have hle := (List.isPrefixOf_iff_prefix.mp hp).length_le
          simp only [List.length_append, List.length_singleton] at hle
          omega
      simp only [h1, h2, Bool.false_or]
    · rw [if_neg hk]

theorem filepathJoin_longer (dir name : Str) : dir.length < (filepathJoin dir name).length := by
  unfold filepathJoin
  simp only [List.length_append, List.length_cons]
  omega

theorem rules_fresh_run (env : Env) (targetDir role : Str) (ruleNames : List Str)
    (ds : List DirEntry) (s : RulesState)
    (hnodup : ((ruleJobs targetDir ruleNames ds).map Prod.snd).Nodup)
    (habsent : ∀ j ∈ ruleJobs targetDir ruleNames ds,
      s.world.files j.2 = none ∧ s.world.dirs j.2 = false)
    (hcopy : ∀ j ∈ ruleJobs targetDir ruleNames ds, copyable env j = true) :
    ∃ s2, walkDir (installRulesVisit env targetDir role (buildRuleMap ruleNames)) ds s =
        (none, s2) ∧
      s2.count = s.count + (ruleJobs targetDir ruleNames ds).length ∧
      (∀ j ∈ ruleJobs targetDir ruleNames ds, s2.world.files j.2 = env.data j.1) ∧
      (∀ q, q ∉ (ruleJobs targetDir ruleNames ds).map Prod.snd →
        s2.world.files q = s.world.files q) ∧
      s2.world.stdin = s.world.stdin ∧
      s2.world.out = s.world.out ++
        (ds.filter (isSelectedRule ruleNames)).map (fun d => installedRuleLine role d.path) := by
  induction ds generalizing s with
  | nil =>
    exact ⟨s, rfl, rfl, fun j hj => absurd hj (by simp [ruleJobs]), fun _ _ => rfl, rfl,
      by simp⟩
  | cons d ds ih =>
    cases hsel : isSelectedRule ruleNames d with
    | false =>
      rw [ruleJobs_cons_unselected targetDir ruleNames d ds hsel] at hnodup habsent hcopy ⊢
      rw [walkDir_cons_ok _ d ds s s
        (installRulesVisit_unselected env targetDir role ruleNames s d hsel),
        List.filter_cons_of_neg (by simp [hsel])]
      exact ih s hnodup habsent hcopy
    | true =>
      rw [ruleJobs_cons_selected targetDir ruleNames d ds hsel] at hnodup habsent hcopy ⊢
      rw [List.map_cons, List.nodup_cons] at hnodup
      obtain ⟨content, hdata, hfault⟩ :=
        (copyable_iff env _).mp (hcopy _ (List.mem_cons_self _ _))
      have hv := installRulesVisit_fresh env targetDir role ruleNames s d content hsel
        (habsent _ (List.mem_cons_self _ _)).1 (habsent _ (List.mem_cons_self _ _)).2 hdata
        hfault
      rw [walkDir_cons_ok _ d ds s _ hv, List.filter_cons_of_pos hsel]
      obtain ⟨s2, h1, h2, h3, h4, h5, h6⟩ := ih
        ⟨s.count + 1, (s.world.write (filepathJoin targetDir (fileName d.path)) content).print
          (installedRuleLine role d.path)⟩ hnodup.2
        (fun j hj => by
          have hne : j.2 ≠ filepathJoin targetDir (fileName d.path) := by
            intro heq
            have hmem := List.mem_map_of_mem Prod.snd hj
            rw [heq] at hmem
            exact hnodup.1 hmem
          simp only [print_files, print_dirs, write_dirs]
          rw [write_files_other _ _ _ _ hne]
          exact habsent j (List.mem_cons_of_mem _ hj))
        (fun j hj => hcopy j (List.mem_cons_of_mem _ hj))
      refine ⟨s2, h1, ?_, ?_, ?_, ?_, ?_⟩
      · rw [h2, List.length_cons]
        simp only []
        omega
      · intro j hj
        rcases List.mem_cons.mp hj with rfl | hj
        · rw [h4 _ hnodup.1]
          simp only [print_files, write_files_same]
          exact hdata.symm
        · exact h3 j hj
      · intro q hq
        rw [List.map_cons, List.mem_cons, not_or] at hq
        rw [h4 q hq.2]
        simp only [print_files]
        exact write_files_other _ _ _ _ hq.1
      · rw [h5]
        rfl
      · rw [h6]
        simp

/-- A call of the callback of `installRulesForRole` that returns an error: the document
is selected, its resolution failed with an error other than `ErrSkipped`, and the error
returned is that error wrapped with the path of the document. -/
theorem installRulesVisit_error (env : Env) (targetDir role : Str) (ruleNames : List Str)
    (s s1 : RulesState) (d : DirEntry) (e : Err)
    (h : installRulesVisit env targetDir role (buildRuleMap ruleNames) s d = (some e, s1)) :
    isSelectedRule ruleNames d = true ∧
    ∃ e1, (copyFileWithConflictHandling env d.path (filepathJoin targetDir (fileName d.path))
        s.world).1 = some e1 ∧ e1 ≠ .skipped ∧ e = .copying d.path e1 ∧
      s1.count = s.count ∧
      s1.world = (copyFileWithConflictHandling env d.path
        (filepathJoin targetDir (fileName d.path)) s.world).2 := by
  cases hsel : isSelectedRule ruleNames d with
  | false =>
    rw [installRulesVisit_unselected env targetDir role ruleNames s d hsel] at h
    exact absurd (congrArg Prod.fst h) (by simp)
  | true =>
    refine ⟨rfl, ?_⟩
    rw [installRulesVisit_selected env targetDir role ruleNames s d hsel] at h
    cases hr : copyFileWithConflictHandling env d.path
      (filepathJoin targetDir (fileName d.path)) s.world with
    | mk r w1 =>
      rw [hr] at h
      cases r with
      | none => exact absurd (congrArg Prod.fst h) (by simp)
      | some e1 =>
        cases e1 with
        | skipped => exact absurd (congrArg Prod.fst h) (by simp)
        | _ =>
          simp only [Prod.mk.injEq, Option.some.injEq] at h
          refine ⟨_, rfl, by simp, h.1.symm, ?_, ?_⟩
          · rw [← h.2]
          · rw [← h.2]

/-! ## The count of the command walk -/

theorem fixture_data_single (path doc : Str) : (fixtureEnv [(path, doc)]).data path = some doc := by
  simp [fixtureEnv]

theorem lineText_replicate_a (n : Nat) :
    ∀ c ∈ lineText (List.replicate n 'a'), c = 'a' := by
  intro c hc
  exact List.eq_of_mem_replicate ((lineText_within _).subset hc)

theorem rulePattern_lineText_replicate_a (n : Nat) :
    rulePattern (lineText (List.replicate n 'a')) = none := by
  have h := lineText_replicate_a n
  cases hl : lineText (List.replicate n 'a') with
  | nil => rfl
  | cons c cs =>
    rw [hl] at h
    have hc : c ≠ '-' := by
      rw [h c (List.mem_cons_self _ _)]
      decide
    exact rulePattern_not_dash c cs hc

theorem isHeading_lineText_replicate_a (n : Nat) :
    isHeading (lineText (List.replicate n 'a')) = false := by
  have h := lineText_replicate_a n
  cases hl : lineText (List.replicate n 'a') with
  | nil => rfl
  | cons c cs =>
    rw [hl] at h
    have hc : ¬ ('#' = c) := by
      rw [h c (List.mem_cons_self _ _)]
      decide
    simp [isHeading, hasPrefix, List.isPrefixOf, hc]

/-- C1, as stated, fails: in the document made of the line `## Related Rules`, the list
item `- a` and a line of 65536 letters `a`, the marker line is followed by a section body
with one line that matches the list-item pattern and one that does not, and no heading;
yet `extractRulesFromCommand` returns the scanner error "token too long", not the
token `a`. -/
theorem C1_long_line_in_section_is_an_error :
    rawLines ("## Related Rules\n- a\n".toList ++ List.replicate 65536 'a') =
      ["## Related Rules".toList, "- a".toList, List.replicate 65536 'a'] ∧
    isMarker (lineText "## Related Rules".toList) = true ∧
    rulePattern (lineText "- a".toList) = some ['a'] ∧
    rulePattern (lineText (List.replicate 65536 'a')) = none ∧
    isHeading (lineText (List.replicate 65536 'a')) = false ∧
    extractRulesFromCommand
        (fixtureEnv [("commands/big.md".toList,
          "## Related Rules\n- a\n".toList ++ List.replicate 65536 'a')])
        "commands/big.md".toList = .error .tooLong := by
  have hlines : rawLines ("## Related Rules\n- a\n".toList ++ List.replicate 65536 'a') =
      ["## Related Rules".toList, "- a".toList, List.replicate 65536 'a'] := by
    have e : "## Related Rules\n- a\n".toList ++ List.replicate 65536 'a' =
        "## Related Rules".toList ++ '\n' :: ("- a".toList ++ '\n' :: List.replicate 65536 'a') := by
      rfl
    rw [e, rawLines_line_cons _ _ (by decide), rawLines_line_cons _ _ (by decide),
      rawLines_replicate_a 65535]
  refine ⟨hlines, by decide, by decide, rulePattern_lineText_replicate_a _,
    isHeading_lineText_replicate_a _, ?_⟩
  unfold extractRulesFromCommand
  rw [fixture_data_single]
  simp only [hlines]
  rw [scanRules_marker _ _ _ _ (by decide) (by decide),
    scanRules_item _ _ _ (by decide) (by decide) (by decide)]
  apply scanRules_tooLong
  rw [byteLen_replicate_a]
  decide

/-- C1, amended: when the lines up to the end of the section are shorter than the
scanner limit of 65536 bytes, the lines before the marker line do not contain the marker,
no line of the section body is a heading that ends the section, and the body is followed
by the end of the document or by such a heading, `extractRulesFromCommand` returns, with
no error, the token of every body line that matches the list-item pattern, without the
suffix `.mdc`, in document order; their number is the number of matching lines; and the
pattern of the code is the list-item pattern in words. -/
theorem C1_section_items_extracted (env : Env) (filePath doc : Str) (pre : List Str)
    (marker : Str) (body rest : List Str)
    (hdoc : env.data filePath = some doc)
    (hlines : rawLines doc = pre ++ marker :: (body ++ rest))
    (hpre : ∀ l ∈ pre, isMarker (lineText l) = false)
    (hmarker : isMarker (lineText marker) = true)
    (hbody : ∀ l ∈ body, isHeading (lineText l) = false ∨ isMarker (lineText l) = true)
    (hrest : ∀ h ∈ rest.head?, isHeading (lineText h) = true ∧ isMarker (lineText h) = false)
    (hshort : ∀ l ∈ pre ++ marker :: (body ++ rest.take 1), byteLen l < maxScanTokenSize) :
    extractRulesFromCommand env filePath =
        .ok (body.filterMap (fun l => rulePattern (lineText l))) ∧
      (body.filterMap (fun l => rulePattern (lineText l))).length =
        body.countP (fun l => (rulePattern (lineText l)).isSome) ∧
      ∀ l tok, rulePattern l = some tok ↔ ListItem l tok := by
  refine ⟨?_, length_filterMap_eq_countP _ _, rulePattern_iff⟩
  unfold extractRulesFromCommand
  rw [hdoc]
  simp only [hlines]
  rw [scanRules_outside pre _ _ (fun l hl => hshort l (by simp [hl])) hpre,
    scanRules_marker marker _ _ _ (hshort marker (by simp)) hmarker,
    scanRules_body body rest _ (fun l hl => hshort l (by simp [hl])) hbody]
  cases rest with
  | nil => rfl
  | cons h t =>
    obtain ⟨hh, hm⟩ := hrest h (by simp)
    rw [scanRules_stop h t _ (hshort h (by simp)) hm hh]
    rfl

/-- C1, the scenario of the specification: `## Related Rules`, `- style-guide`,
`- testing.mdc`, `## Other` yields `style-guide` and `testing`. -/
theorem C1_scenario_planner :
    extractRulesFromCommand
        (fixtureEnv [("commands/planner.md".toList,
          "## Related Rules\n- style-guide\n- testing.mdc\n## Other".toList)])
        "commands/planner.md".toList = .ok ["style-guide".toList, "testing".toList] :=
  (C1_section_items_extracted
    (fixtureEnv [("commands/planner.md".toList,
      "## Related Rules\n- style-guide\n- testing.mdc\n## Other".toList)])
    "commands/planner.md".toList
    "## Related Rules\n- style-guide\n- testing.mdc\n## Other".toList
    [] "## Related Rules".toList ["- style-guide".toList, "- testing.mdc".toList]
    ["## Other".toList]
    (by decide) (by decide) (by decide) (by decide) (by decide) (by decide) (by decide)).1.trans
    (by decide)

/-- C7, as stated, fails: after `## Related Rules` and `- a`, the next line that begins
with `##` is `## More related rules`; it contains the marker, so the scan goes on and
`- b` is extracted too, while the document cut before that heading yields `a` alone. -/
theorem C7_heading_with_marker_does_not_stop :
    isHeading (lineText "## More related rules".toList) = true ∧
    extractRulesFromCommand
        (fixtureEnv [("commands/full.md".toList,
            "## Related Rules\n- a\n## More related rules\n- b\n".toList),
          ("commands/cut.md".toList, "## Related Rules\n- a\n".toList)])
        "commands/full.md".toList = .ok [['a'], ['b']] ∧
    extractRulesFromCommand
        (fixtureEnv [("commands/full.md".toList,
            "## Related Rules\n- a\n## More related rules\n- b\n".toList),
          ("commands/cut.md".toList, "## Related Rules\n- a\n".toList)])
        "commands/cut.md".toList = .ok [['a']] := by
  decide

/-- C7, amended: once a line of the part `p` of a document has contained the marker, a
following line `h` that begins, after trimming, with `##`, does not itself contain the
marker and is shorter than the scanner limit, stops the scan: the extraction of the
whole document equals the extraction of the document cut just before that line. -/
theorem C7_heading_ends_section (env : Env) (full cut p h rest : Str)
    (hfull : env.data full = some (p ++ (h ++ rest)))
    (hcut : env.data cut = some p)
    (hp : p = [] ∨ p.getLast? = some '\n')
    (hline : '\n' ∉ h)
    (hrest : rest = [] ∨ rest.head? = some '\n')
    (hin : ∃ l ∈ rawLines p, isMarker (lineText l) = true)
    (hhead : isHeading (lineText h) = true)
    (hnomark : isMarker (lineText h) = false)
    (hshort : byteLen h < maxScanTokenSize) :
    extractRulesFromCommand env full = extractRulesFromCommand env cut := by
  unfold extractRulesFromCommand
  rw [hfull, hcut]
  simp only []
  have hne : h ≠ [] := by
    rintro rfl
    exact absurd hhead (by decide)
  have hsplit : ∃ b, rawLines (h ++ rest) = h :: b := by
    rcases hrest with rfl | hr
    · exact ⟨[], by rw [List.append_nil, rawLines_single h hne hline]⟩
    · cases rest with
      | nil => simp at hr
      | cons c cs =>
        simp only [List.head?_cons, Option.some.injEq] at hr
        subst hr
        exact ⟨rawLines cs, rawLines_line_cons h cs hline⟩
  obtain ⟨b, hb⟩ := hsplit
  rw [rawLines_append p _ hp, hb]
  exact scanRules_truncate _ h b false [] hshort hnomark hhead (Or.inr hin)

/-- C7, an instance: the document `## Related Rules`, `- a`, `## Other`, `- b` and the
same document cut before `## Other` have the same extraction. -/
theorem C7_instance_other :
    extractRulesFromCommand
        (fixtureEnv [("commands/full.md".toList,
            "## Related Rules\n- a\n## Other\n- b\n".toList),
          ("commands/cut.md".toList, "## Related Rules\n- a\n".toList)])
        "commands/full.md".toList =
      extractRulesFromCommand
        (fixtureEnv [("commands/full.md".toList,
            "## Related Rules\n- a\n## Other\n- b\n".toList),
          ("commands/cut.md".toList, "## Related Rules\n- a\n".toList)])
        "commands/cut.md".toList :=
  C7_heading_ends_section _ "commands/full.md".toList "commands/cut.md".toList
    "## Related Rules\n- a\n".toList "## Other".toList "\n- b\n".toList
    (by decide) (by decide) (by decide) (by decide) (by decide) (by decide) (by decide)
    (by decide) (by decide)

/-- C8, as stated, fails: no line of the document made of 65536 letters `a` contains the
marker, yet `extractRulesFromCommand` returns the scanner error "token too long". -/
theorem C8_long_line_is_an_error :
    (∀ l ∈ rawLines (List.replicate 65536 'a'), isMarker l = false) ∧
    extractRulesFromCommand
        (fixtureEnv [("commands/big.md".toList, List.replicate 65536 'a')])
        "commands/big.md".toList = .error .tooLong := by
  have hlines := rawLines_replicate_a 65535
  constructor
  · intro l hl
    rw [hlines] at hl
    rw [List.mem_singleton.mp hl]
    exact isMarker_replicate_a _
  · unfold extractRulesFromCommand
    rw [fixture_data_single]
    simp only [hlines]
    apply scanRules_tooLong
    rw [byteLen_replicate_a]
    decide

/-- C8, amended: for a command document whose lines are all shorter than the scanner
limit of 65536 bytes and none of which contains "related rules" in any letter case,
`extractRulesFromCommand` returns the empty sequence and no error. -/
theorem C8_no_marker_gives_empty (env : Env) (filePath doc : Str)
    (hdoc : env.data filePath = some doc)
    (hshort : ∀ l ∈ rawLines doc, byteLen l < maxScanTokenSize)
    (hno : ∀ l ∈ rawLines doc, isMarker l = false) :
    extractRulesFromCommand env filePath = .ok [] := by
  unfold extractRulesFromCommand
  rw [hdoc]
  simp only []
  have := scanRules_outside (rawLines doc) [] [] hshort
    (fun l hl => isMarker_lineText_false (hno l hl))
  rw [List.append_nil] at this
  rw [this]
  rfl

/-- C8, an instance: a document with list items and no marker yields nothing. -/
theorem C8_instance_no_marker :
    extractRulesFromCommand
        (fixtureEnv [("commands/plain.md".toList, "# Title\n- style-guide\n- testing.mdc\n".toList)])
        "commands/plain.md".toList = .ok [] :=
  C8_no_marker_gives_empty _ "commands/plain.md".toList
    "# Title\n- style-guide\n- testing.mdc\n".toList (by decide) (by decide) (by decide)

/-! ## The resolver: claim C2 -/

set_option maxRecDepth 100000 in
/-- C2, as stated, fails.  First, the user answers `o` for a destination that the file
system does not let the program create: `handleFileConflict` returns the error of
`os.Create`, not success, and the destination keeps the content `old`, not the content
of the source.  Second, the answers `d` and `o` arrive in one read (a pipe): the first
call takes the line `d` and the rest of that read stays in its reader; the call made
after the diff reads through a new reader, finds the end of the input and returns the
error "error reading input", so the terminal answer `o` is never carried out. -/
theorem C2_overwrite_refused_and_answers_in_one_read :
    (handleFileConflict
        (refusingEnv [("commands/a.md".toList, "new".toList)] ["/t/a.md".toList] [])
        "commands/a.md".toList "/t/a.md".toList
        ⟨fun p => if p = "/t/a.md".toList then some "old".toList else none,
          ["o\n".toList], [], fun _ => false⟩).1 = some (.create "/t/a.md".toList) ∧
    (handleFileConflict
        (refusingEnv [("commands/a.md".toList, "new".toList)] ["/t/a.md".toList] [])
        "commands/a.md".toList "/t/a.md".toList
        ⟨fun p => if p = "/t/a.md".toList then some "old".toList else none,
          ["o\n".toList], [], fun _ => false⟩).2.files "/t/a.md".toList = some "old".toList ∧
    (handleFileConflict (fixtureEnv [("commands/a.md".toList, "new".toList)])
        "commands/a.md".toList "/t/a.md".toList
        ⟨fun p => if p = "/t/a.md".toList then some "old".toList else none,
          ["d\no\n".toList], [], fun _ => false⟩).1 = some .readInput ∧
    (handleFileConflict (fixtureEnv [("commands/a.md".toList, "new".toList)])
        "commands/a.md".toList "/t/a.md".toList
        ⟨fun p => if p = "/t/a.md".toList then some "old".toList else none,
          ["d\no\n".toList], [], fun _ => false⟩).2.files "/t/a.md".toList =
      some "old".toList := by
  decide

/-- C2, amended: let the answers that the successive prompts of `handleFileConflict` read
from the input be any number of diff requests and invalid answers followed by a terminal
answer (each prompt reads through a reader of its own, up to the first line feed).  If
the terminal answer is skip, the call returns `ErrSkipped` and every destination file is
as it was.  If it is overwrite and the file system does not refuse the write, the call
returns no error, the destination holds the content of the source and every other file
is as it was; if the file system refuses the write, the call returns that error, which
is not `ErrSkipped`, and every other file is as it was.  In both cases the answers left
in the input are those after the terminal answer.  A diff request or an invalid answer
makes the function call itself, hence print the prompt again, in a world with the same
files and the answers that follow.  With no answer in the input the call returns the
error "error reading input" and every file is as it was. -/
theorem C2_resolver_skip_overwrite (env : Env) (src dst content : Str) (w : World)
    (pre : List Str) (t : Str) (more : List Str)
    (hsrc : env.data src = some content)
    (hanswers : answersOf w.stdin [] = pre ++ t :: more)
    (hpre : ∀ c ∈ pre, IsNonTerminalChoice c) :
    (IsSkipChoice t →
      (handleFileConflict env src dst w).1 = some .skipped ∧
      (handleFileConflict env src dst w).2.files = w.files ∧
      answersOf (handleFileConflict env src dst w).2.stdin [] = more) ∧
    (IsOverwriteChoice t → env.writeFault dst content = none →
      (handleFileConflict env src dst w).1 = none ∧
      (handleFileConflict env src dst w).2.files dst = some content ∧
      (∀ q, q ≠ dst → (handleFileConflict env src dst w).2.files q = w.files q) ∧
      answersOf (handleFileConflict env src dst w).2.stdin [] = more) ∧
    (IsOverwriteChoice t → env.writeFault dst content ≠ none →
      (handleFileConflict env src dst w).1 ≠ none ∧
      (handleFileConflict env src dst w).1 ≠ some .skipped ∧
      (∀ q, q ≠ dst → (handleFileConflict env src dst w).2.files q = w.files q) ∧
      answersOf (handleFileConflict env src dst w).2.stdin [] = more) ∧
    (∀ (c : Str) (more1 : List Str) (w1 : World), IsNonTerminalChoice c →
      answersOf w1.stdin [] = c :: more1 →
      ∃ w2 : World, w2.files = w1.files ∧ answersOf w2.stdin [] = more1 ∧
        (∃ printed, w2.out = w1.out ++ promptLines src dst ++ printed) ∧
        handleFileConflict env src dst w1 = handleFileConflict env src dst w2) ∧
    (∀ w1 : World, answersOf w1.stdin [] = [] →
      (handleFileConflict env src dst w1).1 = some .readInput ∧
      (handleFileConflict env src dst w1).2.files = w1.files) := by
  obtain ⟨w1, hf1, -, ha1, -, he1⟩ :=
    handleFileConflict_pre env src dst pre (t :: more) w hanswers hpre
  refine ⟨?_, ?_, ?_, ?_, ?_⟩
  · intro ht
    obtain ⟨rest, hm, he⟩ := handleFileConflict_skip_answer env src dst t more w1 ha1 ht
    rw [he1, he]
    exact ⟨rfl, by simp [hf1], hm⟩
  · intro ht hfault
    obtain ⟨rest, hm, he⟩ := handleFileConflict_overwrite_answer env src dst t more w1 ha1 ht
    rw [he1, he, copyFile_ok env src dst content _ hsrc hfault]
    refine ⟨rfl, by simp, ?_, hm⟩
    intro q hq
    simp [World.write, hq, hf1]
  · intro ht hfault
    obtain ⟨rest, hm, he⟩ := handleFileConflict_overwrite_answer env src dst t more w1 ha1 ht
    rw [he1, he]
    obtain ⟨f, hf⟩ := Option.ne_none_iff_exists'.mp hfault
    have hne := copyFile_fault env src dst content f ((conflictPrompt src dst w1).consume rest)
      hsrc hf
    have hns := copyFile_not_skipped env src dst ((conflictPrompt src dst w1).consume rest)
    obtain ⟨hfr, -, hst, -⟩ := copyFile_effect env src dst
      ((conflictPrompt src dst w1).consume rest)
    cases hr : copyFile env src dst ((conflictPrompt src dst w1).consume rest) with
    | mk r w2 =>
      rw [hr] at hne hns hfr hst
      cases r with
      | none => exact absurd rfl hne
      | some e =>
        refine ⟨by simp, hns, fun q hq => ?_, ?_⟩
        · simp only []
          rw [hfr q hq]
          simp [hf1]
        · simp only []
          rw [hst]
          exact hm
  · intro c more1 w0 hc hw0
    obtain ⟨w2, hf2, -, ha2, ho2, he2⟩ := handleFileConflict_step env src dst c more1 w0 hw0 hc
    exact ⟨w2, hf2, ha2, ho2, he2⟩
  · intro w0 hw0
    unfold handleFileConflict
    rw [handleFileConflictFrom_no_answer env src dst w0.stdin [] _ hw0]
    exact ⟨rfl, by simp⟩

set_option maxRecDepth 100000 in
/-- C2, two instances.  The user types `x`, `D` and ` Skip `, each with the return key:
the call returns `ErrSkipped` and the destination keeps the content `old`.  The user
types `d` and `o`, each with the return key: the call returns no error and the
destination holds the content `new` of the source. -/
theorem C2_instance_invalid_diff_skip :
    ((handleFileConflict (fixtureEnv [("commands/a.md".toList, "new".toList)])
        "commands/a.md".toList "/t/a.md".toList
        ⟨fun p => if p = "/t/a.md".toList then some "old".toList else none,
          ["x\n".toList, "D\n".toList, " Skip \n".toList], [], fun _ => false⟩).1 =
      some .skipped ∧
    (handleFileConflict (fixtureEnv [("commands/a.md".toList, "new".toList)])
        "commands/a.md".toList "/t/a.md".toList
        ⟨fun p => if p = "/t/a.md".toList then some "old".toList else none,
          ["x\n".toList, "D\n".toList, " Skip \n".toList], [], fun _ => false⟩).2.files
        "/t/a.md".toList = some "old".toList) ∧
    ((handleFileConflict (fixtureEnv [("commands/a.md".toList, "new".toList)])
        "commands/a.md".toList "/t/a.md".toList
        ⟨fun p => if p = "/t/a.md".toList then some "old".toList else none,
          ["d\n".toList, "o\n".toList], [], fun _ => false⟩).1 = none ∧
    (handleFileConflict (fixtureEnv [("commands/a.md".toList, "new".toList)])
        "commands/a.md".toList "/t/a.md".toList
        ⟨fun p => if p = "/t/a.md".toList then some "old".toList else none,
          ["d\n".toList, "o\n".toList], [], fun _ => false⟩).2.files
        "/t/a.md".toList = some "new".toList) :=
  have h := (C2_resolver_skip_overwrite (fixtureEnv [("commands/a.md".toList, "new".toList)])
    "commands/a.md".toList "/t/a.md".toList "new".toList
    ⟨fun p => if p = "/t/a.md".toList then some "old".toList else none,
      ["x\n".toList, "D\n".toList, " Skip \n".toList], [], fun _ => false⟩
    ["x\n".toList, "D\n".toList] " Skip \n".toList [] (by decide) (by decide)
    (by decide)).1 (by decide)
  have h2 := (C2_resolver_skip_overwrite (fixtureEnv [("commands/a.md".toList, "new".toList)])
    "commands/a.md".toList "/t/a.md".toList "new".toList
    ⟨fun p => if p = "/t/a.md".toList then some "old".toList else none,
      ["d\n".toList, "o\n".toList], [], fun _ => false⟩
    ["d\n".toList] "o\n".toList [] (by decide) (by decide)
    (by decide)).2.1 (by decide) (by decide)
  ⟨⟨h.1, by rw [h.2.1]; decide⟩, ⟨h2.1, h2.2.1⟩⟩

/-! ## Arguments of the install command: claim C9 -/

theorem not_home_of_dir {a : Str} (h : IsDirFlag a) : ¬ IsHomeFlag a := by
  rintro (h2 | h2) <;> rcases h with h | h <;> rw [h] at h2 <;> exact absurd h2 (by decide)

theorem parseLoop_cons_home (a : Str) (rest : List Str) (t : Str) (u : Bool)
    (h : IsHomeFlag a) : parseLoop (a :: rest) t u = parseLoop rest t true := by
  conv_lhs => rw [parseLoop.eq_def]
  simp only []
  rw [if_pos h]

theorem parseLoop_cons_other (a : Str) (rest : List Str) (t : Str) (u : Bool)
    (h1 : ¬ IsHomeFlag a) (h2 : ¬ IsDirFlag a) :
    parseLoop (a :: rest) t u = parseLoop rest t u := by
  conv_lhs => rw [parseLoop.eq_def]
  simp only []
  rw [if_neg h1, if_neg h2]

theorem parseLoop_cons_dir (a v : Str) (rest : List Str) (t : Str) (u : Bool)
    (h : IsDirFlag a) : parseLoop (a :: v :: rest) t u = parseLoop rest v u := by
  conv_lhs => rw [parseLoop.eq_def]
  simp only []
  rw [if_neg (not_home_of_dir h), if_pos h]

theorem parseLoop_last_dir (a : Str) (t : Str) (u : Bool) (h : IsDirFlag a) :
    parseLoop [a] t u = .error .dirRequiresPath := by
  conv_lhs => rw [parseLoop.eq_def]
  simp only []
  rw [if_neg (not_home_of_dir h), if_pos h]

theorem parseLoop_noDir (args : List Str) (t : Str) (u : Bool)
    (hno : ∀ a ∈ args, ¬ IsDirFlag a) :
    ∃ u2 : Bool, parseLoop args t u = .ok (t, u2) ∧
      (u2 = true ↔ u = true ∨ ∃ a ∈ args, IsHomeFlag a) := by
  induction args generalizing u with
  | nil => exact ⟨u, rfl, by simp⟩
  | cons a rest ih =>
    have hrest : ∀ x ∈ rest, ¬ IsDirFlag x := fun x hx => hno x (List.mem_cons_of_mem _ hx)
    by_cases hh : IsHomeFlag a
    · obtain ⟨u2, h1, h2⟩ := ih true hrest
      refine ⟨u2, by rw [parseLoop_cons_home a rest t u hh, h1], ?_⟩
      constructor
      · intro _
        exact Or.inr ⟨a, List.mem_cons_self _ _, hh⟩
      · intro _
        exact h2.mpr (Or.inl rfl)
    · obtain ⟨u2, h1, h2⟩ := ih u hrest
      refine ⟨u2, by rw [parseLoop_cons_other a rest t u hh (hno a (List.mem_cons_self _ _)), h1], ?_⟩
      rw [h2]
      constructor
      · rintro (h | ⟨x, hx, hxh⟩)
        · exact Or.inl h
        · exact Or.inr ⟨x, List.mem_cons_of_mem _ hx, hxh⟩
      · rintro (h | ⟨x, hx, hxh⟩)
        · exact Or.inl h
        · rcases List.mem_cons.mp hx with rfl | hx
          · exact absurd hxh hh
          · exact Or.inr ⟨x, hx, hxh⟩

theorem parseLoop_prefix (pre tail : List Str) (t : Str) (u : Bool)
    (hno : ∀ a ∈ pre, ¬ IsDirFlag a) :
    ∃ u2 : Bool, parseLoop (pre ++ tail) t u = parseLoop tail t u2 := by
  induction pre generalizing u with
  | nil => exact ⟨u, rfl⟩
  | cons a rest ih =>
    have hrest : ∀ x ∈ rest, ¬ IsDirFlag x := fun x hx => hno x (List.mem_cons_of_mem _ hx)
    by_cases hh : IsHomeFlag a
    · obtain ⟨u2, h1⟩ := ih true hrest
      exact ⟨u2, by rw [List.cons_append, parseLoop_cons_home a _ t u hh, h1]⟩
    · obtain ⟨u2, h1⟩ := ih u hrest
      exact ⟨u2, by rw [List.cons_append,
        parseLoop_cons_other a _ t u hh (hno a (List.mem_cons_self _ _)), h1]⟩

theorem any_isHelpFlag_false (args : List Str) (h : ∀ a ∈ args, isHelpFlag a = false) :
    args.any isHelpFlag = false := by
  rw [List.any_eq_false]
  intro a ha
  rw [h a ha]
  exact Bool.false_ne_true

/-- C9, as stated, fails on two argument lists without a help flag.  In `--dir -d` the
flag `-d` is present with no value after it, yet no usage error is returned: `-d` is
read as the value of `--dir`.  In `--dir "" --home` the flag `--dir` is followed by a
value, yet the home directory is returned, not that value made absolute. -/
theorem C9_dir_flag_as_value_and_empty_value :
    parseInstallArgs (fixtureEnv []) ["--dir".toList, "-d".toList] = .dir "/work/-d".toList ∧
    parseInstallArgs (fixtureEnv []) ["--dir".toList, [], "--home".toList] =
      .dir "/home/u".toList ∧
    (fixtureEnv []).abs [] = some "/work/".toList := by
  decide

/-- C9, amended: for every install argument list without a help flag in which `--dir` or
`-d` occurs at most once outside its own value: when the flag is followed by a non-empty
value, `parseInstallArgs` returns that value resolved to absolute, whether or not
`--home` or `-H` is present; when there is no such flag, it returns the home directory
if `--home` or `-H` occurs and the working directory otherwise; and when the flag is the
last argument, it returns the usage error (each directory when the system gives it). -/
theorem C9_target_directory (env : Env) :
    (∀ (pre post : List Str) (d v absPath : Str),
      (∀ a ∈ pre ++ d :: v :: post, isHelpFlag a = false) →
      (∀ a ∈ pre, ¬ IsDirFlag a) → (∀ a ∈ post, ¬ IsDirFlag a) → IsDirFlag d →
      v ≠ [] → env.abs v = some absPath →
      parseInstallArgs env (pre ++ d :: v :: post) = .dir absPath) ∧
    (∀ (args : List Str) (homeDir : Str),
      (∀ a ∈ args, isHelpFlag a = false) → (∀ a ∈ args, ¬ IsDirFlag a) →
      (∃ a ∈ args, IsHomeFlag a) → env.userHomeDir = some homeDir →
      parseInstallArgs env args = .dir homeDir) ∧
    (∀ (args : List Str) (cwd : Str),
      (∀ a ∈ args, isHelpFlag a = false) → (∀ a ∈ args, ¬ IsDirFlag a) →
      (∀ a ∈ args, ¬ IsHomeFlag a) → env.getwd = some cwd →
      parseInstallArgs env args = .dir cwd) ∧
    (∀ (pre : List Str) (d : Str),
      (∀ a ∈ pre ++ [d], isHelpFlag a = false) →
      (∀ a ∈ pre, ¬ IsDirFlag a) → IsDirFlag d →
      parseInstallArgs env (pre ++ [d]) = .fail .dirRequiresPath) := by
  refine ⟨?_, ?_, ?_, ?_⟩
  · intro pre post d v absPath hhelp hpre hpost hd hv habs
    unfold parseInstallArgs
    rw [any_isHelpFlag_false _ hhelp]
    obtain ⟨u1, h1⟩ := parseLoop_prefix pre (d :: v :: post) [] false hpre
    obtain ⟨u2, h2, -⟩ := parseLoop_noDir post v u1 hpost
    rw [h1, parseLoop_cons_dir d v post [] u1 hd, h2]
    simp only [Bool.false_eq_true, if_false]
    rw [if_pos hv, habs]
  · intro args homeDir hhelp hno hhome hdir
    unfold parseInstallArgs
    rw [any_isHelpFlag_false _ hhelp]
    obtain ⟨u2, h2, h3⟩ := parseLoop_noDir args [] false hno
    have hu : u2 = true := h3.mpr (Or.inr hhome)
    rw [h2, hu]
    simp [hdir]
  · intro args cwd hhelp hno hnohome hcwd
    unfold parseInstallArgs
    rw [any_isHelpFlag_false _ hhelp]
    obtain ⟨u2, h2, h3⟩ := parseLoop_noDir args [] false hno
    have hu : u2 = false := by
      cases u2 with
      | false => rfl
      | true =>
        rcases h3.mp rfl with h | ⟨a, ha, hah⟩
        · exact absurd h (by decide)
        · exact absurd hah (hnohome a ha)
    rw [h2, hu]
    simp [hcwd]
  · intro pre d hhelp hpre hd
    unfold parseInstallArgs
    rw [any_isHelpFlag_false _ hhelp]
    obtain ⟨u1, h1⟩ := parseLoop_prefix pre [d] [] false hpre
    rw [h1, parseLoop_last_dir d [] u1 hd]
    rfl

/-- C9, instances: `--home --dir conf` gives `/work/conf`, `-H` gives the home directory,
no argument gives the working directory, and `--home --dir` is a usage error. -/
theorem C9_instances :
    parseInstallArgs (fixtureEnv []) ["--home".toList, "--dir".toList, "conf".toList] =
      .dir "/work/conf".toList ∧
    parseInstallArgs (fixtureEnv []) ["-H".toList] = .dir "/home/u".toList ∧
    parseInstallArgs (fixtureEnv []) [] = .dir "/work".toList ∧
    parseInstallArgs (fixtureEnv []) ["--home".toList, "--dir".toList] =
      .fail .dirRequiresPath :=
  ⟨(C9_target_directory (fixtureEnv [])).1 ["--home".toList] [] "--dir".toList "conf".toList
      "/work/conf".toList (by decide) (by decide) (by decide) (by decide) (by decide)
      (by decide),
   (C9_target_directory (fixtureEnv [])).2.1 ["-H".toList] "/home/u".toList (by decide)
      (by decide) (by decide) rfl,
   (C9_target_directory (fixtureEnv [])).2.2.1 [] "/work".toList (by decide) (by decide)
      (by decide) rfl,
   (C9_target_directory (fixtureEnv [])).2.2.2 ["--home".toList] "--dir".toList (by decide)
      (by decide) (by decide)⟩

/-! ## The count of installed commands: claim C6 -/

set_option maxRecDepth 100000 in
/-- C10, as stated, fails.  First, when the destination of the only command document
exists with identical content, the walk completes without error and prints nothing at
all: the silent skip has no status line.  Second, when the destination holds another
content and the user answers `s`, the prompt, printed before the answer, names the
source and the destination, but the only line that the skip itself prints is "→ Skipped",
which names no path.  Third, the direct copy of a rule document prints one line, which
names the role and the identifier of the rule and contains neither the name of the rule
document nor its destination path. -/
theorem C10_silent_skip_and_lines_without_path :
    (installCommands (fixtureEnv [("commands/a.md".toList, "new".toList)])
        "commands".toList "/t".toList
        ⟨fun p => if p = "/t/a.md".toList then some "new".toList else none, [], [],
          fun p => decide (p = "/t".toList)⟩).1 = none ∧
    (installCommands (fixtureEnv [("commands/a.md".toList, "new".toList)])
        "commands".toList "/t".toList
        ⟨fun p => if p = "/t/a.md".toList then some "new".toList else none, [], [],
          fun p => decide (p = "/t".toList)⟩).2.world.out = [] ∧
    (installCommands (fixtureEnv [("commands/a.md".toList, "new".toList)])
        "commands".toList "/t".toList
        ⟨fun p => if p = "/t/a.md".toList then some "old".toList else none, ["s\n".toList], [],
          fun p => decide (p = "/t".toList)⟩).2.world.out =
      promptLines "commands/a.md".toList "/t/a.md".toList ++ ["  → Skipped\n".toList] ∧
    containsStr "  → Skipped\n".toList "a.md".toList = false ∧
    (installRulesForRole (fixtureEnv [("rules/style-guide.mdc".toList, "style".toList)])
        "rules".toList "/t/planner".toList "planner".toList ["style-guide".toList]
        ⟨fun _ => none, [], [], fun _ => false⟩).2.world.out =
      ["  ✓ Installed rule for planner: style-guide\n".toList] ∧
    containsStr "  ✓ Installed rule for planner: style-guide\n".toList
      "style-guide.mdc".toList = false ∧
    containsStr "  ✓ Installed rule for planner: style-guide\n".toList
      "/t/planner".toList = false := by
  decide

/-- C10, amended: what the resolution of a file prints.  A destination path where
nothing exists: the resolution itself prints nothing.  A destination that exists with identical
content: nothing is printed and `ErrSkipped` is returned.  A destination that exists
with different content: the prompt is printed first, whose first line contains the
destination path and whose next two lines name the source and the destination; when the
first answer is skip, the only other line is "→ Skipped"; when it is overwrite and the
write succeeds, "→ Overwritten"; when it is merge and the editor exits with success, the
three lines that announce the editor, which name the source and the destination, and
"→ Opened for manual merge".  After a resolution that returns no error the command walk
prints one more line, "✓ Installed command:" with the path of the document relative to
the source directory, and the rule walk prints one more line, "✓ Installed rule for"
with the role and the identifier of the rule; after `ErrSkipped` they print nothing.
So a direct copy, an overwrite and a merge are reported by a line that names the
relative path of a command or the identifier of a rule; a user skip is reported by a
line without a path, after a prompt that names the destination path; a silent skip is
not reported. -/
theorem C10_status_lines (env : Env) (sourceDir targetDir : Str) :
    (∀ (src dst : Str) (w : World), w.files dst = none → w.dirs dst = false →
      (copyFileWithConflictHandling env src dst w).2.out = w.out) ∧
    (∀ (src dst : Str) (w : World), (w.files dst).isSome = true →
      filesAreDifferent env w src dst = false →
      copyFileWithConflictHandling env src dst w = (some .skipped, w)) ∧
    (∀ (src dst : Str) (w : World), (w.files dst).isSome = true →
      filesAreDifferent env w src dst = true →
      (∃ more, (copyFileWithConflictHandling env src dst w).2.out =
        w.out ++ promptLines src dst ++ more) ∧
      ∀ (t : Str) (more : List Str), answersOf w.stdin [] = t :: more →
        (IsSkipChoice t →
          (copyFileWithConflictHandling env src dst w).1 = some .skipped ∧
          (copyFileWithConflictHandling env src dst w).2.out =
            w.out ++ promptLines src dst ++ ["  → Skipped\n".toList]) ∧
        (IsOverwriteChoice t → ∀ content, env.data src = some content →
          env.writeFault dst content = none →
          (copyFileWithConflictHandling env src dst w).1 = none ∧
          (copyFileWithConflictHandling env src dst w).2.out =
            w.out ++ promptLines src dst ++ ["  → Overwritten\n".toList]) ∧
        (IsMergeChoice t → (env.runEditor (editorName env) dst (w.files dst)).1 = true →
          (copyFileWithConflictHandling env src dst w).1 = none ∧
          (copyFileWithConflictHandling env src dst w).2.out =
            w.out ++ promptLines src dst ++ mergeLines (editorName env) src dst ++
              ["  → Opened for manual merge\n".toList])) ∧
    (∀ (s : CommandsState) (d : DirEntry) (relPath : Str) (rules : List Str),
      d.isDir = false → filepathExt d.path = ['.', 'm', 'd'] →
      extractRulesFromCommand env d.path = .ok rules →
      filepathRel sourceDir d.path = some relPath →
      (mkdirAll env (filepathDir (filepathJoin targetDir relPath)) s.world).1 = none →
      (mkdirAll env (filepathDir (filepathJoin targetDir relPath)) s.world).2.out =
        s.world.out ∧
      (mkdirAll env (filepathDir (filepathJoin targetDir relPath)) s.world).2.files =
        s.world.files ∧
      ((copyFileWithConflictHandling env d.path (filepathJoin targetDir relPath)
          (mkdirAll env (filepathDir (filepathJoin targetDir relPath)) s.world).2).1 = none →
        (installCommandsVisit env sourceDir targetDir s d).1 = none ∧
        (installCommandsVisit env sourceDir targetDir s d).2.world.out =
          (copyFileWithConflictHandling env d.path (filepathJoin targetDir relPath)
            (mkdirAll env (filepathDir (filepathJoin targetDir relPath)) s.world).2).2.out ++
            [installedCommandLine relPath]) ∧
      ((copyFileWithConflictHandling env d.path (filepathJoin targetDir relPath)
          (mkdirAll env (filepathDir (filepathJoin targetDir relPath)) s.world).2).1
          = some .skipped →
        (installCommandsVisit env sourceDir targetDir s d).1 = none ∧
        (installCommandsVisit env sourceDir targetDir s d).2.world.out =
          (copyFileWithConflictHandling env d.path (filepathJoin targetDir relPath)
            (mkdirAll env (filepathDir (filepathJoin targetDir relPath)) s.world).2).2.out)) ∧
    (∀ (role : Str) (ruleNames : List Str) (s : RulesState) (d : DirEntry),
      isSelectedRule ruleNames d = true →
      ((copyFileWithConflictHandling env d.path (filepathJoin targetDir (fileName d.path))
          s.world).1 = none →
        (installRulesVisit env targetDir role (buildRuleMap ruleNames) s d).1 = none ∧
        (installRulesVisit env targetDir role (buildRuleMap ruleNames) s d).2.world.out =
          (copyFileWithConflictHandling env d.path (filepathJoin targetDir (fileName d.path))
            s.world).2.out ++ [installedRuleLine role d.path]) ∧
      ((copyFileWithConflictHandling env d.path (filepathJoin targetDir (fileName d.path))
          s.world).1 = some .skipped →
        (installRulesVisit env targetDir role (buildRuleMap ruleNames) s d).1 = none ∧
        (installRulesVisit env targetDir role (buildRuleMap ruleNames) s d).2.world.out =
          (copyFileWithConflictHandling env d.path (filepathJoin targetDir (fileName d.path))
            s.world).2.out)) ∧
    (∀ (src dst : Str), dst <:+: (promptLines src dst).headD [] ∧
      src <:+: (promptLines src dst).getD 1 [] ∧ dst <:+: (promptLines src dst).getD 2 []) ∧
    (∀ relPath : Str, relPath <:+: installedCommandLine relPath) ∧
    (∀ role path : Str, role <:+: installedRuleLine role path ∧
      ruleId path <:+: installedRuleLine role path) := by
  refine ⟨?_, ?_, ?_, ?_, ?_, ?_, ?_, ?_⟩
  · intro src dst w habs hnodir
    rw [copyFileWithConflictHandling_absent env src dst w habs hnodir]
    exact (copyFile_effect env src dst w).2.1
  · intro src dst w hex hdiff
    exact copyFileWithConflictHandling_identical env src dst w hex hdiff
  · intro src dst w hex hdiff
    rw [copyFileWithConflictHandling_conflict env src dst w hex hdiff]
    refine ⟨handleFileConflict_out env src dst w, fun t more hans => ⟨?_, ?_, ?_⟩⟩
    · intro ht
      obtain ⟨rest, -, he⟩ := handleFileConflict_skip_answer env src dst t more w hans ht
      rw [he]
      refine ⟨rfl, ?_⟩
      simp only [println_out, consume_out]
      rw [conflictPrompt_out_eq]
      rfl
    · intro ht content hdata hfault
      obtain ⟨rest, -, he⟩ := handleFileConflict_overwrite_answer env src dst t more w hans ht
      rw [he, copyFile_ok env src dst content _ hdata hfault]
      refine ⟨rfl, ?_⟩
      simp only [println_out, write_out, consume_out]
      rw [conflictPrompt_out_eq]
      rfl
    · intro ht hed
      obtain ⟨rest, -, he⟩ := handleFileConflict_merge_answer env src dst t more w hans ht
      rw [he]
      obtain ⟨h1, -⟩ := openForMerge_result env src dst
        ((conflictPrompt src dst w).consume rest)
      rw [consume_files, conflictPrompt_files] at h1
      have hout := openForMerge_out env src dst ((conflictPrompt src dst w).consume rest)
      have hnone := h1.mpr hed
      cases hr : openForMerge env src dst ((conflictPrompt src dst w).consume rest) with
      | mk r w2 =>
        rw [hr] at hout hnone
        simp only at hout hnone
        subst hnone
        refine ⟨rfl, ?_⟩
        simp only [println_out]
        rw [hout, consume_out, conflictPrompt_out_eq]
        rfl
  · intro s d relPath rules hdir hext hrules hrel hmk
    obtain ⟨mf, mo, -, -⟩ := mkdirAll_effect env
      (filepathDir (filepathJoin targetDir relPath)) s.world
    refine ⟨mo, mf, ?_⟩
    rw [installCommandsVisit_made env sourceDir targetDir s d relPath rules hdir hext
      hrules hrel hmk]
    generalize (mkdirAll env (filepathDir (filepathJoin targetDir relPath)) s.world).2 = w0
    cases hr : copyFileWithConflictHandling env d.path (filepathJoin targetDir relPath)
      w0 with
    | mk r w1 =>
      cases r with
      | none => exact ⟨fun _ => ⟨rfl, rfl⟩, fun h => absurd h (by simp)⟩
      | some e =>
        refine ⟨fun h => absurd h (by simp), fun h => ?_⟩
        simp only [Option.some.injEq] at h
        subst h
        exact ⟨rfl, rfl⟩
  · intro role ruleNames s d hsel
    rw [installRulesVisit_selected env targetDir role ruleNames s d hsel]
    cases hr : copyFileWithConflictHandling env d.path
      (filepathJoin targetDir (fileName d.path)) s.world with
    | mk r w1 =>
      cases r with
      | none => exact ⟨fun _ => ⟨rfl, rfl⟩, fun h => absurd h (by simp)⟩
      | some e =>
        refine ⟨fun h => absurd h (by simp), fun h => ?_⟩
        simp only [Option.some.injEq] at h
        subst h
        exact ⟨rfl, rfl⟩
  · intro src dst
    exact ⟨path_within_msg _ _ _, path_within_msg _ _ _, path_within_msg _ _ _⟩
  · intro relPath
    exact path_within_msg _ _ _
  · intro role path
    exact ⟨⟨"  ✓ Installed rule for ".toList, ": ".toList ++ ruleId path ++ ['\n'],
        by simp [installedRuleLine]⟩,
      ⟨"  ✓ Installed rule for ".toList ++ role ++ ": ".toList, ['\n'],
        by simp [installedRuleLine]⟩⟩

set_option maxRecDepth 100000 in
/-- C10, an instance: the command document `commands/a.md` meets a destination with
another content and the user answers `o`; the resolution prints the prompt and
"→ Overwritten", and the walk adds the line "✓ Installed command: a.md". -/
theorem C10_instance_overwrite :
    (installCommandsVisit (fixtureEnv [("commands/a.md".toList, "new".toList)])
        "commands".toList "/t".toList
        ⟨[], 0, ⟨fun p => if p = "/t/a.md".toList then some "old".toList else none,
          ["o\n".toList], [], fun p => decide (p = "/t".toList)⟩⟩
        ⟨"commands/a.md".toList, false⟩).2.world.out =
      promptLines "commands/a.md".toList "/t/a.md".toList ++
        ["  → Overwritten\n".toList, "  ✓ Installed command: a.md\n".toList] :=
  have h := C10_status_lines (fixtureEnv [("commands/a.md".toList, "new".toList)])
    "commands".toList "/t".toList
  have hres := ((h.2.2.1 "commands/a.md".toList "/t/a.md".toList
    ⟨fun p => if p = "/t/a.md".toList then some "old".toList else none,
      ["o\n".toList], [], fun p => decide (p = "/t".toList)⟩ (by decide) (by decide)).2
    "o\n".toList [] (by decide)).2.1 (by decide) "new".toList (by decide) (by decide)
  have hvisit := (h.2.2.2.1
    ⟨[], 0, ⟨fun p => if p = "/t/a.md".toList then some "old".toList else none,
      ["o\n".toList], [], fun p => decide (p = "/t".toList)⟩⟩
    ⟨"commands/a.md".toList, false⟩ "a.md".toList [] (by decide) (by decide) (by decide)
    (by decide) (by decide)).2.2.1 hres.1
  hvisit.2.trans (congrArg (fun o => o ++ [installedCommandLine "a.md".toList]) hres.2)

/-! ## The rules of a role: claim C5 -/

set_option maxRecDepth 100000 in
/-- C5, as stated, fails: the rule group holds `style-guide.mdc`, `testing.mdc` and
`unused.mdc`, the list of the role is `style-guide`, `testing`, and the file system
refuses the creation of the destination of `style-guide.mdc`.  The walk stops at that
document with the error of the copy, wrapped with the path of the document; the document
`testing.mdc`, whose name ends in `.mdc` and whose identifier is in the list, is not
resolved: no file is installed and its destination is still absent. -/
theorem C5_failure_stops_before_selected_document :
    (installRulesForRole
        (refusingEnv [("rules/style-guide.mdc".toList, "style".toList),
          ("rules/testing.mdc".toList, "testing".toList),
          ("rules/unused.mdc".toList, "unused".toList)]
          ["/w/.cursor/rules/mozi/planner/style-guide.mdc".toList] [])
        "rules".toList "/w/.cursor/rules/mozi/planner".toList "planner".toList
        ["style-guide".toList, "testing".toList] ⟨fun _ => none, [], [], fun _ => false⟩).1 =
      some (.copying "rules/style-guide.mdc".toList
        (.create "/w/.cursor/rules/mozi/planner/style-guide.mdc".toList)) ∧
    (installRulesForRole
        (refusingEnv [("rules/style-guide.mdc".toList, "style".toList),
          ("rules/testing.mdc".toList, "testing".toList),
          ("rules/unused.mdc".toList, "unused".toList)]
          ["/w/.cursor/rules/mozi/planner/style-guide.mdc".toList] [])
        "rules".toList "/w/.cursor/rules/mozi/planner".toList "planner".toList
        ["style-guide".toList, "testing".toList]
        ⟨fun _ => none, [], [], fun _ => false⟩).2.count = 0 ∧
    (installRulesForRole
        (refusingEnv [("rules/style-guide.mdc".toList, "style".toList),
          ("rules/testing.mdc".toList, "testing".toList),
          ("rules/unused.mdc".toList, "unused".toList)]
          ["/w/.cursor/rules/mozi/planner/style-guide.mdc".toList] [])
        "rules".toList "/w/.cursor/rules/mozi/planner".toList "planner".toList
        ["style-guide".toList, "testing".toList]
        ⟨fun _ => none, [], [], fun _ => false⟩).2.world.files
      "/w/.cursor/rules/mozi/planner/testing.mdc".toList = none := by
  decide

/-- C5, amended: for every role, rule list, rule group and destination, a call of
`installRulesForRole` changes no destination path other than the files, in the
destination directory of the role, named after the documents of the group whose name
ends in `.mdc` and whose identifier occurs in the list (the selected documents); in
particular the path of a rule document whose identifier is not in the list is left as it
was.  A call that returns no error has reached every selected document, in walk order,
and its resolution into that file returned no error or `ErrSkipped`.  When the directory
can be created, the destinations of the selected documents are distinct, nothing
exists at any of them and every copy can be carried out, the call returns no error, its count is the
number of selected documents, every destination holds the content of its document, and
one line is printed for each of them, in walk order.  When the directory can be created
and every destination exists with the content of its document, the call returns no
error and the count 0, and changes no file.  When the directory cannot be created the
call returns that failure with the count 0 and the world as it is.  A call that returns
another error stopped at the first selected document whose resolution failed: the error
is that failure wrapped with the path of the document, and only destinations of that
document and of the selected documents before it can have changed. -/
theorem C5_rules_of_role (env : Env) (sourceDir targetDir role : Str) (ruleNames : List Str)
    (w : World) :
    (∀ q : Str,
      (∀ d ∈ env.walk sourceDir, isSelectedRule ruleNames d = true →
        q ≠ filepathJoin targetDir (fileName d.path)) →
      (installRulesForRole env sourceDir targetDir role ruleNames w).2.world.files q =
        w.files q) ∧
    (∀ d : DirEntry, hasSuffix (fileName d.path) mdcExt = true → ruleId d.path ∉ ruleNames →
      (installRulesForRole env sourceDir targetDir role ruleNames w).2.world.files
          (filepathJoin targetDir (fileName d.path)) =
        w.files (filepathJoin targetDir (fileName d.path))) ∧
    ((installRulesForRole env sourceDir targetDir role ruleNames w).1 = none →
      ∀ (pre : List DirEntry) (d : DirEntry) (post : List DirEntry),
        env.walk sourceDir = pre ++ d :: post → isSelectedRule ruleNames d = true →
        ∃ s0, walkDir (installRulesVisit env targetDir role (buildRuleMap ruleNames)) pre
            ⟨0, (mkdirAll env targetDir w).2⟩ = (none, s0) ∧
          ((copyFileWithConflictHandling env d.path
              (filepathJoin targetDir (fileName d.path)) s0.world).1 = none ∨
            (copyFileWithConflictHandling env d.path
              (filepathJoin targetDir (fileName d.path)) s0.world).1 = some .skipped)) ∧
    ((mkdirAll env targetDir w).1 = none →
      ((ruleJobs targetDir ruleNames (env.walk sourceDir)).map Prod.snd).Nodup →
      (∀ j ∈ ruleJobs targetDir ruleNames (env.walk sourceDir),
        w.files j.2 = none ∧ w.dirs j.2 = false) →
      (∀ j ∈ ruleJobs targetDir ruleNames (env.walk sourceDir), copyable env j = true) →
      (installRulesForRole env sourceDir targetDir role ruleNames w).1 = none ∧
      (installRulesForRole env sourceDir targetDir role ruleNames w).2.count =
        (ruleJobs targetDir ruleNames (env.walk sourceDir)).length ∧
      (∀ j ∈ ruleJobs targetDir ruleNames (env.walk sourceDir),
        (installRulesForRole env sourceDir targetDir role ruleNames w).2.world.files j.2 =
          env.data j.1) ∧
      (installRulesForRole env sourceDir targetDir role ruleNames w).2.world.out =
        w.out ++ ((env.walk sourceDir).filter (isSelectedRule ruleNames)).map
          (fun d => installedRuleLine role d.path)) ∧
    ((mkdirAll env targetDir w).1 = none →
      (∀ j ∈ ruleJobs targetDir ruleNames (env.walk sourceDir), Settled env w j) →
      (installRulesForRole env sourceDir targetDir role ruleNames w).1 = none ∧
      (installRulesForRole env sourceDir targetDir role ruleNames w).2.count = 0 ∧
      (installRulesForRole env sourceDir targetDir role ruleNames w).2.world.files = w.files ∧
      (installRulesForRole env sourceDir targetDir role ruleNames w).2.world.out = w.out) ∧
    ((mkdirAll env targetDir w).1 ≠ none →
      installRulesForRole env sourceDir targetDir role ruleNames w =
        (some (.creatingDir (.mkdir targetDir)), ⟨0, w⟩)) ∧
    (∀ (e : Err) (s : RulesState), (mkdirAll env targetDir w).1 = none →
      installRulesForRole env sourceDir targetDir role ruleNames w = (some e, s) →
      ∃ (pre : List DirEntry) (d : DirEntry) (post : List DirEntry) (s0 : RulesState)
          (e1 : Err),
        env.walk sourceDir = pre ++ d :: post ∧ isSelectedRule ruleNames d = true ∧
        walkDir (installRulesVisit env targetDir role (buildRuleMap ruleNames)) pre
          ⟨0, (mkdirAll env targetDir w).2⟩ = (none, s0) ∧
        copyFileWithConflictHandling env d.path (filepathJoin targetDir (fileName d.path))
          s0.world = (some e1, s.world) ∧
        e1 ≠ .skipped ∧ e = .copying d.path e1 ∧ s.count = s0.count ∧
        ∀ q : Str,
          (∀ x ∈ pre ++ [d], isSelectedRule ruleNames x = true →
            q ≠ filepathJoin targetDir (fileName x.path)) →
          s.world.files q = w.files q) := by
  have hmf : (mkdirAll env targetDir w).2.files = w.files := (mkdirAll_effect env targetDir w).1
  have hmo : (mkdirAll env targetDir w).2.out = w.out := (mkdirAll_effect env targetDir w).2.1
  have hframe : ∀ q : Str,
      (∀ d ∈ env.walk sourceDir, isSelectedRule ruleNames d = true →
        q ≠ filepathJoin targetDir (fileName d.path)) →
      (installRulesForRole env sourceDir targetDir role ruleNames w).2.world.files q =
        w.files q := by
    intro q hq
    cases hmk : (mkdirAll env targetDir w).1 with
    | some e =>
      rw [installRulesForRole_mkdir_fails env sourceDir targetDir role ruleNames w e hmk]
    | none =>
      rw [installRulesForRole_made env sourceDir targetDir role ruleNames w hmk,
        walkDir_rules_frame env targetDir role ruleNames (env.walk sourceDir) _ q hq]
      exact congrFun hmf q
  refine ⟨hframe, ?_, ?_, ?_, ?_, ?_, ?_⟩
  · intro d hsuf hid
    apply hframe
    intro p _ hsel heq
    have hname := filepathJoin_injective targetDir _ _ heq
    have hpid : ruleId p.path ∈ ruleNames := by
      unfold isSelectedRule at hsel
      simp only [Bool.and_eq_true, decide_eq_true_eq] at hsel
      exact hsel.2
    apply hid
    unfold ruleId at hpid ⊢
    rw [hname]
    exact hpid
  · intro hok pre d post hwalk hsel
    cases hr : installRulesForRole env sourceDir targetDir role ruleNames w with
    | mk r s =>
      rw [hr] at hok
      simp only at hok
      rw [hok] at hr
      obtain ⟨-, hw⟩ := installRulesForRole_none env sourceDir targetDir role ruleNames w s hr
      rw [hwalk] at hw
      obtain ⟨s0, s1, h0, h1, -⟩ := walkDir_reaches _ pre post d _ (by rw [hw])
      exact ⟨s0, h0,
        (installRulesVisit_ok env targetDir role ruleNames s0 s1 d hsel h1).1⟩
  · intro hmk hnodup habsent hcopy
    obtain ⟨s2, h1, h2, h3, -, -, h6⟩ := rules_fresh_run env targetDir role ruleNames
      (env.walk sourceDir) ⟨0, (mkdirAll env targetDir w).2⟩ hnodup
      (fun j hj => by
        refine ⟨by rw [hmf]; exact (habsent j hj).1, ?_⟩
        obtain ⟨d, -, hd⟩ := List.mem_map.mp hj
        simp only []
        rw [← hd, mkdirAll_dirs_longer env targetDir _ w (filepathJoin_longer _ _)]
        have := (habsent j hj).2
        rw [← hd] at this
        exact this) hcopy
    rw [installRulesForRole_made env sourceDir targetDir role ruleNames w hmk, h1]
    refine ⟨rfl, by simpa using h2, h3, ?_⟩
    rw [h6, hmo]
  · intro hmk hset
    rw [installRulesForRole_made env sourceDir targetDir role ruleNames w hmk,
      rules_second_run env targetDir role ruleNames (env.walk sourceDir)
        ⟨0, (mkdirAll env targetDir w).2⟩
        (fun j hj => (hset j hj).of_files (by rw [hmf]))]
    exact ⟨rfl, rfl, hmf, hmo⟩
  · intro hmk
    obtain ⟨e, he⟩ := Option.ne_none_iff_exists'.mp hmk
    exact installRulesForRole_mkdir_fails env sourceDir targetDir role ruleNames w e he
  · intro e s hmk hrun
    rw [installRulesForRole_made env sourceDir targetDir role ruleNames w hmk] at hrun
    obtain ⟨pre, d, post, s0, hds, hpre, hv⟩ := walkDir_first_error _ _ _ _ _ hrun
    obtain ⟨hsel, e1, hres, hne, he, hcount, hworld⟩ :=
      installRulesVisit_error env targetDir role ruleNames s0 s d e hv
    refine ⟨pre, d, post, s0, e1, hds, hsel, hpre, ?_, hne, he, hcount, ?_⟩
    · rw [hworld, ← hres]
    · intro q hq
      rw [hworld, (copyFileWithConflictHandling_effect env d.path _ s0.world).1 q
        (hq d (by simp) hsel)]
      have hfr := walkDir_rules_frame env targetDir role ruleNames pre
        ⟨0, (mkdirAll env targetDir w).2⟩ q
        (fun x hx hs => hq x (List.mem_append_left _ hx) hs)
      rw [hpre] at hfr
      rw [hfr]
      exact congrFun hmf q

set_option maxRecDepth 100000 in
/-- C5, the scenario of the specification: from the rule group `style-guide.mdc`,
`testing.mdc`, `unused.mdc` and the list `style-guide`, `testing` of the role `planner`,
a call on an empty destination returns no error and the count 2, installs the first two
documents under the directory of the role, and leaves the path of `unused.mdc` absent. -/
theorem C5_scenario_planner :
    (installRulesForRole
        (fixtureEnv [("rules/style-guide.mdc".toList, "style".toList),
          ("rules/testing.mdc".toList, "testing".toList),
          ("rules/unused.mdc".toList, "unused".toList)])
        "rules".toList "/w/.cursor/rules/mozi/planner".toList "planner".toList
        ["style-guide".toList, "testing".toList] ⟨fun _ => none, [], [], fun _ => false⟩).1 =
      none ∧
    (installRulesForRole
        (fixtureEnv [("rules/style-guide.mdc".toList, "style".toList),
          ("rules/testing.mdc".toList, "testing".toList),
          ("rules/unused.mdc".toList, "unused".toList)])
        "rules".toList "/w/.cursor/rules/mozi/planner".toList "planner".toList
        ["style-guide".toList, "testing".toList]
        ⟨fun _ => none, [], [], fun _ => false⟩).2.count = 2 ∧
    (installRulesForRole
        (fixtureEnv [("rules/style-guide.mdc".toList, "style".toList),
          ("rules/testing.mdc".toList, "testing".toList),
          ("rules/unused.mdc".toList, "unused".toList)])
        "rules".toList "/w/.cursor/rules/mozi/planner".toList "planner".toList
        ["style-guide".toList, "testing".toList]
        ⟨fun _ => none, [], [], fun _ => false⟩).2.world.files
      "/w/.cursor/rules/mozi/planner/style-guide.mdc".toList = some "style".toList ∧
    (installRulesForRole
        (fixtureEnv [("rules/style-guide.mdc".toList, "style".toList),
          ("rules/testing.mdc".toList, "testing".toList),
          ("rules/unused.mdc".toList, "unused".toList)])
        "rules".toList "/w/.cursor/rules/mozi/planner".toList "planner".toList
        ["style-guide".toList, "testing".toList]
        ⟨fun _ => none, [], [], fun _ => false⟩).2.world.files
      "/w/.cursor/rules/mozi/planner/testing.mdc".toList = some "testing".toList ∧
    (installRulesForRole
        (fixtureEnv [("rules/style-guide.mdc".toList, "style".toList),
          ("rules/testing.mdc".toList, "testing".toList),
          ("rules/unused.mdc".toList, "unused".toList)])
        "rules".toList "/w/.cursor/rules/mozi/planner".toList "planner".toList
        ["style-guide".toList, "testing".toList]
        ⟨fun _ => none, [], [], fun _ => false⟩).2.world.files
      "/w/.cursor/rules/mozi/planner/unused.mdc".toList = none :=
  have h := C5_rules_of_role
    (fixtureEnv [("rules/style-guide.mdc".toList, "style".toList),
      ("rules/testing.mdc".toList, "testing".toList),
      ("rules/unused.mdc".toList, "unused".toList)])
    "rules".toList "/w/.cursor/rules/mozi/planner".toList "planner".toList
    ["style-guide".toList, "testing".toList] ⟨fun _ => none, [], [], fun _ => false⟩
  have hfresh := h.2.2.2.1 (by decide) (by decide) (fun _ _ => ⟨rfl, rfl⟩) (by decide)
  ⟨hfresh.1, hfresh.2.1,
    hfresh.2.2.1 ("rules/style-guide.mdc".toList,
      "/w/.cursor/rules/mozi/planner/style-guide.mdc".toList) (by decide),
    hfresh.2.2.1 ("rules/testing.mdc".toList,
      "/w/.cursor/rules/mozi/planner/testing.mdc".toList) (by decide),
    h.2.1 ⟨"rules/unused.mdc".toList, false⟩ (by decide) (by decide)⟩

/-! ## Idempotence of the install command: claim C3 -/

set_option maxRecDepth 1000000 in
/-- C3, as stated, fails: the destination holds an older `planner.md` and the user
types `s` and the return key; the first run completes with exit status 0 and leaves the
older file.  The second run, with the same store, finds the same conflict, prompts
again, and with the answer `o` copies one command document: its command count is 1 and
it has read the answer. -/
theorem C3_skip_then_second_run_conflicts :
    (runInstall (fixtureEnv plannerStore) []
      ⟨olderPlanner, ["s\n".toList], [], fun _ => false⟩).exit = 0 ∧
    (runInstall (fixtureEnv plannerStore) []
      { (runInstall (fixtureEnv plannerStore) []
          ⟨olderPlanner, ["s\n".toList], [], fun _ => false⟩).world with
        stdin := ["o\n".toList] }).commandsCount = 1 ∧
    (runInstall (fixtureEnv plannerStore) []
      { (runInstall (fixtureEnv plannerStore) []
          ⟨olderPlanner, ["s\n".toList], [], fun _ => false⟩).world with
        stdin := ["o\n".toList] }).world.stdin = [] := by
  decide

/-- C3, amended: if a first install run completes successfully, no answer typed during
it asks for a skip or a merge, and no two documents it installs share a destination
path, then a second run with the same store and arguments against the resulting
destination, whatever the user would type and in whatever order the roles are visited,
completes successfully, copies zero files (command count 0 and total rule count 0),
leaves every file as it is, reads nothing from the input and prints only the header and
the summary: it reaches the conflict prompt for no file. -/
theorem C3_second_run_copies_nothing (env1 env2 : Env) (args : List Str) (base : Str)
    (w : World) (stdin2 : List Str)
    (hwalk : env2.walk = env1.walk) (hdata : env2.data = env1.data)
    (horder : ∀ m, (env2.rangeOrder m).Perm (env1.rangeOrder m))
    (hparse1 : parseInstallArgs env1 args = .dir base)
    (hparse2 : parseInstallArgs env2 args = .dir base)
    (hok : (runInstall env1 args w).exit = 0)
    (hchoices : NoSkipNoMerge w.stdin)
    (hdistinct :
      ((installJobs env1 (filepathJoin base ".cursor".toList)).map Prod.snd).Nodup) :
    (runInstall env2 args { (runInstall env1 args w).world with stdin := stdin2 }).exit = 0 ∧
    (runInstall env2 args
      { (runInstall env1 args w).world with stdin := stdin2 }).commandsCount = 0 ∧
    (runInstall env2 args
      { (runInstall env1 args w).world with stdin := stdin2 }).totalRulesCount = 0 ∧
    (runInstall env2 args
      { (runInstall env1 args w).world with stdin := stdin2 }).world.files =
        (runInstall env1 args w).world.files ∧
    (runInstall env2 args
      { (runInstall env1 args w).world with stdin := stdin2 }).world.stdin = stdin2 ∧
    (runInstall env2 args
      { (runInstall env1 args w).world with stdin := stdin2 }).world.out =
        (runInstall env1 args w).world.out ++
          [installHeader (filepathJoin base ".cursor".toList), ['\n'], ['\n'],
            installSummary 0 0 (filepathJoin base ".cursor".toList)] := by
  obtain ⟨hset, hgood, hd1, hd2, hd3⟩ :=
    first_run_settles env1 args base w hparse1 hok hchoices hdistinct
  have hgood2 : GoodCommands env2 "commands".toList (env2.walk "commands".toList) := by
    rw [hwalk]
    exact goodCommands_congr env1 env2 hdata _ _ hgood
  have hset2 : ∀ j ∈ installJobs env2 (filepathJoin base ".cursor".toList),
      Settled env2 { (runInstall env1 args w).world with stdin := stdin2 } j := by
    intro j hj
    refine (settled_congr env1 env2 hdata _ j (hset j ?_)).of_files rfl
    unfold installJobs at hj ⊢
    rw [hwalk, collectRoles_congr env1 env2 hdata] at hj
    rcases List.mem_append.mp hj with hj | hj
    · exact List.mem_append_left _ hj
    · apply List.mem_append_right
      rw [mem_allRuleJobs] at hj ⊢
      obtain ⟨e, he, hje⟩ := hj
      rw [hwalk] at hje
      exact ⟨e, (horder _).subset he, hje⟩
  have hdirs2 : DirsReady env2 (filepathJoin base ".cursor".toList)
      { (runInstall env1 args w).world with stdin := stdin2 } := by
    refine ⟨hd1, ?_, ?_⟩
    · rw [hwalk]
      exact hd2
    · intro e he
      rw [hwalk, collectRoles_congr env1 env2 hdata] at he
      exact hd3 e ((horder _).subset he)
  exact settled_run env2 args base _ hparse2 hgood2 hset2 hdirs2

set_option maxRecDepth 1000000 in
/-- C3, an instance: after a first run of the scenario store on an empty destination, a
second run copies nothing and leaves the answer `o` unread. -/
theorem C3_instance_fresh_destination :
    (runInstall (fixtureEnv plannerStore) []
      { (runInstall (fixtureEnv plannerStore) []
          ⟨fun _ => none, [], [], fun _ => false⟩).world with
        stdin := ["o\n".toList] }).commandsCount = 0 ∧
    (runInstall (fixtureEnv plannerStore) []
      { (runInstall (fixtureEnv plannerStore) []
          ⟨fun _ => none, [], [], fun _ => false⟩).world with
        stdin := ["o\n".toList] }).totalRulesCount = 0 ∧
    (runInstall (fixtureEnv plannerStore) []
      { (runInstall (fixtureEnv plannerStore) []
          ⟨fun _ => none, [], [], fun _ => false⟩).world with
        stdin := ["o\n".toList] }).world.stdin = ["o\n".toList] :=
  have h := C3_second_run_copies_nothing (fixtureEnv plannerStore) (fixtureEnv plannerStore) []
    "/work".toList ⟨fun _ => none, [], [], fun _ => false⟩ ["o\n".toList] rfl rfl
    (fun _ => List.Perm.refl _)
    (by decide) (by decide) (by decide) (fun l hl => absurd hl (List.not_mem_nil l))
    (by decide)
  ⟨h.2.1, h.2.2.1, h.2.2.2.2.1⟩

end Mozi
